import Mathlib

/-!
Artha CLI: development loop and dependency manager

A shallow embedding of `cli/src/commands/dev.js` (the change orchestrator, the
process supervisor and the build step) and of
`cli/src/utils/dependency-manager.js` (the dependency resolver), together with
the properties of the design document that can be stated over them.

The development loop is event driven.  Its module state (`javaProcess`,
`isRestarting`) and the pending continuations of its asynchronous functions are
kept in an explicit `State`; every callback the Node event loop can run is one
`Event`, and `step` runs that callback to its next suspension point, promise
continuations (microtasks) included.  Several flows may be suspended at once in
the model; that at most one ever is, is a theorem about the guard.  The clock
only constrains timers from below: a timer fires at or after its deadline.

Left out: console colours, the SIGINT handler (which ends the process), and
exceptions thrown by the Node primitives themselves (`ChildProcess.kill`, an
'error' event of the compiler process).

The dependency manager is a function of the file system and of what the
network answers; a promise that nothing can settle any more is `pending`.
Paths are joined as POSIX `path.join` does.

The artifact locator is a function of its candidate list and of what the file
system answers for each candidate: it does not exist, it is listed, or it
exists and `readdirSync` throws.  The source discovery is a function of the
tree under the source directory; failures of `readdir` and `stat` reach the
development loop as the rejection carried by the event `findJavaFilesDone`.
-/

namespace Artha

namespace Dev

/-- Identity of a `ChildProcess` object returned by `spawn('java', ...)`. -/
abbrev Pid := Nat

/-- The two signals `dev.js` passes to `ChildProcess.kill`. -/
inductive Signal
  | SIGTERM
  | SIGKILL
  deriving DecidableEq, Repr

/-- What `devCommand` fixes before the first cycle: `srcDir`, the located runtime
jar, the port, and `process.platform === 'win32'`. -/
structure Config where
  srcDir : String
  runtimeJar : String
  port : String
  isWindows : Bool
  deriving DecidableEq, Repr

/-- Observable actions, in the order the program performs them. -/
inductive Action
  /-- `console.log(msg)` -/
  | console (msg : String)
  /-- `ora(msg).start()` -/
  | spinnerStart (msg : String)
  /-- `spinner.succeed(msg)` -/
  | spinnerSucceed (msg : String)
  /-- `spinner.fail(msg)` -/
  | spinnerFail (msg : String)
  /-- entry of `killServerGracefully()`; `call` names the promise it returns -/
  | callKill (call : Nat)
  /-- `javaProcess.kill(sig)` on the child `pid` -/
  | kill (pid : Pid) (sig : Signal)
  /-- `spawn('taskkill', ['/pid', pid, '/f', '/t'])` -/
  | taskkill (pid : Pid)
  /-- entry of `compile(javaFiles, runtimeJar)`: the compiler is spawned with `command` -/
  | callCompile (command : String)
  /-- entry of `startServer(runtimeJar, port)` -/
  | callStartServer
  /-- `spawn('java', args)` returned the child `pid` -/
  | spawnJava (pid : Pid) (args : List String)
  deriving DecidableEq, Repr

/-- Who awaits `compileAndStart`: `devCommand` itself (line 36) or the watcher's
'change' handler (line 59). -/
inductive Caller
  | startup
  | handler
  deriving DecidableEq, Repr

/-- The suspension point at which the flow in flight is waiting. -/
inductive Phase
  /-- `await killServerGracefully()` (line 56), on the promise `call` -/
  | awaitStop (call : Nat)
  /-- `await fs.ensureDir('build')` (line 109) -/
  | awaitEnsureDir
  /-- `await findJavaFiles(srcDir)` (line 112) -/
  | awaitFindJavaFiles
  /-- `await compile(javaFiles, runtimeJar)` (line 120) -/
  | awaitCompile
  /-- `await new Promise(resolve => setTimeout(resolve, 500))` (line 124), due at `deadline` -/
  | awaitDelay (deadline : Nat)
  deriving DecidableEq, Repr

/-- A suspended asynchronous flow: the call of `compileAndStart` made by
`devCommand`, or one invocation of the 'change' handler. -/
structure Flow where
  id : Nat
  caller : Caller
  phase : Phase
  deriving DecidableEq, Repr

/-- Outcome of `spawn('java', ...)` inside `startServer`. -/
inductive SpawnResult
  /-- the process was created -/
  | ok
  /-- `spawn` returned a child that emits 'error' (no process exists) -/
  | asyncError (msg : String)
  /-- `spawn` threw -/
  | throws (msg : String)
  deriving DecidableEq, Repr

/-- Module state of `dev.js` plus the event-loop state it depends on. -/
structure State where
  /-- `let javaProcess` (line 8): the worker slot -/
  javaProcess : Option Pid
  /-- `let isRestarting` (line 9): the single-flight guard -/
  isRestarting : Bool
  /-- the chokidar watcher has been created (line 41) -/
  watching : Bool
  /-- the asynchronous flows that are suspended -/
  flows : List Flow
  /-- identity of the next flow -/
  nextFlow : Nat
  /-- clock, in milliseconds -/
  now : Nat
  /-- identity of the next child process -/
  nextPid : Nat
  /-- identity of the next `killServerGracefully` promise -/
  nextCall : Nat
  /-- spawned worker processes whose 'exit' has not been emitted -/
  live : List Pid
  /-- 'exit' listeners added at line 81: (child listened on, promise to resolve) -/
  exitListeners : List (Pid × Nat)
  /-- pending timers of line 94: (promise to resolve, deadline) -/
  graceTimers : List (Nat × Nat)
  /-- `killServerGracefully` promises that have resolved -/
  resolved : List Nat
  /-- actions performed so far, oldest first -/
  trace : List Action
  deriving DecidableEq, Repr

/-- Callbacks the event loop can deliver.  The settlement of an awaited
operation names the flow that awaits it. -/
inductive Event
  /-- chokidar 'change' notification for `filePath` -/
  | change (filePath : String)
  /-- 'exit' of the worker `pid` with `code` (`none` is `null`: killed by a signal) -/
  | workerExit (pid : Pid) (code : Option Int)
  /-- expiry of the 3000 ms timer of the `killServerGracefully` promise `call` -/
  | graceTimeout (call : Nat)
  /-- `fs.ensureDir('build')` settled: `none` fulfilled, `some msg` rejected -/
  | ensureDirDone (flow : Nat) (error : Option String)
  /-- `findJavaFiles(srcDir)` settled with the file list or an error -/
  | findJavaFilesDone (flow : Nat) (result : Except String (List String))
  /-- 'close' of the compiler process with `code` and the collected `stderr` -/
  | compileClose (flow : Nat) (code : Option Int) (stderr : String)
  /-- expiry of the 500 ms delay; `spawn` is what `spawn('java', ...)` then does -/
  | delayElapsed (flow : Nat) (spawn : SpawnResult)
  /-- time passes -/
  | advance (ms : Nat)
  deriving Repr

/-- Append one action to the trace. -/
def State.emit (s : State) (a : Action) : State :=
  { s with trace := s.trace ++ [a] }

/-- The flow `id` suspends at `phase`. -/
def State.suspend (s : State) (id : Nat) (caller : Caller) (phase : Phase) : State :=
  { s with flows := s.flows.filter (fun f => f.id ≠ id) ++ [⟨id, caller, phase⟩] }

/-- The flow `id` has run to its end. -/
def State.finish (s : State) (id : Nat) : State :=
  { s with flows := s.flows.filter (fun f => f.id ≠ id) }

/-- The suspension point of the flow `id`, if it is suspended. -/
def State.flow? (s : State) (id : Nat) : Option Flow :=
  s.flows.find? (fun f => f.id = id)

/-- A promise of `killServerGracefully` resolves; resolving again changes nothing. -/
def State.resolve (s : State) (call : Nat) : State :=
  if call ∈ s.resolved then s else { s with resolved := s.resolved ++ [call] }

/-- The caller of `compileAndStart` resumes after `await compileAndStart(...)`:
the 'change' handler executes `isRestarting = false` (line 60) and returns;
`devCommand` prints the watch banner and creates the watcher (lines 39-46). -/
def resumeCaller (id : Nat) (caller : Caller) (s : State) : State :=
  match caller with
  | .handler => { s with isRestarting := false }.finish id
  | .startup =>
    { (s.emit (.console "\n👀 Watching for changes... (Press Ctrl+C to stop)\n")) with
      watching := true }.finish id

/-- The `catch (error)` block of `compileAndStart` (lines 129-132). -/
def compileFailed (id : Nat) (caller : Caller) (message : String) (s : State) : State :=
  resumeCaller id caller
    ((s.emit (.spinnerFail "Compilation failed")).emit (.console ("\n" ++ message)))

/-- `compileAndStart` up to its first suspension point (lines 104-109). -/
def compileAndStart (id : Nat) (caller : Caller) (s : State) : State :=
  (s.emit (.spinnerStart "Compiling...")).suspend id caller .awaitEnsureDir

/-- `compileAndStart` from the settlement of `fs.ensureDir('build')` to the call
of `findJavaFiles` (lines 109-112). -/
def afterEnsureDir (id : Nat) (caller : Caller) (error : Option String) (s : State) : State :=
  match error with
  | some msg => compileFailed id caller msg s
  | none => s.suspend id caller .awaitFindJavaFiles

/-- `compile(javaFiles, runtimeJar)` up to the spawn of the compiler (lines 135-145);
both branches of the platform test build the same command. -/
def compile (cfg : Config) (javaFiles : List String) (s : State) : State :=
  s.emit (.callCompile
    ("javac -cp \"" ++ cfg.runtimeJar ++ "\" -d build " ++ " ".intercalate javaFiles))

/-- `compileAndStart` from the settlement of `findJavaFiles` to the await of
`compile` (lines 112-120). -/
def afterFindJavaFiles (cfg : Config) (id : Nat) (caller : Caller)
    (result : Except String (List String)) (s : State) : State :=
  match result with
  | .error msg => compileFailed id caller msg s
  | .ok javaFiles =>
    if javaFiles.length = 0 then
      resumeCaller id caller (s.emit (.spinnerFail ("No Java files found in " ++ cfg.srcDir)))
    else
      (compile cfg javaFiles s).suspend id caller .awaitCompile

/-- `startServer(runtimeJar, port)` (lines 163-186).  The assignment to
`javaProcess` happens only when `spawn` returns; a child that failed to spawn
emits 'error', handled at line 177, and never 'exit'. -/
def startServer (cfg : Config) (spawn : SpawnResult) (s : State) : Except String State :=
  let classpath :=
    if cfg.isWindows then cfg.runtimeJar ++ ";build" else cfg.runtimeJar ++ ":build"
  let args := ["-Dartha.port=" ++ cfg.port, "-cp", classpath, "dev.artha.core.Runtime"]
  let s := s.emit .callStartServer
  match spawn with
  | .throws msg => .error msg
  | .ok =>
    .ok { (s.emit (.spawnJava s.nextPid args)) with
          javaProcess := some s.nextPid, nextPid := s.nextPid + 1,
          live := s.live ++ [s.nextPid] }
  | .asyncError msg =>
    .ok { ((s.emit (.spawnJava s.nextPid args)).emit
            (.console ("❌ Failed to start server: " ++ msg))) with
          javaProcess := some s.nextPid, nextPid := s.nextPid + 1 }

/-- `compileAndStart` from the 'close' of the compiler to the 500 ms delay
(lines 120-124, with the `javac.on('close')` callback of lines 153-159). -/
def afterCompile (id : Nat) (caller : Caller) (code : Option Int) (stderr : String)
    (s : State) : State :=
  if code ≠ some 0 then
    compileFailed id caller stderr s
  else
    (s.emit (.spinnerSucceed "Compiled successfully")).suspend id caller
      (.awaitDelay (s.now + 500))

/-- `compileAndStart` from the end of the delay to its return (lines 124-128). -/
def afterDelay (cfg : Config) (id : Nat) (caller : Caller) (spawn : SpawnResult)
    (s : State) : State :=
  match startServer cfg spawn s with
  | .ok s1 => resumeCaller id caller s1
  | .error msg => compileFailed id caller msg (s.emit .callStartServer)

/-- `killServerGracefully()` up to the return of its promise (lines 74-102).  The
result names the promise. -/
def killServerGracefully (cfg : Config) (s : State) : State × Nat :=
  let call := s.nextCall
  let s := { (s.emit (.callKill call)) with nextCall := call + 1 }
  match s.javaProcess with
  | none => (s.resolve call, call)
  | some pid =>
    let s := { s with exitListeners := s.exitListeners ++ [(pid, call)] }
    let s := s.emit (if cfg.isWindows then .taskkill pid else .kill pid .SIGTERM)
    ({ s with graceTimers := s.graceTimers ++ [(call, s.now + 3000)] }, call)

/-- The watcher's 'change' handler up to its first suspension point or its
return (lines 46-61). -/
def onChange (cfg : Config) (filePath : String) (s : State) : State :=
  if s.isRestarting then
    s.emit (.console "⏳ Already restarting, please wait...")
  else
    let id := s.nextFlow
    let s := { s with isRestarting := true, nextFlow := id + 1 }
    let s := s.emit (.console ("\n📝 File changed: " ++ filePath))
    match s.javaProcess with
    | some _ =>
      let r := killServerGracefully cfg s
      r.1.suspend id .handler (.awaitStop r.2)
    | none => compileAndStart id .handler s

/-- Rendering of an exit code in a template literal. -/
def showCode : Option Int → String
  | some c => toString c
  | none => "null"

/-- The test `code !== 0 && code !== null && !isRestarting` of line 182. -/
def reportsExit (code : Option Int) (isRestarting : Bool) : Bool :=
  code ≠ some 0 && code ≠ none && !isRestarting

/-- The 'exit' listener installed by `startServer` (lines 181-185). -/
def onServerExit (code : Option Int) (s : State) : State :=
  if reportsExit code s.isRestarting then
    s.emit (.console ("\n❌ Server stopped with code " ++ showCode code))
  else s

/-- The 'exit' listener added by `killServerGracefully` (lines 81-84), for the
promise `call`. -/
def onStopExit (call : Nat) (s : State) : State :=
  { s with javaProcess := none }.resolve call

/-- Promise continuations run once the current callback has returned: a 'change'
handler suspended on a `killServerGracefully` promise that has resolved goes on
with `compileAndStart` (line 59). -/
def runMicrotasks (s : State) : State :=
  s.flows.foldl
    (fun acc f =>
      match f.phase with
      | .awaitStop call => if call ∈ acc.resolved then compileAndStart f.id f.caller acc else acc
      | _ => acc)
    s

/-- Emission of 'exit' on the child `pid`: the listener of `startServer` first,
then those of `killServerGracefully` in the order they were added. -/
def onWorkerExit (pid : Pid) (code : Option Int) (s : State) : State :=
  let s := onServerExit code s
  let calls := (s.exitListeners.filter (fun l => l.1 = pid)).map (fun l => l.2)
  let s := calls.foldl (fun acc call => onStopExit call acc) s
  runMicrotasks
    { s with live := s.live.filter (fun p => p ≠ pid),
             exitListeners := s.exitListeners.filter (fun l => l.1 ≠ pid) }

/-- The timer callback of `killServerGracefully` (lines 94-100), for the promise
`call`. -/
def onGraceTimeout (call : Nat) (s : State) : State :=
  let s := { s with graceTimers := s.graceTimers.filter (fun t => t.1 ≠ call) }
  let s :=
    match s.javaProcess with
    | some pid => { (s.emit (.kill pid .SIGKILL)) with javaProcess := none }
    | none => s
  runMicrotasks (s.resolve call)

/-- Deadline of the pending grace timer of the promise `call`. -/
def graceDeadline (s : State) (call : Nat) : Option Nat :=
  (s.graceTimers.find? (fun t => t.1 = call)).map (fun t => t.2)

/-- One callback of the event loop; `none` when the event cannot occur in `s`. -/
def step (cfg : Config) (s : State) : Event → Option State
  | .change filePath => if s.watching then some (onChange cfg filePath s) else none
  | .workerExit pid code => if pid ∈ s.live then some (onWorkerExit pid code s) else none
  | .graceTimeout call =>
    match graceDeadline s call with
    | some deadline => if deadline ≤ s.now then some (onGraceTimeout call s) else none
    | none => none
  | .ensureDirDone id error =>
    match s.flow? id with
    | some ⟨_, caller, .awaitEnsureDir⟩ => some (afterEnsureDir id caller error s)
    | _ => none
  | .findJavaFilesDone id result =>
    match s.flow? id with
    | some ⟨_, caller, .awaitFindJavaFiles⟩ => some (afterFindJavaFiles cfg id caller result s)
    | _ => none
  | .compileClose id code stderr =>
    match s.flow? id with
    | some ⟨_, caller, .awaitCompile⟩ => some (afterCompile id caller code stderr s)
    | _ => none
  | .delayElapsed id spawn =>
    match s.flow? id with
    | some ⟨_, caller, .awaitDelay deadline⟩ =>
      if deadline ≤ s.now then some (afterDelay cfg id caller spawn s) else none
    | _ => none
  | .advance ms => some { s with now := s.now + ms }

/-- A sequence of callbacks, in order. -/
def run (cfg : Config) (s : State) : List Event → Option State
  | [] => some s
  | e :: es =>
    match step cfg s e with
    | some s1 => run cfg s1 es
    | none => none

/-- The state in which `devCommand` calls `compileAndStart` for the first time
(line 36): both module variables have their initial values. -/
def init : State :=
  compileAndStart 0 .startup
    { javaProcess := none, isRestarting := false, watching := false, flows := [],
      nextFlow := 1, now := 0, nextPid := 0, nextCall := 0, live := [],
      exitListeners := [], graceTimers := [], resolved := [], trace := [] }

/-- States the orchestrator can be in. -/
def Reachable (cfg : Config) (s : State) : Prop :=
  ∃ events, run cfg init events = some s

/-- Number of calls of `compile` in a trace. -/
def compileCalls (trace : List Action) : Nat :=
  trace.countP (fun a => match a with | .callCompile _ => true | _ => false)

/-- Number of calls of `startServer` in a trace. -/
def startServerCalls (trace : List Action) : Nat :=
  trace.countP (fun a => match a with | .callStartServer => true | _ => false)

/-- Number of calls of `killServerGracefully` in a trace. -/
def killCalls (trace : List Action) : Nat :=
  trace.countP (fun a => match a with | .callKill _ => true | _ => false)

/-- The guard `isRestarting` is set in `s` and in every state from which a later
callback of `events` runs, and each of those callbacks can occur. -/
def guardHeld (cfg : Config) (s : State) : List Event → Bool
  | [] => true
  | e :: es =>
    s.isRestarting &&
      match step cfg s e with
      | some s1 => guardHeld cfg s1 es
      | none => false

/-- Identities handed out so far are below the next ones. -/
def Fresh (s : State) : Prop :=
  (∀ t ∈ s.graceTimers, t.1 < s.nextCall) ∧
  (∀ l ∈ s.exitListeners, l.2 < s.nextCall) ∧
  (∀ c ∈ s.resolved, c < s.nextCall) ∧
  (∀ p ∈ s.live, p < s.nextPid)

/-- What a suspended flow may rely on. -/
def phaseOk (s : State) (caller : Caller) : Phase → Prop
  | .awaitStop c => caller = .handler ∧ c ∉ s.resolved ∧ (graceDeadline s c).isSome = true
  | _ => s.javaProcess = none

/-- At most one flow is suspended, and the guard is set exactly while that flow
is an invocation of the 'change' handler. -/
def Shape (s : State) : Prop :=
  match s.flows with
  | [] => s.watching = true ∧ s.isRestarting = false
  | [f] =>
    s.watching = (f.caller == .handler) ∧ s.isRestarting = (f.caller == .handler) ∧
      phaseOk s f.caller f.phase
  | _ => False

/-- The promises resolved by the 'exit' of `pid`. -/
def exitCalls (s : State) (pid : Pid) : List Nat :=
  (s.exitListeners.filter (fun l => l.1 = pid)).map (fun l => l.2)

/-- Calls of `compile` a flow suspended at the given point can still make. -/
def compileBudget : Phase → Nat
  | .awaitStop _ => 1
  | .awaitEnsureDir => 1
  | .awaitFindJavaFiles => 1
  | .awaitCompile => 0
  | .awaitDelay _ => 0

/-- Calls of `compile` made so far plus those the suspended flows can still make. -/
def compilePotential (s : State) : Nat :=
  compileCalls s.trace + (s.flows.map (fun f => compileBudget f.phase)).sum

/-- Calls of `startServer` made so far plus those the suspended flows can still make. -/
def startPotential (s : State) : Nat :=
  startServerCalls s.trace + s.flows.length

/-- Configuration used in the worked scenarios. -/
def sampleConfig : Config :=
  { srcDir := "src", runtimeJar := "runtime/target/artha-runtime-1.0.jar", port := "8080",
    isWindows := false }

/-- The first build succeeds and worker 0 is started 500 ms after the compiler
closed. -/
def startupEvents : List Event :=
  [.ensureDirDone 0 none, .findJavaFilesDone 0 (.ok ["src/App.java"]),
   .compileClose 0 (some 0) "", .advance 500, .delayElapsed 0 .ok]

/-- A file changes and `stop()` is called; the exit of worker 0 is observed
1000 ms after the termination signal. -/
def gracefulStopEvents : List Event :=
  [.change "src/App.java", .advance 1000, .workerExit 0 none]

/-- The rebuild of flow 1 takes 1000 ms and the worker is started 500 ms later. -/
def rebuildEvents : List Event :=
  [.ensureDirDone 1 none, .findJavaFilesDone 1 (.ok ["src/App.java"]), .advance 1000,
   .compileClose 1 (some 0) "", .advance 500, .delayElapsed 1 .ok]

/-- The workers that were sent SIGKILL, in order. -/
def sigkilled (trace : List Action) : List Pid :=
  trace.filterMap (fun a => match a with | .kill pid .SIGKILL => some pid | _ => none)

/-- A file changes; worker 0 has not exited when the grace timer fires; the
rebuild succeeds and worker 1 is started. -/
def slowExitEvents : List Event :=
  [.change "src/App.java", .advance 3000, .graceTimeout 0, .ensureDirDone 1 none,
   .findJavaFilesDone 1 (.ok ["src/App.java"]), .compileClose 1 (some 0) "",
   .advance 500, .delayElapsed 1 .ok]

/-- One way a rebuild-and-restart cycle can go. -/
structure Outcome where
  /-- how the awaited `stop()` ends when a worker is in the slot: `some code`, the
  exit of the worker with `code` is observed first (a worker that is not live
  never exits); `none`, the grace timer fires first -/
  workerExit : Option (Option Int)
  /-- `fs.ensureDir('build')`: `none` fulfilled, `some msg` rejected -/
  ensureDir : Option String
  /-- what `findJavaFiles(srcDir)` settles with -/
  javaFiles : Except String (List String)
  /-- exit code of the compiler -/
  compilerCode : Option Int
  /-- error output of the compiler -/
  compilerStderr : String
  /-- what `spawn('java', ...)` does -/
  spawn : SpawnResult

/-- The callbacks that end the `stop()` awaited by a cycle accepted in `s`. -/
def stopEvents (s : State) (o : Outcome) : List Event :=
  match s.javaProcess with
  | none => []
  | some pid =>
    match o.workerExit with
    | some code =>
      if pid ∈ s.live then [.workerExit pid code]
      else [.advance 3000, .graceTimeout s.nextCall]
    | none => [.advance 3000, .graceTimeout s.nextCall]

/-- The callbacks that take `compileAndStart`, run by the flow `id`, to its end. -/
def buildEvents (id : Nat) (o : Outcome) : List Event :=
  match o.ensureDir with
  | some msg => [.ensureDirDone id (some msg)]
  | none =>
    .ensureDirDone id none ::
      match o.javaFiles with
      | .error msg => [.findJavaFilesDone id (.error msg)]
      | .ok files =>
        .findJavaFilesDone id (.ok files) ::
          if files.length = 0 then []
          else
            .compileClose id o.compilerCode o.compilerStderr ::
              if o.compilerCode = some 0 then [.advance 500, .delayElapsed id o.spawn] else []

/-- A change notification accepted in `s` and the callbacks of its cycle. -/
def cycleEvents (s : State) (filePath : String) (o : Outcome) : List Event :=
  .change filePath :: (stopEvents s o ++ buildEvents s.nextFlow o)

/-- The state after the first build: worker 0 runs and the watcher is installed. -/
def runningState : State :=
  (run sampleConfig init startupEvents).getD init

/-- The state in which the cycle of the first change has just been accepted. -/
def acceptedState : State :=
  onChange sampleConfig "src/App.java" runningState

/-- A cycle during which two more change notifications arrive: one while `stop()`
is awaited, one while the compiler runs. -/
def overlappingEvents : List Event :=
  [.change "src/App.java", .advance 1000, .workerExit 0 none, .ensureDirDone 1 none,
   .findJavaFilesDone 1 (.ok ["src/App.java"]), .change "src/Util.java", .advance 1000,
   .compileClose 1 (some 0) "", .advance 500, .delayElapsed 1 .ok]

/-- The state in which the delay of the second build has elapsed, worker 0 having
been sent SIGKILL by the grace timer without its exit being observed. -/
def beforeSecondStart : State :=
  (run sampleConfig runningState (slowExitEvents.take 7)).getD init

/-- An outcome in which the worker exits with code 143 on the termination signal
and the compiler rejects the sources. -/
def rejectedBuild : Outcome :=
  { workerExit := some (some 143), ensureDir := none, javaFiles := .ok ["src/App.java"],
    compilerCode := some 1, compilerStderr := "error: cannot find symbol", spawn := .ok }

end Dev

namespace Deps

/-! The dependency manager, `dependency-manager.js`. -/

/-- A JavaScript object whose values are strings, as `JSON.parse` builds the
`dependencies` field: its own properties in insertion order. -/
abbrev JsObject := List (String × String)

/-- Value of `o[k]`, `none` for `undefined`. Only keys that `Object.prototype`
does not define are looked up this way. -/
def JsObject.get (o : JsObject) (k : String) : Option String :=
  (o.find? (fun p => p.1 = k)).map (fun p => p.2)

/-- The assignment `o[k] = v`: an existing property keeps its place, a new one
comes last. -/
def JsObject.set (o : JsObject) (k v : String) : JsObject :=
  if o.any (fun p => p.1 = k) then o.map (fun p => if p.1 = k then (k, v) else p)
  else o ++ [(k, v)]

/-- Truthiness of `o[k]`: `undefined` and the empty string are falsy. -/
def truthy : Option String → Bool
  | some v => v ≠ ""
  | none => false

/-- The numeric value of a key that is an array index: a canonical decimal
numeral below `2^32 - 1`. -/
def arrayIndex? (k : String) : Option Nat :=
  let cs := k.data
  if cs ≠ [] ∧ cs.all Char.isDigit ∧ (cs.head? ≠ some '0' ∨ cs.length = 1) then
    let n := cs.foldl (fun acc c => 10 * acc + (c.toNat - '0'.toNat)) 0
    if n < 4294967295 then some n else none
  else none

/-- Insertion of an indexed property in ascending order of index. -/
def insertIndexed (x : Nat × String × String) :
    List (Nat × String × String) → List (Nat × String × String)
  | [] => [x]
  | y :: ys => if x.1 < y.1 then x :: y :: ys else y :: insertIndexed x ys

/-- The pairs of `Object.entries(o)`: array-index keys first, in ascending
numeric order, then the other keys in insertion order. -/
def entries (o : JsObject) : List (String × String) :=
  ((o.filterMap (fun p => (arrayIndex? p.1).map (fun n => (n, p)))).foldr
      insertIndexed []).map (fun x => x.2) ++
    o.filter (fun p => (arrayIndex? p.1).isNone)

/-- The pieces of `cs` between occurrences of `sep`. -/
def splitChars (sep : Char) : List Char → List (List Char)
  | [] => [[]]
  | c :: cs =>
    if c = sep then [] :: splitChars sep cs
    else
      match splitChars sep cs with
      | [] => [[c]]
      | p :: ps => (c :: p) :: ps

/-- The array of `s.split(sep)` for a one-character separator. -/
def jsSplit (s : String) (sep : Char) : List String :=
  (splitChars sep s.data).map String.mk

/-- The string of `s.replace(/\./g, '/')`. -/
def replaceDots (s : String) : String :=
  String.mk (s.data.map (fun c => if c = '.' then '/' else c))

/-- Segment resolution of POSIX `path.normalize`: empty and `.` segments are
dropped, `..` removes the segment before it; `acc` holds the kept segments, last
one first. -/
def normalizeSegments (allowAboveRoot : Bool) :
    List (List Char) → List (List Char) → List (List Char)
  | acc, [] => acc.reverse
  | acc, seg :: rest =>
    if seg = [] ∨ seg = ['.'] then normalizeSegments allowAboveRoot acc rest
    else if seg = ['.', '.'] then
      match acc with
      | top :: below =>
        if top = ['.', '.'] then
          normalizeSegments allowAboveRoot (if allowAboveRoot then seg :: acc else acc) rest
        else normalizeSegments allowAboveRoot below rest
      | [] => normalizeSegments allowAboveRoot (if allowAboveRoot then [seg] else []) rest
    else normalizeSegments allowAboveRoot (seg :: acc) rest

/-- POSIX `path.normalize`. -/
def pathNormalize (p : List Char) : List Char :=
  if p = [] then ['.']
  else
    let isAbsolute := p.head? = some '/'
    let trailing := p.getLast? = some '/'
    let body := ['/'].intercalate (normalizeSegments (!isAbsolute) [] (splitChars '/' p))
    if body = [] then
      if isAbsolute then ['/'] else if trailing then ['.', '/'] else ['.']
    else (if isAbsolute then ['/'] else []) ++ body ++ (if trailing then ['/'] else [])

/-- POSIX `path.join(...parts)`. -/
def pathJoin (parts : List String) : String :=
  let used := parts.filter (fun p => p ≠ "")
  if used = [] then "." else String.mk (pathNormalize ("/".intercalate used).data)

/-- The table `DEPENDENCY_MAP` (lines 7-19). -/
def DEPENDENCY_MAP : List (String × String) :=
  [("postgresql", "org.postgresql:postgresql"),
   ("mysql", "com.mysql:mysql-connector-j"),
   ("redis", "redis.clients:jedis"),
   ("lombok", "org.projectlombok:lombok"),
   ("gson", "com.google.code.gson:gson"),
   ("jwt", "com.auth0:java-jwt"),
   ("mongodb", "org.mongodb:mongodb-driver-sync"),
   ("sqlite", "org.xerial:sqlite-jdbc"),
   ("jackson", "com.fasterxml.jackson.core:jackson-databind"),
   ("jackson-core", "com.fasterxml.jackson.core:jackson-core"),
   ("jackson-annotations", "com.fasterxml.jackson.core:jackson-annotations")]

/-- The property names every object literal inherits from `Object.prototype`;
each is bound to a function, `__proto__` to the prototype object itself. -/
def objectPrototypeKeys : List String :=
  ["constructor", "__defineGetter__", "__defineSetter__", "hasOwnProperty",
   "__lookupGetter__", "__lookupSetter__", "isPrototypeOf", "propertyIsEnumerable",
   "toString", "valueOf", "__proto__", "toLocaleString"]

/-- What a property read on `DEPENDENCY_MAP` can yield. -/
inductive JsValue
  /-- no own and no inherited property -/
  | undefined
  /-- an own property of the table -/
  | string (s : String)
  /-- the function or object inherited from `Object.prototype` under `key` -/
  | inherited (key : String)
  deriving DecidableEq, Repr

/-- The property read `DEPENDENCY_MAP[name]` (line 59): own properties first,
then the prototype chain. -/
def lookupDependency (name : String) : JsValue :=
  match (DEPENDENCY_MAP.find? (fun p => p.1 = name)).map (fun p => p.2) with
  | some coords => .string coords
  | none => if name ∈ objectPrototypeKeys then .inherited name else .undefined

/-- Errors with which the promises of the dependency manager reject. -/
inductive DepError
  /-- `new Error('Unknown dependency: ' + name)` (line 60) -/
  | unknownDependency (name : String)
  /-- a `TypeError` raised by the runtime -/
  | typeError (message : String)
  /-- rejection of the `axios` request: no response, timeout, or a status outside 2xx -/
  | requestFailed (message : String)
  /-- 'error' of the write stream -/
  | writeFailed (message : String)
  /-- failure of `fs.readJson` or `fs.ensureDir` -/
  | fileSystem (message : String)
  deriving DecidableEq, Repr

/-- The `message` of an error. -/
def DepError.message : DepError → String
  | .unknownDependency name => "Unknown dependency: " ++ name
  | .typeError message => message
  | .requestFailed message => message
  | .writeFailed message => message
  | .fileSystem message => message

/-- State of a promise once nothing more can happen to it. -/
inductive Settled (α : Type)
  | fulfilled (value : α)
  | rejected (error : DepError)
  /-- neither fulfilled nor rejected, and no callback left that could settle it -/
  | pending
  deriving DecidableEq, Repr

/-- The files on disk: path and content. -/
abbrev FileSystem := List (String × List Nat)

/-- The test `fs.pathExists(path)`. -/
def pathExists (fs : FileSystem) (path : String) : Bool :=
  fs.any (fun f => f.1 = path)

/-- The file at `path` is created or truncated and `bytes` are written to it. -/
def writeFile (fs : FileSystem) (path : String) (bytes : List Nat) : FileSystem :=
  fs.filter (fun f => f.1 ≠ path) ++ [(path, bytes)]

/-- How the transfer of a response body into the write stream ends. -/
inductive StreamEnd
  /-- the body ended and the write stream emitted 'finish' -/
  | finish
  /-- the write stream emitted 'error'; `written` bytes had reached the file,
  `none` when the file could not even be created -/
  | writeError (written : Option Nat) (message : String)
  /-- the response stream failed after `written` bytes had reached the file;
  `pipe` then neither ends nor destroys the write stream, which emits neither
  'finish' nor 'error' -/
  | sourceError (written : Nat)
  deriving DecidableEq, Repr

/-- What the network does with one GET request. -/
inductive Fetch
  /-- the promise of `axios(...)` rejects -/
  | requestError (message : String)
  /-- a response arrives with this body, whose transfer ends as `ending` -/
  | response (body : List Nat) (ending : StreamEnd)
  deriving DecidableEq, Repr

/-- The network: what each URL answers. -/
abbrev Network := String → Fetch

/-- Accesses to the outside world made by `downloadDependency`. -/
inductive Effect
  /-- `fs.pathExists(path)` -/
  | pathExists (path : String)
  /-- `axios({method: 'GET', url, responseType: 'stream', timeout})` -/
  | httpGet (url : String) (timeout : Nat)
  /-- `fs.createWriteStream(path)` -/
  | createWriteStream (path : String)
  deriving DecidableEq, Repr

/-- Outcome of one call of `downloadDependency`. -/
structure Download where
  result : Settled String
  fs : FileSystem
  effects : List Effect
  deriving DecidableEq, Repr

/-- The field `libDir` set by the constructor (line 24). -/
def libDir (projectPath : String) : String :=
  pathJoin [projectPath, ".artha", "lib"]

/-- The `artifactId` of a coordinate `groupId:artifactId` (line 61); a missing
second piece renders as `undefined` in the template literals. -/
def artifactIdOf (mavenCoords : String) : String :=
  (jsSplit mavenCoords ':').getD 1 "undefined"

/-- The `groupId` of a coordinate (line 61). -/
def groupIdOf (mavenCoords : String) : String :=
  (jsSplit mavenCoords ':').getD 0 ""

/-- The URL built at line 63. -/
def urlOf (mavenCoords version : String) : String :=
  "https://repo1.maven.org/maven2/" ++ replaceDots (groupIdOf mavenCoords) ++ "/" ++
    artifactIdOf mavenCoords ++ "/" ++ version ++ "/" ++
    artifactIdOf mavenCoords ++ "-" ++ version ++ ".jar"

/-- The cache path built at lines 64-65. -/
def jarPathOf (projectPath mavenCoords version : String) : String :=
  pathJoin [libDir projectPath, artifactIdOf mavenCoords ++ "-" ++ version ++ ".jar"]

/-- `downloadDependency(name, version)` (lines 58-82). -/
def downloadDependency (projectPath name version : String) (fs : FileSystem)
    (net : Network) : Download :=
  match lookupDependency name with
  | .undefined => ⟨.rejected (.unknownDependency name), fs, []⟩
  | .inherited _ => ⟨.rejected (.typeError "mavenCoords.split is not a function"), fs, []⟩
  | .string mavenCoords =>
    let url := urlOf mavenCoords version
    let jarPath := jarPathOf projectPath mavenCoords version
    if pathExists fs jarPath then ⟨.fulfilled jarPath, fs, [.pathExists jarPath]⟩
    else
      match net url with
      | .requestError message =>
        ⟨.rejected (.requestFailed message), fs, [.pathExists jarPath, .httpGet url 30000]⟩
      | .response body ending =>
        let effects := [.pathExists jarPath, .httpGet url 30000, .createWriteStream jarPath]
        match ending with
        | .finish => ⟨.fulfilled jarPath, writeFile fs jarPath body, effects⟩
        | .writeError none message => ⟨.rejected (.writeFailed message), fs, effects⟩
        | .writeError (some written) message =>
          ⟨.rejected (.writeFailed message), writeFile fs jarPath (body.take written), effects⟩
        | .sourceError written => ⟨.pending, writeFile fs jarPath (body.take written), effects⟩

/-- The expansion of lines 34-38: `jackson` brings its two companions at its own
version unless they are given. -/
def expandTransitive (dependencies : JsObject) : JsObject :=
  if truthy (dependencies.get "jackson") then
    let version := (dependencies.get "jackson").getD ""
    let dependencies :=
      if !truthy (dependencies.get "jackson-core") then
        dependencies.set "jackson-core" version
      else dependencies
    if !truthy (dependencies.get "jackson-annotations") then
      dependencies.set "jackson-annotations" version
    else dependencies
  else dependencies

/-- One iteration of the loop of `install`. -/
structure Attempt where
  name : String
  version : String
  result : Settled String
  effects : List Effect
  deriving DecidableEq, Repr

/-- The loop of lines 44-54 over the remaining specs; it does not go on past a
download whose promise stays pending. -/
def resolveAll (projectPath : String) (net : Network) :
    List (String × String) → FileSystem → List Attempt × FileSystem
  | [], fs => ([], fs)
  | (name, version) :: rest, fs =>
    let d := downloadDependency projectPath name version fs net
    let attempt : Attempt := ⟨name, version, d.result, d.effects⟩
    match d.result with
    | .pending => ([attempt], d.fs)
    | _ =>
      let r := resolveAll projectPath net rest d.fs
      (attempt :: r.1, r.2)

/-- What `install` reads before the loop. -/
inductive ConfigFile
  /-- `artha.json` does not exist -/
  | missing
  /-- `fs.readJson` rejects -/
  | unreadable (message : String)
  /-- the parsed file; `dependencies` is `none` when the field is absent -/
  | parsed (dependencies : Option JsObject)
  deriving DecidableEq, Repr

/-- Outcome of one call of `install`. -/
structure InstallRun where
  result : Settled (List String)
  attempts : List Attempt
  fs : FileSystem
  deriving DecidableEq, Repr

/-- The paths pushed to `jarPaths` (line 48). -/
def jarPaths (attempts : List Attempt) : List String :=
  attempts.filterMap (fun a => match a.result with | .fulfilled p => some p | _ => none)

/-- `install()` (lines 27-56); `ensureDirError` is the rejection of
`fs.ensureDir(this.libDir)`, if it rejects. -/
def install (projectPath : String) (config : ConfigFile) (ensureDirError : Option String)
    (net : Network) (fs : FileSystem) : InstallRun :=
  match config with
  | .missing => ⟨.fulfilled [], [], fs⟩
  | .unreadable message => ⟨.rejected (.fileSystem message), [], fs⟩
  | .parsed field =>
    let dependencies := expandTransitive (field.getD [])
    if (entries dependencies).length = 0 then ⟨.fulfilled [], [], fs⟩
    else
      match ensureDirError with
      | some message => ⟨.rejected (.fileSystem message), [], fs⟩
      | none =>
        let r := resolveAll projectPath net (entries dependencies) fs
        if r.1.any (fun a => a.result = .pending) then ⟨.pending, r.1, r.2⟩
        else ⟨.fulfilled (jarPaths r.1), r.1, r.2⟩

/-- The HTTP requests among some effects. -/
def httpRequests (effects : List Effect) : List String :=
  effects.filterMap (fun e => match e with | .httpGet url _ => some url | _ => none)

/-- The cache path of a spec, when its name is an own key of `DEPENDENCY_MAP`. -/
def cachePath? (projectPath name version : String) : Option String :=
  match lookupDependency name with
  | .string mavenCoords => some (jarPathOf projectPath mavenCoords version)
  | _ => none

/-- A network that answers every request with a four-byte body whose transfer
ends as `ending`. -/
def sampleNetwork (ending : StreamEnd) : Network :=
  fun _ => .response [80, 75, 3, 4] ending

/-- A network that refuses every request. -/
def offline : Network :=
  fun _ => .requestError "getaddrinfo ENOTFOUND repo1.maven.org"

/-- A project that depends on `gson` and `lombok`. -/
def sampleConfigFile : ConfigFile :=
  .parsed (some [("gson", "2.10.1"), ("lombok", "1.18.30")])

/-- A network on which only the `lombok` artifact can be fetched. -/
def lombokOnly : Network :=
  fun url =>
    if url = urlOf "org.projectlombok:lombok" "1.18.30" then .response [80, 75, 3, 4] .finish
    else .requestError "Request failed with status code 404"

/-- The first run of `install` of the sample project, on an empty cache. -/
def firstRun : InstallRun :=
  install "/app" sampleConfigFile none lombokOnly []

/-- The second run, without any network, on the files the first run left. -/
def secondRun : InstallRun :=
  install "/app" sampleConfigFile none offline firstRun.fs

/-- A later run of the sample project on the files the first run left, on a
network that answers every request and breaks off the response after two
bytes. -/
def interruptedRun : InstallRun :=
  install "/app" sampleConfigFile none (sampleNetwork (.sourceError 2)) firstRun.fs

/-- A network that answers every request with status 404. -/
def allNotFound : Network :=
  fun _ => .requestError "Request failed with status code 404"

/-- A project whose two specs have the same cache path: `path.join` resolves the
`..` in the version of `gson`. -/
def sharedPathConfigFile : ConfigFile :=
  .parsed (some [("gson", "/../lombok-1"), ("lombok", "1")])

/-- A network on which only the request for the `gson` spec of that project is
answered. -/
def gsonOnly : Network :=
  fun url =>
    if url = urlOf "com.google.code.gson:gson" "/../lombok-1" then
      .response [80, 75, 3, 4] .finish
    else .requestError "Request failed with status code 404"

/-- The network never breaks off a response it has started. -/
def NoBrokenTransfer (net : Network) : Prop :=
  ∀ url body written, net url ≠ .response body (.sourceError written)

/-- A project whose first dependency is not registered. -/
def mixedConfigFile : ConfigFile :=
  .parsed (some [("left-pad", "1.3.0"), ("gson", "2.10.1"), ("lombok", "1.18.30")])

/-- The segments of a path written with `/` between them. -/
def joinSegments : List (List Char) → List Char
  | [] => []
  | [seg] => seg
  | seg :: rest => seg ++ '/' :: joinSegments rest

/-- A path segment that `path.normalize` keeps as it is: not empty, without `/`,
and neither `.` nor `..`. -/
def PlainSegment (seg : List Char) : Prop :=
  seg ≠ [] ∧ '/' ∉ seg ∧ seg ≠ ['.'] ∧ seg ≠ ['.', '.']

/-- A path made of plain segments, absolute or relative, without a trailing `/`. -/
def PlainPath (path : String) : Prop :=
  ∃ (absolute : Bool) (segs : List (List Char)),
    segs ≠ [] ∧ (∀ seg ∈ segs, PlainSegment seg) ∧
    path.data = (if absolute then ['/'] else []) ++ joinSegments segs

end Deps

namespace Dev

/-! The artifact locator and the source discovery of `dev.js`. -/

/-- The test `s.startsWith(start)`. -/
def jsStartsWith (s start : String) : Bool :=
  start.data.isPrefixOf s.data

/-- The test `s.endsWith(ending)`. -/
def jsEndsWith (s ending : String) : Bool :=
  ending.data.reverse.isPrefixOf s.data.reverse

/-- The predicate given to `files.find` (lines 206-211). -/
def isRuntimeJar (f : String) : Bool :=
  jsStartsWith f "artha-runtime" && jsEndsWith f ".jar" &&
    !jsEndsWith f "-sources.jar" && !jsEndsWith f "-javadoc.jar"

/-- The list `possiblePaths` (lines 190-201), built from `process.cwd()` and
`__dirname`. -/
def possiblePaths (cwd dirname : String) : List String :=
  [Deps.pathJoin [cwd, "..", "..", "runtime", "target"],
   Deps.pathJoin [cwd, "..", "runtime", "target"],
   Deps.pathJoin [cwd, "runtime", "target"],
   Deps.pathJoin [dirname, "..", "..", "..", "runtime", "target"],
   "C:\\Coding\\Java\\Spring\\artha\\runtime\\target"]

/-- What the file system answers for a candidate path (lines 204-205). -/
inductive Listing
  /-- `fs.existsSync(path)` is false -/
  | missing
  /-- `fs.existsSync(path)` holds and `fs.readdirSync(path)` returns these names -/
  | files (names : List String)
  /-- `fs.existsSync(path)` holds and `fs.readdirSync(path)` throws: the path is
  not a directory (`ENOTDIR`), may not be read (`EACCES`), or is gone by then -/
  | unreadable (error : String)
  deriving DecidableEq, Repr

/-- How a call of `findRuntimeJar()` ends. -/
inductive Located
  /-- `return fullPath` (line 216) -/
  | found (fullPath : String)
  /-- `return null` (line 221) -/
  | notFound
  /-- the exception of `readdirSync` (line 205), which nothing in the function
  catches -/
  | thrown (error : String)
  deriving DecidableEq, Repr

/-- The loop of lines 203-221 over the candidate directories; `disk` is what the
file system answers for each path. -/
def findRuntimeJarIn (disk : String → Listing) : List String → Located
  | [] => .notFound
  | runtimePath :: rest =>
    match disk runtimePath with
    | .missing => findRuntimeJarIn disk rest
    | .unreadable error => .thrown error
    | .files names =>
      match names.find? isRuntimeJar with
      | some jarFile =>
        if jarFile ≠ "" then .found (Deps.pathJoin [runtimePath, jarFile])
        else findRuntimeJarIn disk rest
      | none => findRuntimeJarIn disk rest

/-- `findRuntimeJar()` (lines 188-222). -/
def findRuntimeJar (cwd dirname : String) (disk : String → Listing) : Located :=
  findRuntimeJarIn disk (possiblePaths cwd dirname)

/-- The loop passes over the candidate `dir`: it does not exist, or its listing
holds no runtime jar. -/
def PassedOver (disk : String → Listing) (dir : String) : Prop :=
  disk dir = .missing ∨
    ∃ listed, disk dir = .files listed ∧ ∀ f ∈ listed, isRuntimeJar f = false

/-- The listing used in the worked scenario: `A` holds no runtime jar, `B` holds
one after its javadoc variant, every other path does not exist. -/
def sampleListing : String → Listing :=
  fun path =>
    if path = "A" then .files ["README.md", "artha-runtime-1.0-sources.jar"]
    else if path = "B" then
      .files ["artha-runtime-1.0-javadoc.jar", "artha-runtime-1.0.jar", "artha-runtime-1.1.jar"]
    else .missing

/-- The same scenario with a regular file at `A`: `existsSync` holds for it and
`readdirSync` throws. -/
def fileAtFirstCandidate : String → Listing :=
  fun path =>
    if path = "A" then .unreadable "ENOTDIR: not a directory, scandir A"
    else sampleListing path

mutual
/-- An item of a directory: a file, or a directory with its own items. -/
inductive Item
  | file (name : String)
  | dir (name : String) (items : Items)
/-- The items of a directory in the order `fs.readdir` lists them. -/
inductive Items
  | nil
  | cons (item : Item) (rest : Items)
end

mutual
/-- The body of the loop of `scan` for one item of `directory` (lines 231-238). -/
def scanItem (directory : String) : Item → List String
  | .file name =>
    if jsEndsWith name ".java" then [Deps.pathJoin [directory, name]] else []
  | .dir name items => scan (Deps.pathJoin [directory, name]) items
/-- The files pushed by `scan(directory)` (lines 227-240), in order. -/
def scan (directory : String) : Items → List String
  | .nil => []
  | .cons item rest => scanItem directory item ++ scan directory rest
end

/-- `findJavaFiles(dir)` (lines 224-244) on the tree under `dir`. -/
def findJavaFiles (dir : String) (items : Items) : List String :=
  scan dir items

mutual
/-- The names of the files under an item. -/
def Item.fileNames : Item → List String
  | .file name => [name]
  | .dir _ items => items.fileNames
/-- The names of the files anywhere under a directory. -/
def Items.fileNames : Items → List String
  | .nil => []
  | .cons item rest => item.fileNames ++ rest.fileNames
end

/-- A source tree with a resource file and an empty package directory. -/
def treeWithoutSources : Items :=
  .cons (.file "README.md") (.cons (.dir "main" (.cons (.file "app.properties") .nil)) .nil)

/-- The state in which the first build awaits `findJavaFiles`. -/
def awaitingSources : State :=
  (run sampleConfig init [.ensureDirDone 0 none]).getD init

end Dev

namespace Dev

theorem graceDeadline_isSome (s : State) (c : Nat) :
    (graceDeadline s c).isSome = true ↔ ∃ d, (c, d) ∈ s.graceTimers := by
  simp only [graceDeadline, Option.isSome_map', List.find?_isSome]
  constructor
  · rintro ⟨⟨a, d⟩, hm, ha⟩
    simp at ha
    exact ⟨d, ha ▸ hm⟩
  · rintro ⟨d, hm⟩
    exact ⟨(c, d), hm, by simp⟩

theorem mem_foldl_resolve (calls : List Nat) (r : List Nat) (c : Nat) :
    c ∈ calls.foldl (fun r c => if c ∈ r then r else r ++ [c]) r ↔ c ∈ r ∨ c ∈ calls := by
  induction calls generalizing r with
  | nil => simp
  | cons d ds ih =>
    simp only [List.foldl_cons, ih, List.mem_cons]
    by_cases hd : d ∈ r
    · simp only [hd, if_true]
      constructor
      · rintro (h | h)
        · exact Or.inl h
        · exact Or.inr (Or.inr h)
      · rintro (h | h | h)
        · exact Or.inl h
        · exact Or.inl (h ▸ hd)
        · exact Or.inr h
    · simp only [hd, if_false, List.mem_append, List.mem_singleton]
      tauto

theorem foldl_onStopExit (calls : List Nat) (s : State) :
    calls.foldl (fun acc call => onStopExit call acc) s =
      { s with
        javaProcess := if calls = [] then s.javaProcess else none,
        resolved := calls.foldl (fun r c => if c ∈ r then r else r ++ [c]) s.resolved } := by
  induction calls generalizing s with
  | nil => simp
  | cons c cs ih =>
    simp only [List.foldl_cons, ih]
    by_cases hc : c ∈ s.resolved
    · simp [onStopExit, State.resolve, hc]
    · simp [onStopExit, State.resolve, hc]

theorem runMicrotasks_nil {s : State} (h : s.flows = []) : runMicrotasks s = s := by
  simp [runMicrotasks, h]

theorem runMicrotasks_single {s : State} {f : Flow} (h : s.flows = [f]) :
    runMicrotasks s =
      match f.phase with
      | .awaitStop call => if call ∈ s.resolved then compileAndStart f.id f.caller s else s
      | _ => s := by
  simp [runMicrotasks, h]

theorem shape_cases {s : State} (h : Shape s) :
    (s.flows = [] ∧ s.watching = true ∧ s.isRestarting = false) ∨
    (∃ f, s.flows = [f] ∧ s.watching = (f.caller == .handler) ∧
      s.isRestarting = (f.caller == .handler) ∧ phaseOk s f.caller f.phase) := by
  unfold Shape at h
  split at h
  · left; simp_all
  · right; exact ⟨_, by assumption, h⟩
  · exact h.elim

theorem shape_onChange (cfg : Config) (filePath : String) {s : State}
    (h : Shape s) (hf : Fresh s) (hw : s.watching = true) : Shape (onChange cfg filePath s) := by
  rcases shape_cases h with ⟨hfl, _, hr⟩ | ⟨f, hfl, hw', hr, hp⟩
  · cases hj : s.javaProcess with
    | none =>
      simp [onChange, hr, hj, hw, State.emit, compileAndStart, State.suspend, hfl, Shape, phaseOk]
    | some pid =>
      have hn : s.nextCall ∉ s.resolved := fun hm => absurd (hf.2.2.1 _ hm) (lt_irrefl _)
      simp [onChange, hr, hj, State.emit, killServerGracefully, State.suspend, hfl, Shape,
        phaseOk, hn, hw, graceDeadline_isSome]
  · rcases f with ⟨i, clr, ph⟩
    cases clr
    · simp at hw'; simp [hw'] at hw
    · simp at hr
      simp [onChange, hr, State.emit, Shape, hfl]
      refine ⟨hw, ?_⟩
      cases ph <;> simp_all [phaseOk, graceDeadline]

theorem flow?_single {s : State} {f g : Flow} {id : Nat} (h : s.flows = [f])
    (hg : s.flow? id = some g) : g = f ∧ f.id = id := by
  simp only [State.flow?, h, List.find?_cons, List.find?_nil] at hg
  split at hg
  · rename_i hi
    simp at hg
    exact ⟨hg.symm, by simpa using hi⟩
  · cases hg

theorem flow?_nil {s : State} {g : Flow} {id : Nat} (h : s.flows = [])
    (hg : s.flow? id = some g) : False := by
  simp [State.flow?, h] at hg

theorem resolve_eq (s : State) (c : Nat) :
    s.resolve c =
      { s with resolved := if c ∈ s.resolved then s.resolved else s.resolved ++ [c] } := by
  unfold State.resolve
  split <;> simp [*]

theorem mem_resolve (s : State) (c d : Nat) :
    d ∈ (s.resolve c).resolved ↔ d ∈ s.resolved ∨ d = c := by
  rw [resolve_eq]
  by_cases h : c ∈ s.resolved
  · simp only [h, if_true]
    constructor
    · exact Or.inl
    · rintro (h1 | h1)
      · exact h1
      · exact h1 ▸ h
  · simp [h]

theorem onServerExit_eq (code : Option Int) (s : State) :
    onServerExit code s =
      { s with trace := s.trace ++
          if reportsExit code s.isRestarting then
            [.console ("\n❌ Server stopped with code " ++ showCode code)]
          else [] } := by
  unfold onServerExit
  split <;> simp [*, State.emit]

theorem onWorkerExit_eq (pid : Pid) (code : Option Int) (s : State) :
    onWorkerExit pid code s =
      runMicrotasks
        { s with
          javaProcess := if exitCalls s pid = [] then s.javaProcess else none,
          resolved := (exitCalls s pid).foldl (fun r c => if c ∈ r then r else r ++ [c]) s.resolved,
          live := s.live.filter (fun p => p ≠ pid),
          exitListeners := s.exitListeners.filter (fun l => l.1 ≠ pid),
          trace := s.trace ++
            if reportsExit code s.isRestarting then
              [.console ("\n❌ Server stopped with code " ++ showCode code)]
            else [] } := by
  simp only [onWorkerExit, foldl_onStopExit, onServerExit_eq, exitCalls]

theorem shape_onWorkerExit (pid : Pid) (code : Option Int) {s : State}
    (h : Shape s) : Shape (onWorkerExit pid code s) := by
  rcases shape_cases h with ⟨hfl, hw, hr⟩ | ⟨f, hfl, hw, hr, hp⟩
  · rw [onWorkerExit_eq, runMicrotasks_nil (by simpa using hfl)]
    simp [Shape, hfl, hw, hr]
  · rcases f with ⟨i, clr, ph⟩
    rw [onWorkerExit_eq, runMicrotasks_single (f := ⟨i, clr, ph⟩) (by simpa using hfl)]
    cases ph with
    | awaitStop c =>
      obtain ⟨rfl, hc, hd⟩ := hp
      simp only [mem_foldl_resolve, hc, false_or]
      by_cases hm : c ∈ exitCalls s pid
      · have hne : exitCalls s pid ≠ [] := List.ne_nil_of_mem hm
        simp [hm, hne, Shape, compileAndStart, State.suspend, State.emit, hfl, phaseOk]
        exact ⟨by simpa using hw, by simpa using hr⟩
      · simp [hm, Shape, hfl, phaseOk, mem_foldl_resolve, hc, graceDeadline] at hw hr hd ⊢
        exact ⟨hw, hr, by simpa [graceDeadline] using hd⟩
    | _ =>
      simp only [phaseOk] at hp
      simp [Shape, hfl, phaseOk, hp] at hw hr ⊢
      exact ⟨hw, hr⟩

theorem find?_filter_ne (l : List (Nat × Nat)) {c d : Nat} (h : c ≠ d) :
    (l.filter (fun t => t.1 ≠ d)).find? (fun t => t.1 = c) = l.find? (fun t => t.1 = c) := by
  induction l with
  | nil => rfl
  | cons t ts ih =>
    by_cases ht : t.1 = d
    · have hc : ¬ t.1 = c := fun e => h (e.symm.trans ht)
      rw [List.filter_cons_of_neg (by simp [ht]), List.find?_cons_of_neg _ (by simp [hc]), ih]
    · by_cases hc : t.1 = c
      · rw [List.filter_cons_of_pos (by simp [ht]), List.find?_cons_of_pos _ (by simp [hc]),
          List.find?_cons_of_pos _ (by simp [hc])]
      · rw [List.filter_cons_of_pos (by simp [ht]), List.find?_cons_of_neg _ (by simp [hc]),
          List.find?_cons_of_neg _ (by simp [hc]), ih]

theorem onGraceTimeout_eq (call : Nat) (s : State) :
    onGraceTimeout call s =
      runMicrotasks
        { s with
          javaProcess := none,
          graceTimers := s.graceTimers.filter (fun t => t.1 ≠ call),
          resolved := if call ∈ s.resolved then s.resolved else s.resolved ++ [call],
          trace := s.trace ++
            match s.javaProcess with
            | some pid => [.kill pid .SIGKILL]
            | none => [] } := by
  unfold onGraceTimeout
  cases hj : s.javaProcess <;> simp [resolve_eq, State.emit, hj]

theorem shape_onGraceTimeout (call : Nat) {s : State}
    (h : Shape s) : Shape (onGraceTimeout call s) := by
  rcases shape_cases h with ⟨hfl, hw, hr⟩ | ⟨f, hfl, hw, hr, hp⟩
  · rw [onGraceTimeout_eq, runMicrotasks_nil (by simpa using hfl)]
    simp [Shape, hfl, hw, hr]
  · rcases f with ⟨i, clr, ph⟩
    rw [onGraceTimeout_eq, runMicrotasks_single (f := ⟨i, clr, ph⟩) (by simpa using hfl)]
    cases ph with
    | awaitStop c =>
      obtain ⟨rfl, hc, hd⟩ := hp
      by_cases hm : c = call
      · subst hm
        simp [hc, Shape, compileAndStart, State.suspend, State.emit, hfl, phaseOk]
        exact ⟨by simpa using hw, by simpa using hr⟩
      · have hm2 : c ∉ (if call ∈ s.resolved then s.resolved else s.resolved ++ [call]) := by
          split <;> simp [hc, hm]
        simp only [hm2, if_false]
        simp only [Shape, hfl, phaseOk, graceDeadline, find?_filter_ne _ hm]
        exact ⟨by simpa using hw, by simpa using hr, trivial, hm2, by simpa [graceDeadline] using hd⟩
    | _ =>
      simp [Shape, hfl, phaseOk] at hw hr ⊢
      exact ⟨hw, hr⟩

theorem shape_resumeCaller {s : State} {f : Flow} (h : Shape s) (hfl : s.flows = [f])
    {s1 : State} (h1 : s1.flows = s.flows) (h2 : s1.watching = s.watching)
    (h3 : s1.isRestarting = s.isRestarting) :
    Shape (resumeCaller f.id f.caller s1) := by
  rcases f with ⟨i, clr, ph⟩
  simp [Shape, hfl] at h
  cases clr <;>
    simp_all [resumeCaller, State.finish, State.emit, Shape]

theorem shape_suspend {s : State} {f : Flow} (h : Shape s) (hfl : s.flows = [f])
    {s1 : State} (h1 : s1.flows = s.flows) (h2 : s1.watching = s.watching)
    (h3 : s1.isRestarting = s.isRestarting) (ph : Phase) (hp : phaseOk s1 f.caller ph) :
    Shape (s1.suspend f.id f.caller ph) := by
  simp [Shape, hfl] at h
  simp [State.suspend, Shape, h1, hfl, h2, h3, h.1, h.2.1]
  cases ph <;> simpa [phaseOk, graceDeadline] using hp

theorem shape_afterEnsureDir {s : State} {id : Nat} {f : Flow} (error : Option String)
    (h : Shape s) (hf : s.flow? id = some f) (hp : f.phase = .awaitEnsureDir) :
    Shape (afterEnsureDir id f.caller error s) := by
  rcases shape_cases h with ⟨hfl, -, -⟩ | ⟨g, hfl, -, -, hg⟩
  · exact (flow?_nil hfl hf).elim
  · obtain ⟨rfl, rfl⟩ := flow?_single hfl hf
    rw [hp] at hg
    cases error with
    | some msg => exact shape_resumeCaller h hfl rfl rfl rfl
    | none => exact shape_suspend h hfl rfl rfl rfl _ hg

theorem shape_afterFindJavaFiles (cfg : Config) {s : State} {id : Nat} {f : Flow}
    (result : Except String (List String))
    (h : Shape s) (hf : s.flow? id = some f) (hp : f.phase = .awaitFindJavaFiles) :
    Shape (afterFindJavaFiles cfg id f.caller result s) := by
  rcases shape_cases h with ⟨hfl, -, -⟩ | ⟨g, hfl, -, -, hg⟩
  · exact (flow?_nil hfl hf).elim
  · obtain ⟨rfl, rfl⟩ := flow?_single hfl hf
    rw [hp] at hg
    cases result with
    | error msg => exact shape_resumeCaller h hfl rfl rfl rfl
    | ok files =>
      unfold afterFindJavaFiles
      simp only []
      split
      · exact shape_resumeCaller h hfl rfl rfl rfl
      · exact shape_suspend h hfl rfl rfl rfl _ hg

theorem shape_afterCompile {s : State} {id : Nat} {f : Flow}
    (code : Option Int) (stderr : String)
    (h : Shape s) (hf : s.flow? id = some f) (hp : f.phase = .awaitCompile) :
    Shape (afterCompile id f.caller code stderr s) := by
  rcases shape_cases h with ⟨hfl, -, -⟩ | ⟨g, hfl, -, -, hg⟩
  · exact (flow?_nil hfl hf).elim
  · obtain ⟨rfl, rfl⟩ := flow?_single hfl hf
    rw [hp] at hg
    unfold afterCompile
    split
    · exact shape_resumeCaller h hfl rfl rfl rfl
    · exact shape_suspend h hfl rfl rfl rfl _ hg

theorem shape_afterDelay (cfg : Config) {s : State} {id : Nat} {f : Flow}
    (spawn : SpawnResult)
    (h : Shape s) (hf : s.flow? id = some f) :
    Shape (afterDelay cfg id f.caller spawn s) := by
  rcases shape_cases h with ⟨hfl, -, -⟩ | ⟨g, hfl, -, -, hg⟩
  · exact (flow?_nil hfl hf).elim
  · obtain ⟨rfl, rfl⟩ := flow?_single hfl hf
    cases spawn <;> simp only [afterDelay, startServer] <;>
      exact shape_resumeCaller h hfl rfl rfl rfl

theorem runMicrotasks_core (s : State) :
    let r := runMicrotasks s
    r.javaProcess = s.javaProcess ∧ r.isRestarting = s.isRestarting ∧
    r.watching = s.watching ∧ r.now = s.now ∧ r.nextPid = s.nextPid ∧
    r.nextCall = s.nextCall ∧ r.live = s.live ∧ r.exitListeners = s.exitListeners ∧
    r.graceTimers = s.graceTimers ∧ r.resolved = s.resolved ∧ r.nextFlow = s.nextFlow := by
  unfold runMicrotasks
  generalize s.flows = fl
  induction fl generalizing s with
  | nil => simp
  | cons f fs ih =>
    simp only [List.foldl_cons]
    have key : ∀ t : State,
        (match f.phase with
          | .awaitStop call =>
            if call ∈ t.resolved then compileAndStart f.id f.caller t else t
          | _ => t) = t ∨
        (match f.phase with
          | .awaitStop call =>
            if call ∈ t.resolved then compileAndStart f.id f.caller t else t
          | _ => t) = compileAndStart f.id f.caller t := by
      intro t
      rcases f with ⟨i, clr, ph⟩
      cases ph <;> simp
      rename_i call
      by_cases hc : call ∈ t.resolved <;> simp [hc]
    rcases key s with h | h
    · rw [h]; exact ih s
    · rw [h]
      have := ih (compileAndStart f.id f.caller s)
      simpa [compileAndStart, State.suspend, State.emit] using this

theorem fresh_resumeCaller {s : State} (id : Nat) (caller : Caller) (h : Fresh s) :
    Fresh (resumeCaller id caller s) := by
  cases caller <;> simpa [resumeCaller, State.finish, State.emit, Fresh] using h

theorem fresh_suspend {s : State} (id : Nat) (caller : Caller) (ph : Phase) (h : Fresh s) :
    Fresh (s.suspend id caller ph) := by
  simpa [State.suspend, Fresh] using h

theorem fresh_emit {s : State} (a : Action) (h : Fresh s) : Fresh (s.emit a) := by
  simpa [State.emit, Fresh] using h

theorem fresh_compileFailed {s : State} (id : Nat) (caller : Caller) (msg : String)
    (h : Fresh s) : Fresh (compileFailed id caller msg s) :=
  fresh_resumeCaller _ _ (fresh_emit _ (fresh_emit _ h))

theorem fresh_runMicrotasks {s : State} (h : Fresh s) : Fresh (runMicrotasks s) := by
  obtain ⟨-, -, -, -, h5, h6, h7, h8, h9, h10, -⟩ := runMicrotasks_core s
  simp only [Fresh, h5, h6, h7, h8, h9, h10]
  exact h

theorem fresh_onChange (cfg : Config) (filePath : String) {s : State} (h : Fresh s) :
    Fresh (onChange cfg filePath s) := by
  obtain ⟨h1, h2, h3, h4⟩ := h
  unfold onChange
  split
  · exact fresh_emit _ ⟨h1, h2, h3, h4⟩
  · cases hj : s.javaProcess with
    | none =>
      simp only [State.emit, hj, compileAndStart, State.suspend, Fresh]
      exact ⟨h1, h2, h3, h4⟩
    | some pid =>
      simp only [State.emit, hj, killServerGracefully, State.suspend, Fresh]
      refine ⟨?_, ?_, ?_, ?_⟩
      · intro t ht
        simp at ht
        rcases ht with ht | rfl
        · exact Nat.lt_succ_of_lt (h1 _ ht)
        · simp
      · intro l hl
        simp at hl
        rcases hl with hl | rfl
        · exact Nat.lt_succ_of_lt (h2 _ hl)
        · simp
      · intro c hc
        exact Nat.lt_succ_of_lt (h3 _ hc)
      · intro p hp
        exact h4 _ hp

theorem mem_exitCalls {s : State} {pid : Pid} {c : Nat} (h : c ∈ exitCalls s pid) :
    (pid, c) ∈ s.exitListeners := by
  simp only [exitCalls, List.mem_map, List.mem_filter] at h
  obtain ⟨⟨p, d⟩, ⟨hm, hp⟩, rfl⟩ := h
  simp at hp
  exact hp ▸ hm

theorem fresh_onWorkerExit (pid : Pid) (code : Option Int) {s : State} (h : Fresh s) :
    Fresh (onWorkerExit pid code s) := by
  rw [onWorkerExit_eq]
  apply fresh_runMicrotasks
  obtain ⟨h1, h2, h3, h4⟩ := h
  refine ⟨h1, ?_, ?_, ?_⟩
  · intro l hl
    exact h2 l (List.mem_of_mem_filter hl)
  · intro c hc
    rcases (mem_foldl_resolve _ _ _).1 hc with hc | hc
    · exact h3 c hc
    · exact h2 _ (mem_exitCalls hc)
  · intro p hp
    exact h4 p (List.mem_of_mem_filter hp)

theorem fresh_onGraceTimeout (call : Nat) {s : State} (h : Fresh s)
    (hd : (graceDeadline s call).isSome = true) : Fresh (onGraceTimeout call s) := by
  rw [onGraceTimeout_eq]
  apply fresh_runMicrotasks
  obtain ⟨h1, h2, h3, h4⟩ := h
  obtain ⟨d, hm⟩ := (graceDeadline_isSome s call).1 hd
  refine ⟨?_, h2, ?_, h4⟩
  · intro t ht
    exact h1 t (List.mem_of_mem_filter ht)
  · intro c hc
    by_cases hin : call ∈ s.resolved
    · simp only [hin, if_true] at hc
      exact h3 c hc
    · simp only [hin, if_false, List.mem_append, List.mem_singleton] at hc
      rcases hc with hc | rfl
      · exact h3 c hc
      · exact h1 _ hm

theorem fresh_afterDelay (cfg : Config) (id : Nat) (caller : Caller) (spawn : SpawnResult)
    {s : State} (h : Fresh s) : Fresh (afterDelay cfg id caller spawn s) := by
  obtain ⟨h1, h2, h3, h4⟩ := h
  cases spawn with
  | throws msg => exact fresh_compileFailed _ _ _ (fresh_emit _ ⟨h1, h2, h3, h4⟩)
  | asyncError msg =>
    apply fresh_resumeCaller
    refine ⟨h1, h2, h3, ?_⟩
    intro p hp
    exact Nat.lt_succ_of_lt (h4 p hp)
  | ok =>
    apply fresh_resumeCaller
    refine ⟨h1, h2, h3, ?_⟩
    intro p hp
    simp [State.emit] at hp
    rcases hp with hp | rfl
    · exact Nat.lt_succ_of_lt (h4 p hp)
    · exact Nat.lt_succ_self _

theorem step_flow {cfg : Config} {s s1 : State} {e : Event} (h : step cfg s e = some s1) :
    (∃ filePath, e = .change filePath ∧ s.watching = true ∧ s1 = onChange cfg filePath s) ∨
    (∃ pid code, e = .workerExit pid code ∧ pid ∈ s.live ∧ s1 = onWorkerExit pid code s) ∨
    (∃ call deadline, e = .graceTimeout call ∧ graceDeadline s call = some deadline ∧
      deadline ≤ s.now ∧ s1 = onGraceTimeout call s) ∨
    (∃ id f error, e = .ensureDirDone id error ∧ s.flow? id = some f ∧
      f.phase = .awaitEnsureDir ∧ s1 = afterEnsureDir id f.caller error s) ∨
    (∃ id f result, e = .findJavaFilesDone id result ∧ s.flow? id = some f ∧
      f.phase = .awaitFindJavaFiles ∧ s1 = afterFindJavaFiles cfg id f.caller result s) ∨
    (∃ id f code stderr, e = .compileClose id code stderr ∧ s.flow? id = some f ∧
      f.phase = .awaitCompile ∧ s1 = afterCompile id f.caller code stderr s) ∨
    (∃ id f deadline spawn, e = .delayElapsed id spawn ∧ s.flow? id = some f ∧
      f.phase = .awaitDelay deadline ∧ deadline ≤ s.now ∧
      s1 = afterDelay cfg id f.caller spawn s) ∨
    (∃ ms, e = .advance ms ∧ s1 = { s with now := s.now + ms }) := by
  cases e with
  | change filePath =>
    simp only [step] at h
    split at h
    · left; exact ⟨filePath, rfl, by assumption, by cases h; rfl⟩
    · cases h
  | workerExit pid code =>
    simp only [step] at h
    split at h
    · right; left; exact ⟨pid, code, rfl, by assumption, by cases h; rfl⟩
    · cases h
  | graceTimeout call =>
    simp only [step] at h
    split at h
    · split at h
      · right; right; left
        exact ⟨call, _, rfl, by assumption, by assumption, by cases h; rfl⟩
      · cases h
    · cases h
  | ensureDirDone id error =>
    simp only [step] at h
    split at h
    · right; right; right; left
      exact ⟨id, _, error, rfl, by assumption, rfl, by cases h; rfl⟩
    · cases h
  | findJavaFilesDone id result =>
    simp only [step] at h
    split at h
    · right; right; right; right; left
      exact ⟨id, _, result, rfl, by assumption, rfl, by cases h; rfl⟩
    · cases h
  | compileClose id code stderr =>
    simp only [step] at h
    split at h
    · right; right; right; right; right; left
      exact ⟨id, _, code, stderr, rfl, by assumption, rfl, by cases h; rfl⟩
    · cases h
  | delayElapsed id spawn =>
    simp only [step] at h
    split at h
    · split at h
      · right; right; right; right; right; right; left
        exact ⟨id, _, _, spawn, rfl, by assumption, rfl, by assumption, by cases h; rfl⟩
      · cases h
    · cases h
  | advance ms =>
    simp only [step] at h
    right; right; right; right; right; right; right
    exact ⟨ms, rfl, by cases h; rfl⟩

theorem inv_step {cfg : Config} {s s1 : State} {e : Event} (hs : Shape s) (hf : Fresh s)
    (h : step cfg s e = some s1) : Shape s1 ∧ Fresh s1 := by
  rcases step_flow h with ⟨fp, -, hw, rfl⟩ | ⟨pid, code, -, -, rfl⟩ | ⟨call, d, -, hd, -, rfl⟩ |
    ⟨id, f, error, -, hfl, hp, rfl⟩ | ⟨id, f, result, -, hfl, hp, rfl⟩ |
    ⟨id, f, code, stderr, -, hfl, hp, rfl⟩ | ⟨id, f, d, spawn, -, hfl, hp, -, rfl⟩ |
    ⟨ms, -, rfl⟩
  · exact ⟨shape_onChange cfg fp hs hf hw, fresh_onChange cfg fp hf⟩
  · exact ⟨shape_onWorkerExit pid code hs, fresh_onWorkerExit pid code hf⟩
  · exact ⟨shape_onGraceTimeout call hs, fresh_onGraceTimeout call hf (by simp [hd])⟩
  · refine ⟨shape_afterEnsureDir error hs hfl hp, ?_⟩
    cases error with
    | some msg => exact fresh_compileFailed _ _ _ hf
    | none => exact fresh_suspend _ _ _ hf
  · refine ⟨shape_afterFindJavaFiles cfg result hs hfl hp, ?_⟩
    cases result with
    | error msg => exact fresh_compileFailed _ _ _ hf
    | ok files =>
      unfold afterFindJavaFiles
      simp only []
      split
      · exact fresh_resumeCaller _ _ (fresh_emit _ hf)
      · exact fresh_suspend _ _ _ (fresh_emit _ hf)
  · refine ⟨shape_afterCompile code stderr hs hfl hp, ?_⟩
    unfold afterCompile
    split
    · exact fresh_compileFailed _ _ _ hf
    · exact fresh_suspend _ _ _ (fresh_emit _ hf)
  · exact ⟨shape_afterDelay cfg spawn hs hfl, fresh_afterDelay cfg _ _ spawn hf⟩
  · refine ⟨?_, hf⟩
    rcases shape_cases hs with ⟨hfl, hw, hr⟩ | ⟨f, hfl, hw, hr, hp⟩
    · simp [Shape, hfl, hw, hr]
    · simp only [Shape, hfl]
      refine ⟨hw, hr, ?_⟩
      cases hph : f.phase <;> simpa [hph, phaseOk, graceDeadline] using hp

theorem inv_run {cfg : Config} {events : List Event} {s s1 : State} (hs : Shape s)
    (hf : Fresh s) (h : run cfg s events = some s1) : Shape s1 ∧ Fresh s1 := by
  induction events generalizing s with
  | nil =>
    simp only [run, Option.some.injEq] at h
    exact h ▸ ⟨hs, hf⟩
  | cons e es ih =>
    simp only [run] at h
    split at h
    · rename_i s2 h2
      obtain ⟨hs2, hf2⟩ := inv_step hs hf h2
      exact ih hs2 hf2 h
    · cases h

theorem inv_init : Shape init ∧ Fresh init := by
  constructor
  · simp [Shape, init, compileAndStart, State.suspend, State.emit, phaseOk]
  · simp [Fresh, init, compileAndStart, State.suspend, State.emit]

theorem reachable_inv {cfg : Config} {s : State} (h : Reachable cfg s) : Shape s ∧ Fresh s := by
  obtain ⟨events, he⟩ := h
  exact inv_run inv_init.1 inv_init.2 he

theorem potential_runMicrotasks {s : State} (h : s.flows = [] ∨ ∃ f, s.flows = [f]) :
    compilePotential (runMicrotasks s) = compilePotential s ∧
    startPotential (runMicrotasks s) = startPotential s := by
  rcases h with hfl | ⟨f, hfl⟩
  · rw [runMicrotasks_nil hfl]; exact ⟨rfl, rfl⟩
  · rw [runMicrotasks_single hfl]
    rcases f with ⟨i, clr, ph⟩
    cases ph <;> try exact ⟨rfl, rfl⟩
    rename_i c
    by_cases hc : c ∈ s.resolved
    · simp [hc, compilePotential, startPotential, compileAndStart, State.suspend, State.emit,
        hfl, compileCalls, startServerCalls, compileBudget, List.countP_append]
    · simp [hc]

theorem potential_step {cfg : Config} {s s1 : State} {e : Event} (hs : Shape s)
    (hg : s.isRestarting = true) (h : step cfg s e = some s1) :
    compilePotential s1 ≤ compilePotential s ∧ startPotential s1 ≤ startPotential s := by
  have hshape : s.flows = [] ∨ ∃ f, s.flows = [f] := by
    rcases shape_cases hs with ⟨hfl, -, -⟩ | ⟨f, hfl, -⟩
    · exact Or.inl hfl
    · exact Or.inr ⟨f, hfl⟩
  rcases step_flow h with ⟨fp, -, hw, rfl⟩ | ⟨pid, code, -, -, rfl⟩ | ⟨call, d, -, hd, -, rfl⟩ |
    ⟨id, f, error, -, hfl, hp, rfl⟩ | ⟨id, f, result, -, hfl, hp, rfl⟩ |
    ⟨id, f, code, stderr, -, hfl, hp, rfl⟩ | ⟨id, f, d, spawn, -, hfl, hp, -, rfl⟩ |
    ⟨ms, -, rfl⟩
  · simp [onChange, hg, State.emit, compilePotential, startPotential, compileCalls,
      startServerCalls, List.countP_append]
  · rw [onWorkerExit_eq, (potential_runMicrotasks ?_).1, (potential_runMicrotasks ?_).2]
    · simp only [compilePotential, startPotential, compileCalls, startServerCalls,
        List.countP_append]
      split <;> simp
    · simpa using hshape
    · simpa using hshape
  · rw [onGraceTimeout_eq, (potential_runMicrotasks ?_).1, (potential_runMicrotasks ?_).2]
    · simp only [compilePotential, startPotential, compileCalls, startServerCalls,
        List.countP_append]
      split <;> simp
    · simpa using hshape
    · simpa using hshape
  · rcases hshape with hnil | ⟨g, hg1⟩
    · exact (flow?_nil hnil hfl).elim
    obtain ⟨rfl, rfl⟩ := flow?_single hg1 hfl
    rcases f with ⟨i, clr, ph⟩
    simp only at hp
    subst hp
    cases error <;> cases clr <;>
      simp [afterEnsureDir, compileFailed, resumeCaller, State.finish, State.suspend,
        State.emit, compilePotential, startPotential, compileCalls, startServerCalls,
        compileBudget, hg1, List.countP_append]
  · rcases hshape with hnil | ⟨g, hg1⟩
    · exact (flow?_nil hnil hfl).elim
    obtain ⟨rfl, rfl⟩ := flow?_single hg1 hfl
    rcases f with ⟨i, clr, ph⟩
    simp only at hp
    subst hp
    rcases result with msg | files
    · cases clr <;>
      simp [afterFindJavaFiles, compileFailed, resumeCaller, State.finish, State.suspend,
        State.emit, compilePotential, startPotential, compileCalls, startServerCalls,
        compileBudget, hg1, List.countP_append]
    · by_cases hl : files.length = 0 <;> cases clr <;>
      simp [afterFindJavaFiles, compile, resumeCaller, State.finish, State.suspend,
        State.emit, compilePotential, startPotential, compileCalls, startServerCalls,
        compileBudget, hg1, List.countP_append, hl]
  · rcases hshape with hnil | ⟨g, hg1⟩
    · exact (flow?_nil hnil hfl).elim
    obtain ⟨rfl, rfl⟩ := flow?_single hg1 hfl
    rcases f with ⟨i, clr, ph⟩
    simp only at hp
    subst hp
    by_cases hc : code = some 0 <;> cases clr <;>
      simp [afterCompile, compileFailed, resumeCaller, State.finish, State.suspend,
        State.emit, compilePotential, startPotential, compileCalls, startServerCalls,
        compileBudget, hg1, List.countP_append, hc]
  · rcases hshape with hnil | ⟨g, hg1⟩
    · exact (flow?_nil hnil hfl).elim
    obtain ⟨rfl, rfl⟩ := flow?_single hg1 hfl
    rcases f with ⟨i, clr, ph⟩
    simp only at hp
    subst hp
    cases spawn <;> cases clr <;>
      simp [afterDelay, startServer, compileFailed, resumeCaller, State.finish, State.suspend,
        State.emit, compilePotential, startPotential, compileCalls, startServerCalls,
        compileBudget, hg1, List.countP_append]
  · exact ⟨le_refl _, le_refl _⟩

theorem potential_run {cfg : Config} {events : List Event} {s s1 : State} (hs : Shape s)
    (hf : Fresh s) (hg : guardHeld cfg s events = true) (h : run cfg s events = some s1) :
    compilePotential s1 ≤ compilePotential s ∧ startPotential s1 ≤ startPotential s := by
  induction events generalizing s with
  | nil =>
    simp only [run, Option.some.injEq] at h
    subst h
    exact ⟨le_refl _, le_refl _⟩
  | cons e es ih =>
    simp only [run] at h
    simp only [guardHeld, Bool.and_eq_true] at hg
    split at h
    · rename_i s2 h2
      simp only [h2] at hg
      obtain ⟨hs2, hf2⟩ := inv_step hs hf h2
      obtain ⟨a1, a2⟩ := potential_step hs hg.1 h2
      obtain ⟨b1, b2⟩ := ih hs2 hf2 hg.2 h
      exact ⟨le_trans b1 a1, le_trans b2 a2⟩
    · cases h

/-- Claim C1 (single flight).  A 'change' notification that arrives while
`isRestarting` is set only prints the "already restarting" line: the handler
calls none of `killServerGracefully`, `compile`, `startServer`, starts no flow,
and leaves `isRestarting` and `javaProcess` as they are.  Hence, from the
notification that sets the guard and for as long as the guard stays set (up to
and including the callback that clears it), `compile` is called at most once
and `startServer` at most once, whatever notifications and other callbacks are
interleaved.  At no time is more than one flow suspended. -/
theorem single_flight (cfg : Config) :
    (∀ (s : State) (filePath : String), s.isRestarting = true →
      onChange cfg filePath s = s.emit (.console "⏳ Already restarting, please wait...") ∧
      killCalls (onChange cfg filePath s).trace = killCalls s.trace ∧
      compileCalls (onChange cfg filePath s).trace = compileCalls s.trace ∧
      startServerCalls (onChange cfg filePath s).trace = startServerCalls s.trace ∧
      (onChange cfg filePath s).isRestarting = s.isRestarting ∧
      (onChange cfg filePath s).javaProcess = s.javaProcess ∧
      (onChange cfg filePath s).flows = s.flows) ∧
    (∀ (s s0 s1 : State) (filePath : String) (events : List Event),
      Reachable cfg s → s.isRestarting = false →
      step cfg s (.change filePath) = some s0 →
      guardHeld cfg s0 events = true → run cfg s0 events = some s1 →
      s0.isRestarting = true ∧
      compileCalls s1.trace ≤ compileCalls s.trace + 1 ∧
      startServerCalls s1.trace ≤ startServerCalls s.trace + 1) ∧
    (∀ s : State, Reachable cfg s → s.flows.length ≤ 1) := by
  refine ⟨?_, ?_, ?_⟩
  · intro s filePath hg
    simp [onChange, hg, State.emit, killCalls, compileCalls, startServerCalls,
      List.countP_append]
  rotate_left
  · intro s hr
    rcases shape_cases (reachable_inv hr).1 with ⟨hfl, -, -⟩ | ⟨f, hfl, -⟩ <;> simp [hfl]
  · intro s s0 s1 filePath events hr hg hstep hheld hrun
    obtain ⟨hs, hf⟩ := reachable_inv hr
    obtain ⟨hs0, hf0⟩ := inv_step hs hf hstep
    obtain ⟨b1, b2⟩ := potential_run hs0 hf0 hheld hrun
    have hidle : s.flows = [] := by
      rcases shape_cases hs with ⟨hfl, -, -⟩ | ⟨f, hfl, hw, hr2, -⟩
      · exact hfl
      · rcases step_flow hstep with ⟨fp, -, hw2, -⟩ | ⟨_, _, he, -⟩ | ⟨_, _, he, -⟩ |
          ⟨_, _, _, he, -⟩ | ⟨_, _, _, he, -⟩ | ⟨_, _, _, _, he, -⟩ | ⟨_, _, _, _, he, -⟩ |
          ⟨_, he, -⟩ <;> try cases he
        rw [hw2] at hw
        rw [hg, ← hw] at hr2
        cases hr2
    have hs0eq : s0 = onChange cfg filePath s := by
      simp only [step] at hstep
      split at hstep
      · cases hstep; rfl
      · cases hstep
    have h0 : s0.isRestarting = true ∧ compilePotential s0 ≤ compileCalls s.trace + 1 ∧
        startPotential s0 ≤ startServerCalls s.trace + 1 := by
      subst hs0eq
      cases hj : s.javaProcess <;> cases hwin : cfg.isWindows <;>
        simp [onChange, hg, hj, hwin, killServerGracefully, compileAndStart, State.suspend,
          State.emit, compilePotential, startPotential, compileCalls, startServerCalls,
          compileBudget, hidle, List.countP_append]
    refine ⟨h0.1, ?_, ?_⟩
    · calc compileCalls s1.trace ≤ compilePotential s1 := Nat.le_add_right _ _
        _ ≤ compilePotential s0 := b1
        _ ≤ _ := h0.2.1
    · calc startServerCalls s1.trace ≤ startPotential s1 := Nat.le_add_right _ _
        _ ≤ startPotential s0 := b2
        _ ≤ _ := h0.2.2

/-- Claim C2.  Worker 0 is running; a change makes the orchestrator call
`killServerGracefully` at 500 ms (promise 0, grace timer due at 3500 ms).  The
exit of worker 0 is observed at 1500 ms, which resolves the promise and empties
the slot without any SIGKILL; the rebuild finishes and `startServer` puts
worker 1 in the slot at 3000 ms.  When the grace timer of promise 0 fires at
3500 ms it finds the slot occupied, sends SIGKILL to worker 1 and empties the
slot, although worker 1 is still live. -/
theorem stale_grace_timer_kills_new_worker :
    ∃ s1 s2 s3 s4 : State,
      run sampleConfig init startupEvents = some s1 ∧
      s1.javaProcess = some 0 ∧ s1.now = 500 ∧
      run sampleConfig s1 gracefulStopEvents = some s2 ∧
      s2.javaProcess = none ∧ s2.live = [] ∧ s2.now = 1500 ∧ 0 ∈ s2.resolved ∧
      graceDeadline s2 0 = some 3500 ∧ sigkilled s2.trace = [] ∧
      run sampleConfig s2 rebuildEvents = some s3 ∧
      s3.javaProcess = some 1 ∧ s3.live = [1] ∧ s3.now = 3000 ∧ s3.isRestarting = false ∧
      sigkilled s3.trace = [] ∧
      run sampleConfig s3 [.advance 500, .graceTimeout 0] = some s4 ∧
      s4.javaProcess = none ∧ s4.live = [1] ∧ s4.now = 3500 ∧
      s4.trace = s3.trace ++ [.kill 1 .SIGKILL] ∧ sigkilled s4.trace = [1] := by
  refine ⟨_, _, _, _, rfl, by decide, by decide, rfl, by decide, by decide, by decide,
    by decide, by decide, by decide, rfl, by decide, by decide, by decide, by decide,
    by decide, rfl, by decide, by decide, by decide, by decide, by decide⟩

/-- Claim C3, as stated, fails: after a stop in which the grace timer fires before
the exit of worker 0 is observed, `startServer` creates worker 1 while worker 0
is still live, so two workers are live in a reachable state. -/
theorem two_live_workers_reachable :
    ¬ ∀ s : State, Reachable sampleConfig s → s.live.length ≤ 1 := by
  intro h
  have h2 := h ((run sampleConfig init (startupEvents ++ slowExitEvents)).getD init)
    ⟨startupEvents ++ slowExitEvents, by decide⟩
  revert h2
  decide

theorem resumeCaller_javaProcess (id : Nat) (caller : Caller) (s : State) :
    (resumeCaller id caller s).javaProcess = s.javaProcess := by
  cases caller <;> rfl

theorem runMicrotasks_trace (s : State) :
    ∃ rest, (runMicrotasks s).trace = s.trace ++ rest := by
  unfold runMicrotasks
  generalize s.flows = fl
  induction fl generalizing s with
  | nil => exact ⟨[], by simp⟩
  | cons f fs ih =>
    simp only [List.foldl_cons]
    rcases f with ⟨i, clr, ph⟩
    cases ph with
    | awaitStop c =>
      by_cases hc : c ∈ s.resolved
      · simp only [hc, if_true]
        obtain ⟨rest, hrest⟩ := ih (compileAndStart i clr s)
        exact ⟨Action.spinnerStart "Compiling..." :: rest, by
          rw [hrest]; simp [compileAndStart, State.suspend, State.emit]⟩
      · simp only [hc, if_false]
        exact ih s
    | _ => exact ih s

theorem startServer_called {cfg : Config} {s s1 : State} {e : Event} (hs : Shape s)
    (h : step cfg s e = some s1) (hc : startServerCalls s1.trace ≠ startServerCalls s.trace) :
    ∃ id f deadline spawn, e = .delayElapsed id spawn ∧ s.flows = [f] ∧ f.id = id ∧
      f.phase = .awaitDelay deadline ∧ s1 = afterDelay cfg id f.caller spawn s := by
  have hshape : s.flows = [] ∨ ∃ f, s.flows = [f] := by
    rcases shape_cases hs with ⟨hfl, -, -⟩ | ⟨f, hfl, -⟩
    · exact Or.inl hfl
    · exact Or.inr ⟨f, hfl⟩
  have hpot : ∀ t : State, (t.flows = [] ∨ ∃ f, t.flows = [f]) →
      startServerCalls (runMicrotasks t).trace = startServerCalls t.trace := by
    intro t ht
    rcases ht with hfl | ⟨f, hfl⟩
    · rw [runMicrotasks_nil hfl]
    · rw [runMicrotasks_single hfl]
      rcases f with ⟨i, clr, ph⟩
      cases ph <;> try rfl
      rename_i c
      by_cases hm : c ∈ t.resolved <;>
        simp [hm, compileAndStart, State.suspend, State.emit, startServerCalls,
          List.countP_append]
  rcases step_flow h with ⟨fp, -, hw, rfl⟩ | ⟨pid, code, -, -, rfl⟩ | ⟨call, d, -, hd, -, rfl⟩ |
    ⟨id, f, error, -, hfl, hp, rfl⟩ | ⟨id, f, result, -, hfl, hp, rfl⟩ |
    ⟨id, f, code, stderr, -, hfl, hp, rfl⟩ | ⟨id, f, d, spawn, he, hfl, hp, -, rfl⟩ |
    ⟨ms, -, rfl⟩
  · exfalso; apply hc
    unfold onChange
    split
    · simp [State.emit, startServerCalls, List.countP_append]
    · cases hj : s.javaProcess <;> cases hwin : cfg.isWindows <;>
        simp [hj, hwin, killServerGracefully, compileAndStart, State.suspend, State.emit,
          startServerCalls, List.countP_append]
  · exfalso; apply hc
    rw [onWorkerExit_eq, hpot _ (by simpa using hshape)]
    simp only [startServerCalls, List.countP_append]
    split <;> simp
  · exfalso; apply hc
    rw [onGraceTimeout_eq, hpot _ (by simpa using hshape)]
    simp only [startServerCalls, List.countP_append]
    split <;> simp
  · exfalso; apply hc
    cases error <;> cases f.caller <;>
      simp [afterEnsureDir, compileFailed, resumeCaller, State.finish, State.suspend,
        State.emit, startServerCalls, List.countP_append]
  · exfalso; apply hc
    rcases result with msg | files
    · cases f.caller <;>
        simp [afterFindJavaFiles, compileFailed, resumeCaller, State.finish, State.suspend,
          State.emit, startServerCalls, List.countP_append]
    · by_cases hl : files.length = 0 <;> cases f.caller <;>
        simp [afterFindJavaFiles, compile, resumeCaller, State.finish, State.suspend,
          State.emit, startServerCalls, List.countP_append, hl]
  · exfalso; apply hc
    by_cases hcode : code = some 0 <;> cases f.caller <;>
      simp [afterCompile, compileFailed, resumeCaller, State.finish, State.suspend,
        State.emit, startServerCalls, List.countP_append, hcode]
  · rcases hshape with hnil | ⟨g, hg1⟩
    · exact (flow?_nil hnil hfl).elim
    obtain ⟨rfl, hid⟩ := flow?_single hg1 hfl
    exact ⟨id, f, d, spawn, he, hg1, hid, hp, rfl⟩
  · exact (hc rfl).elim

/-- Claim C3, amended.  In every reachable state, a callback in which
`startServer` is called finds the slot empty (`javaProcess = null`), calls it
once, and the worker it puts in the slot is a new one, different from every
worker still live.  A callback that removes a worker from the slot leaves the
slot empty and is either an 'exit' that a listener of `killServerGracefully`
observes, or the expiry of a grace timer, which sends SIGKILL to the worker in
the slot and empties the slot without waiting for its exit. -/
theorem worker_slot_discipline (cfg : Config) (s s1 : State) (e : Event)
    (hr : Reachable cfg s) (h : step cfg s e = some s1) :
    (startServerCalls s1.trace ≠ startServerCalls s.trace →
      s.javaProcess = none ∧
      startServerCalls s1.trace = startServerCalls s.trace + 1 ∧
      ∀ p, s1.javaProcess = some p → p = s.nextPid ∧ p ∉ s.live) ∧
    (∀ p, s.javaProcess = some p → s1.javaProcess ≠ some p →
      s1.javaProcess = none ∧
      ((∃ pid code, e = .workerExit pid code ∧ exitCalls s pid ≠ []) ∨
       (∃ call rest, e = .graceTimeout call ∧
          s1.trace = s.trace ++ Action.kill p .SIGKILL :: rest))) := by
  obtain ⟨hs, hf⟩ := reachable_inv hr
  constructor
  · intro hc
    obtain ⟨id, f, d, spawn, -, hfl, -, hp, rfl⟩ := startServer_called hs h hc
    have hj : s.javaProcess = none := by
      rcases shape_cases hs with ⟨hnil, -, -⟩ | ⟨g, hg, -, -, hok⟩
      · rw [hnil] at hfl; cases hfl
      · rw [hg] at hfl
        cases hfl
        rw [hp] at hok
        exact hok
    refine ⟨hj, ?_, ?_⟩
    · cases spawn <;> cases f.caller <;>
        simp [afterDelay, startServer, compileFailed, resumeCaller, State.finish,
          State.emit, startServerCalls, List.countP_append]
    · intro p hp1
      have hfresh : s.nextPid ∉ s.live := fun hm => absurd (hf.2.2.2 _ hm) (lt_irrefl _)
      cases spawn <;>
        simp [afterDelay, startServer, compileFailed, resumeCaller_javaProcess,
          State.emit, hj] at hp1 <;>
        exact hp1 ▸ ⟨rfl, hfresh⟩
  · intro p hp hne
    have hmicro : ∀ t : State, (runMicrotasks t).javaProcess = t.javaProcess :=
      fun t => (runMicrotasks_core t).1
    rcases step_flow h with ⟨fp, -, hw, rfl⟩ | ⟨pid, code, he, -, rfl⟩ |
      ⟨call, d, he, hd, -, rfl⟩ |
      ⟨id, f, error, -, hfl, -, rfl⟩ | ⟨id, f, result, -, hfl, -, rfl⟩ |
      ⟨id, f, code, stderr, -, hfl, -, rfl⟩ | ⟨id, f, d, spawn, he, hfl, hph, -, rfl⟩ |
      ⟨ms, -, rfl⟩
    · exfalso; apply hne
      unfold onChange
      split
      · simpa [State.emit] using hp
      · simp [hp, killServerGracefully, State.suspend, State.emit]
    · rw [onWorkerExit_eq, hmicro] at hne ⊢
      by_cases hcalls : exitCalls s pid = []
      · simp [hcalls, hp] at hne
      · simp only [hcalls, if_false]
        exact ⟨trivial, Or.inl ⟨pid, code, he, hcalls⟩⟩
    · rw [onGraceTimeout_eq] at hne ⊢
      obtain ⟨rest, hrest⟩ := runMicrotasks_trace
        { s with
          javaProcess := none,
          graceTimers := s.graceTimers.filter (fun t => t.1 ≠ call),
          resolved := if call ∈ s.resolved then s.resolved else s.resolved ++ [call],
          trace := s.trace ++
            match s.javaProcess with
            | some pid => [.kill pid .SIGKILL]
            | none => [] }
      refine ⟨by rw [hmicro], Or.inr ⟨call, rest, he, ?_⟩⟩
      rw [hrest]
      simp [hp]
    · exfalso; apply hne
      cases error <;>
        simp [afterEnsureDir, compileFailed, resumeCaller_javaProcess, State.suspend,
          State.emit, hp]
    · exfalso; apply hne
      rcases result with msg | files
      · simp [afterFindJavaFiles, compileFailed, resumeCaller_javaProcess, State.emit, hp]
      · by_cases hl : files.length = 0 <;>
          simp [afterFindJavaFiles, compile, resumeCaller_javaProcess, State.suspend,
            State.emit, hl, hp]
    · exfalso; apply hne
      by_cases hcode : code = some 0 <;>
        simp [afterCompile, compileFailed, resumeCaller_javaProcess, State.suspend,
          State.emit, hcode, hp]
    · exfalso
      rcases shape_cases hs with ⟨hnil, -, -⟩ | ⟨g, hg, -, -, hok⟩
      · exact flow?_nil hnil hfl
      · obtain ⟨rfl, -⟩ := flow?_single hg hfl
        rw [hph] at hok
        simp only [phaseOk] at hok
        rw [hok] at hp
        cases hp
    · exact (hne hp).elim
theorem step_resolved {cfg : Config} {s s1 : State} {e : Event} (h : step cfg s e = some s1)
    (c : Nat) :
    (c ∈ s.resolved → c ∈ s1.resolved) ∧
    (∀ d, graceDeadline s c = some d → c ∈ s1.resolved ∨ graceDeadline s1 c = some d) := by
  have hmicro : ∀ t : State, (runMicrotasks t).resolved = t.resolved ∧
      (runMicrotasks t).graceTimers = t.graceTimers :=
    fun t => ⟨(runMicrotasks_core t).2.2.2.2.2.2.2.2.2.1, (runMicrotasks_core t).2.2.2.2.2.2.2.2.1⟩
  rcases step_flow h with ⟨fp, -, hw, rfl⟩ | ⟨pid, code, -, -, rfl⟩ | ⟨call, d, -, hd, -, rfl⟩ |
    ⟨id, f, error, -, hfl, hp, rfl⟩ | ⟨id, f, result, -, hfl, hp, rfl⟩ |
    ⟨id, f, code, stderr, -, hfl, hp, rfl⟩ | ⟨id, f, d, spawn, -, hfl, hp, -, rfl⟩ |
    ⟨ms, -, rfl⟩
  · unfold onChange
    split
    · exact ⟨fun hc => hc, fun d hd => Or.inr hd⟩
    · cases hj : s.javaProcess with
      | none => exact ⟨fun hc => hc, fun d hd => Or.inr hd⟩
      | some pid =>
        refine ⟨fun hc => hc, fun d hd => Or.inr ?_⟩
        simp only [graceDeadline, Option.map_eq_some'] at hd ⊢
        obtain ⟨t, ht, rfl⟩ := hd
        exact ⟨t, by simp [killServerGracefully, State.suspend, State.emit, hj,
          List.find?_append, ht], rfl⟩
  · rw [onWorkerExit_eq]
    simp only [graceDeadline, (hmicro _).1, (hmicro _).2, mem_foldl_resolve]
    exact ⟨Or.inl, fun d hd => Or.inr hd⟩
  · rw [onGraceTimeout_eq]
    simp only [graceDeadline, (hmicro _).1, (hmicro _).2]
    constructor
    · intro hc
      split
      · exact hc
      · exact List.mem_append_left _ hc
    · intro d1 hd1
      by_cases hcc : c = call
      · left
        subst hcc
        split
        · assumption
        · simp
      · right
        rw [find?_filter_ne _ hcc]
        exact hd1
  · cases error <;> cases f.caller <;>
      exact ⟨fun hc => hc, fun d hd => Or.inr hd⟩
  · rcases result with msg | files
    · cases f.caller <;> exact ⟨fun hc => hc, fun d hd => Or.inr hd⟩
    · unfold afterFindJavaFiles
      simp only []
      split <;> cases f.caller <;> exact ⟨fun hc => hc, fun d hd => Or.inr hd⟩
  · unfold afterCompile
    split <;> cases f.caller <;> exact ⟨fun hc => hc, fun d hd => Or.inr hd⟩
  · cases spawn <;> cases f.caller <;> exact ⟨fun hc => hc, fun d hd => Or.inr hd⟩
  · exact ⟨fun hc => hc, fun d hd => Or.inr hd⟩

theorem run_resolved {cfg : Config} {events : List Event} {s s1 : State}
    (h : run cfg s events = some s1) (c d : Nat)
    (hc : c ∈ s.resolved ∨ graceDeadline s c = some d) :
    c ∈ s1.resolved ∨ graceDeadline s1 c = some d := by
  induction events generalizing s with
  | nil =>
    simp only [run, Option.some.injEq] at h
    exact h ▸ hc
  | cons e es ih =>
    simp only [run] at h
    split at h
    · rename_i s2 h2
      apply ih h
      rcases hc with hc | hc
      · exact Or.inl ((step_resolved h2 c).1 hc)
      · exact (step_resolved h2 c).2 d hc
    · cases h

theorem graceTimeout_resolves {cfg : Config} {s s1 : State} {c : Nat}
    (h : step cfg s (.graceTimeout c) = some s1) : c ∈ s1.resolved := by
  rcases step_flow h with ⟨_, he, -⟩ | ⟨_, _, he, -⟩ | ⟨call, d, he, hd, -, rfl⟩ |
    ⟨_, _, _, he, -⟩ | ⟨_, _, _, he, -⟩ | ⟨_, _, _, _, he, -⟩ | ⟨_, _, _, _, he, -⟩ |
    ⟨_, he, -⟩ <;> cases he
  rw [onGraceTimeout_eq, (runMicrotasks_core _).2.2.2.2.2.2.2.2.2.1]
  simp only []
  split
  · assumption
  · simp

/-- Claim C4.  In every reachable state, `killServerGracefully` with an empty slot
resolves its promise at once and sends no signal; with a worker in the slot it
starts a grace timer due 3000 ms later.  After any callbacks whatever (the
worker may exit at any time or never), the promise has resolved or that timer
is still pending; while it has not resolved the timer can fire as soon as its
deadline is reached, and once the timer has fired the promise has resolved. -/
theorem stop_always_resolves (cfg : Config) (s : State) (hr : Reachable cfg s) :
    (s.javaProcess = none →
      (killServerGracefully cfg s).2 ∈ (killServerGracefully cfg s).1.resolved ∧
      (killServerGracefully cfg s).1.trace =
        s.trace ++ [.callKill (killServerGracefully cfg s).2]) ∧
    (s.javaProcess ≠ none →
      graceDeadline (killServerGracefully cfg s).1 (killServerGracefully cfg s).2 =
        some (s.now + 3000)) ∧
    (∀ (t t1 : State) (events : List Event),
      t.resolved = (killServerGracefully cfg s).1.resolved →
      t.graceTimers = (killServerGracefully cfg s).1.graceTimers →
      run cfg t events = some t1 →
      ((killServerGracefully cfg s).2 ∈ t1.resolved ∨
        graceDeadline t1 (killServerGracefully cfg s).2 = some (s.now + 3000)) ∧
      ((killServerGracefully cfg s).2 ∉ t1.resolved →
        ∃ t2, run cfg t1 [.advance (s.now + 3000 - t1.now),
            .graceTimeout (killServerGracefully cfg s).2] = some t2 ∧
          (killServerGracefully cfg s).2 ∈ t2.resolved) ∧
      (∀ t2, step cfg t1 (.graceTimeout (killServerGracefully cfg s).2) = some t2 →
        (killServerGracefully cfg s).2 ∈ t2.resolved)) := by
  obtain ⟨-, hf⟩ := reachable_inv hr
  have hcall : (killServerGracefully cfg s).2 = s.nextCall := by
    cases hj : s.javaProcess <;> simp [killServerGracefully, hj, State.emit]
  have hnone : s.javaProcess = none →
      s.nextCall ∈ (killServerGracefully cfg s).1.resolved ∧
      (killServerGracefully cfg s).1.trace = s.trace ++ [.callKill s.nextCall] := by
    intro hj
    simp only [killServerGracefully, hj, State.emit, resolve_eq]
    refine ⟨?_, trivial⟩
    split
    · assumption
    · simp
  have hsome : s.javaProcess ≠ none →
      graceDeadline (killServerGracefully cfg s).1 s.nextCall = some (s.now + 3000) := by
    intro hj
    obtain ⟨pid, hpid⟩ := Option.ne_none_iff_exists'.1 hj
    have hnot : s.graceTimers.find? (fun t => t.1 = s.nextCall) = none := by
      rw [List.find?_eq_none]
      intro t ht
      have := hf.1 t ht
      simp
      omega
    simp [killServerGracefully, hpid, State.emit, graceDeadline, List.find?_append, hnot]
  rw [hcall]
  refine ⟨hnone, hsome, ?_⟩
  intro t t1 events hres htim hrun
  have hstart : s.nextCall ∈ t.resolved ∨ graceDeadline t s.nextCall = some (s.now + 3000) := by
    cases hj : s.javaProcess with
    | none => exact Or.inl (hres ▸ (hnone hj).1)
    | some pid =>
      right
      have := hsome (by simp [hj])
      simpa [graceDeadline, htim] using this
  have hinv := run_resolved hrun s.nextCall (s.now + 3000) hstart
  refine ⟨hinv, ?_, fun t2 h2 => graceTimeout_resolves h2⟩
  intro hnr
  rcases hinv with hin | hd
  · exact (hnr hin).elim
  · have hd2 : graceDeadline { t1 with now := t1.now + (s.now + 3000 - t1.now) } s.nextCall =
        some (s.now + 3000) := hd
    have hle : s.now + 3000 ≤ t1.now + (s.now + 3000 - t1.now) := by omega
    have hstep : step cfg { t1 with now := t1.now + (s.now + 3000 - t1.now) }
        (.graceTimeout s.nextCall) =
        some (onGraceTimeout s.nextCall
          { t1 with now := t1.now + (s.now + 3000 - t1.now) }) := by
      simp only [step, hd2, hle, if_true]
    refine ⟨_, ?_, graceTimeout_resolves hstep⟩
    simp only [run]
    rw [show step cfg t1 (Event.advance (s.now + 3000 - t1.now)) =
      some { t1 with now := t1.now + (s.now + 3000 - t1.now) } from rfl]
    simp only [hstep]
theorem run_append (cfg : Config) (s : State) (xs ys : List Event) :
    run cfg s (xs ++ ys) = (run cfg s xs).bind (fun t => run cfg t ys) := by
  induction xs generalizing s with
  | nil => rfl
  | cons e es ih =>
    simp only [List.cons_append, run]
    cases step cfg s e with
    | none => rfl
    | some t => exact ih t

theorem build_run (cfg : Config) (id : Nat) (o : Outcome) (t : State)
    (h : t.flows = [⟨id, .handler, .awaitEnsureDir⟩]) :
    ∃ t1, run cfg t (buildEvents id o) = some t1 ∧ t1.isRestarting = false ∧ t1.flows = [] := by
  rcases o with ⟨we, ed, jf, cc, ce, sp⟩
  cases ed with
  | some msg =>
    simp [buildEvents, run, step, State.flow?, h, afterEnsureDir, compileFailed, resumeCaller,
      State.finish, State.emit]
  | none =>
    rcases jf with msg | files
    · simp [buildEvents, run, step, State.flow?, h, afterEnsureDir, afterFindJavaFiles,
        compileFailed, resumeCaller, State.finish, State.suspend, State.emit]
    · by_cases hl : files.length = 0
      · simp [buildEvents, run, step, State.flow?, h, afterEnsureDir, afterFindJavaFiles,
          compileFailed, resumeCaller, State.finish, State.suspend, State.emit, hl]
      · by_cases hc : cc = some 0
        · cases sp <;>
          simp [buildEvents, run, step, State.flow?, h, afterEnsureDir, afterFindJavaFiles,
            afterCompile, afterDelay, startServer, compile, compileFailed, resumeCaller,
            State.finish, State.suspend, State.emit, hl, hc]
        · simp [buildEvents, run, step, State.flow?, h, afterEnsureDir, afterFindJavaFiles,
            afterCompile, compile, compileFailed, resumeCaller,
            State.finish, State.suspend, State.emit, hl, hc]

theorem stop_run (cfg : Config) (s : State) (filePath : String) (o : Outcome)
    (hfl : s.flows = []) (hf : Fresh s) (hg : s.isRestarting = false) :
    (onChange cfg filePath s).isRestarting = true ∧
    ∃ t, run cfg (onChange cfg filePath s) (stopEvents s o) = some t ∧
      t.flows = [⟨s.nextFlow, .handler, .awaitEnsureDir⟩] := by
  have hnot : s.graceTimers.find? (fun t => t.1 = s.nextCall) = none := by
    rw [List.find?_eq_none]
    intro t ht
    have := hf.1 t ht
    simp
    omega
  cases hj : s.javaProcess with
  | none =>
    simp [onChange, hg, hj, stopEvents, run, compileAndStart, State.suspend, State.emit, hfl]
  | some pid =>
    have h1 : (onChange cfg filePath s).isRestarting = true := by
      simp [onChange, hg, hj, killServerGracefully, State.suspend, State.emit]
    have h2 : (onChange cfg filePath s).flows = [⟨s.nextFlow, .handler, .awaitStop s.nextCall⟩] := by
      simp [onChange, hg, hj, killServerGracefully, State.suspend, State.emit, hfl]
    have h3 : (pid, s.nextCall) ∈ (onChange cfg filePath s).exitListeners := by
      simp [onChange, hg, hj, killServerGracefully, State.suspend, State.emit]
    have h4 : graceDeadline (onChange cfg filePath s) s.nextCall = some (s.now + 3000) := by
      simp [onChange, hg, hj, killServerGracefully, State.suspend, State.emit, graceDeadline,
        List.find?_append, hnot]
    have h5 : (onChange cfg filePath s).now = s.now := by
      simp [onChange, hg, hj, killServerGracefully, State.suspend, State.emit]
    have h6 : (onChange cfg filePath s).live = s.live := by
      simp [onChange, hg, hj, killServerGracefully, State.suspend, State.emit]
    refine ⟨h1, ?_⟩
    generalize onChange cfg filePath s = s0 at h1 h2 h3 h4 h5 h6
    have htimeout : ∃ t, run cfg s0 [.advance 3000, .graceTimeout s.nextCall] = some t ∧
        t.flows = [⟨s.nextFlow, .handler, .awaitEnsureDir⟩] := by
      have hd : graceDeadline { s0 with now := s0.now + 3000 } s.nextCall =
          some (s.now + 3000) := h4
      have hstep : step cfg { s0 with now := s0.now + 3000 } (.graceTimeout s.nextCall) =
          some (onGraceTimeout s.nextCall { s0 with now := s0.now + 3000 }) := by
        simp only [step]
        rw [hd]
        simp only [h5, le_refl, if_true]
      refine ⟨onGraceTimeout s.nextCall { s0 with now := s0.now + 3000 }, ?_, ?_⟩
      · simp only [run]
        rw [show step cfg s0 (Event.advance 3000) = some { s0 with now := s0.now + 3000 }
          from rfl]
        simp only [hstep]
      · rw [onGraceTimeout_eq,
          runMicrotasks_single (f := ⟨s.nextFlow, .handler, .awaitStop s.nextCall⟩)
            (by simpa using h2)]
        have hm : s.nextCall ∈
            (if s.nextCall ∈ s0.resolved then s0.resolved else s0.resolved ++ [s.nextCall]) := by
          split
          · assumption
          · simp
        simp [hm, compileAndStart, State.suspend, State.emit, h2]
    unfold stopEvents
    simp only [hj]
    cases o.workerExit with
    | none => exact htimeout
    | some code =>
      by_cases hlive : pid ∈ s.live
      · simp only [hlive, if_true]
        have hstep : step cfg s0 (.workerExit pid code) = some (onWorkerExit pid code s0) := by
          simp only [step, h6, hlive, if_true]
        refine ⟨onWorkerExit pid code s0, by simp only [run, hstep], ?_⟩
        rw [onWorkerExit_eq,
          runMicrotasks_single (f := ⟨s.nextFlow, .handler, .awaitStop s.nextCall⟩)
            (by simpa using h2)]
        have hm : s.nextCall ∈ exitCalls s0 pid := by
          simp only [exitCalls, List.mem_map, List.mem_filter]
          exact ⟨(pid, s.nextCall), ⟨h3, by simp⟩, rfl⟩
        simp [mem_foldl_resolve, hm, compileAndStart, State.suspend, State.emit, h2]
      · simp only [hlive, if_false]
        exact htimeout

/-- Claim C5.  `isRestarting` is false at startup.  In every reachable state it
is set exactly while one invocation of the 'change' handler is suspended, so no
cycle that has ended leaves it set.  And a change notification accepted for
processing sets it and its cycle clears it again, whichever way the cycle goes:
`stop()` resolved by the observed exit or by the grace timer, `ensureDir` or
the source discovery failing, no source file found, the compiler exiting with
zero or not, `spawn` succeeding, failing later or throwing.  (The promise of
`killServerGracefully` has no rejection path.) -/
theorem guard_always_cleared (cfg : Config) :
    init.isRestarting = false ∧
    (∀ s : State, Reachable cfg s →
      (s.isRestarting = true ↔ ∃ f, s.flows = [f] ∧ f.caller = .handler) ∧
      (s.flows = [] → s.isRestarting = false)) ∧
    (∀ (s : State) (filePath : String) (o : Outcome),
      Reachable cfg s → s.watching = true → s.isRestarting = false →
      ∃ s1 s2, step cfg s (.change filePath) = some s1 ∧ s1.isRestarting = true ∧
        run cfg s (cycleEvents s filePath o) = some s2 ∧
        s2.isRestarting = false ∧ s2.flows = []) := by
  refine ⟨rfl, ?_, ?_⟩
  · intro s hr
    obtain ⟨hs, -⟩ := reachable_inv hr
    rcases shape_cases hs with ⟨hfl, -, hg⟩ | ⟨f, hfl, -, hg, -⟩
    · simp [hfl, hg]
    · rcases f with ⟨i, clr, ph⟩
      cases clr <;> simp_all
  · intro s filePath o hr hw hg
    obtain ⟨hs, hf⟩ := reachable_inv hr
    have hfl : s.flows = [] := by
      rcases shape_cases hs with ⟨hfl, -, -⟩ | ⟨f, -, hw2, hg2, -⟩
      · exact hfl
      · rw [hw] at hw2
        rw [hg, ← hw2] at hg2
        cases hg2
    obtain ⟨h1, t, ht, htfl⟩ := stop_run cfg s filePath o hfl hf hg
    obtain ⟨t1, ht1, hg1, hfl1⟩ := build_run cfg s.nextFlow o t htfl
    have hstep : step cfg s (.change filePath) = some (onChange cfg filePath s) := by
      simp only [step, hw, if_true]
    refine ⟨_, t1, hstep, h1, ?_, hg1, hfl1⟩
    simp [cycleEvents, run, hstep, run_append, ht, ht1]

theorem runningState_reachable : Reachable sampleConfig runningState :=
  ⟨startupEvents, by decide⟩

theorem beforeSecondStart_reachable : Reachable sampleConfig beforeSecondStart :=
  ⟨startupEvents ++ slowExitEvents.take 7, by decide⟩

/-- Instance of claim C1: a cycle with two overlapping notifications calls
`compile` once and `startServer` once. -/
theorem single_flight_witness :
    Reachable sampleConfig runningState ∧ runningState.isRestarting = false ∧
    guardHeld sampleConfig acceptedState overlappingEvents = true ∧
    acceptedState.isRestarting = true ∧
    compileCalls ((run sampleConfig acceptedState overlappingEvents).getD init).trace ≤
      compileCalls runningState.trace + 1 ∧
    startServerCalls ((run sampleConfig acceptedState overlappingEvents).getD init).trace ≤
      startServerCalls runningState.trace + 1 :=
  ⟨runningState_reachable, by decide, by decide,
    (single_flight sampleConfig).2.1 runningState acceptedState
      ((run sampleConfig acceptedState overlappingEvents).getD init) "src/App.java"
      overlappingEvents runningState_reachable (by decide) (by decide) (by decide) (by decide)⟩

/-- Instance of the amended claim C3: the second `startServer` finds the slot
empty and creates worker 1 while worker 0 is still live. -/
theorem worker_slot_discipline_witness :
    Reachable sampleConfig beforeSecondStart ∧
    step sampleConfig beforeSecondStart (.delayElapsed 1 .ok) =
      some (afterDelay sampleConfig 1 .handler .ok beforeSecondStart) ∧
    beforeSecondStart.live = [0] ∧
    (afterDelay sampleConfig 1 .handler .ok beforeSecondStart).live = [0, 1] ∧
    (beforeSecondStart.javaProcess = none ∧
      startServerCalls (afterDelay sampleConfig 1 .handler .ok beforeSecondStart).trace =
        startServerCalls beforeSecondStart.trace + 1 ∧
      ∀ p, (afterDelay sampleConfig 1 .handler .ok beforeSecondStart).javaProcess = some p →
        p = beforeSecondStart.nextPid ∧ p ∉ beforeSecondStart.live) :=
  ⟨beforeSecondStart_reachable, by decide, by decide, by decide,
    (worker_slot_discipline sampleConfig beforeSecondStart
      (afterDelay sampleConfig 1 .handler .ok beforeSecondStart) (.delayElapsed 1 .ok)
      beforeSecondStart_reachable (by decide)).1 (by decide)⟩

/-- Instance of claim C4: `stop()` called on the running worker 0 at 500 ms starts a
grace timer due at 3500 ms. -/
theorem stop_always_resolves_witness :
    Reachable sampleConfig runningState ∧ runningState.now = 500 ∧
    graceDeadline (killServerGracefully sampleConfig runningState).1
      (killServerGracefully sampleConfig runningState).2 = some (runningState.now + 3000) :=
  ⟨runningState_reachable, by decide,
    (stop_always_resolves sampleConfig runningState runningState_reachable).2.1 (by decide)⟩

/-- Instance of claim C5: a cycle whose build is rejected by the compiler ends with
the guard cleared. -/
theorem guard_always_cleared_witness :
    ∃ s1 s2, step sampleConfig runningState (.change "src/App.java") = some s1 ∧
      s1.isRestarting = true ∧
      run sampleConfig runningState (cycleEvents runningState "src/App.java" rejectedBuild) =
        some s2 ∧
      s2.isRestarting = false ∧ s2.flows = [] :=
  (guard_always_cleared sampleConfig).2.2 runningState "src/App.java" rejectedBuild
    runningState_reachable (by decide) (by decide)

/-- Claim C6, as stated, fails: a worker that exits with code 0 while no restart
is in flight is not reported. -/
theorem clean_exit_not_reported :
    runningState.isRestarting = false ∧
    reportsExit (some 0) runningState.isRestarting = false ∧
    onServerExit (some 0) runningState = runningState ∧
    ¬ ((onServerExit (some 0) runningState).trace ≠ runningState.trace ↔
        runningState.isRestarting = false) := by
  refine ⟨by decide, by decide, by decide, ?_⟩
  intro h
  exact (h.2 (by decide)) (by decide)

/-- Claim C6, amended.  The 'exit' listener installed by `startServer` prints the
"Server stopped with code" error exactly when the exit code is neither 0 nor
null and `isRestarting` is false; it changes nothing else.  An exit with code 0
or by a signal is never reported, whatever the state of the orchestrator. -/
theorem exit_report_rule (s : State) (code : Option Int) :
    ((onServerExit code s).trace ≠ s.trace ↔
      (code ≠ some 0 ∧ code ≠ none ∧ s.isRestarting = false)) ∧
    onServerExit code s =
      (if code ≠ some 0 ∧ code ≠ none ∧ s.isRestarting = false then
        s.emit (.console ("\n❌ Server stopped with code " ++ showCode code))
      else s) := by
  by_cases h : code ≠ some 0 ∧ code ≠ none ∧ s.isRestarting = false
  · obtain ⟨h1, h2, h3⟩ := h
    simp [onServerExit, reportsExit, h1, h2, h3, State.emit]
  · have hr : reportsExit code s.isRestarting = false := by
      simp only [reportsExit]
      by_cases h1 : code = some 0
      · simp [h1]
      · by_cases h2 : code = none
        · simp [h2]
        · have h3 : s.isRestarting = true := by
            cases hs : s.isRestarting
            · exact (h ⟨h1, h2, hs⟩).elim
            · rfl
          simp [h3]
    simp [onServerExit, hr, h]

/-- Instance of the amended claim C6: exit code 1 outside a restart is reported,
exit code 0 is not. -/
theorem exit_report_rule_witness :
    (onServerExit (some 1) runningState).trace ≠ runningState.trace ∧
    ¬ (onServerExit (some 0) runningState).trace ≠ runningState.trace :=
  ⟨(exit_report_rule runningState (some 1)).1.2 (by decide),
    fun h => absurd ((exit_report_rule runningState (some 0)).1.1 h).1 (by decide)⟩

theorem isRuntimeJar_ne_empty {f : String} (h : isRuntimeJar f = true) : f ≠ "" := by
  intro e
  rw [e] at h
  revert h
  decide

theorem findRuntimeJarIn_cons_hit (disk : String → Listing)
    (dir : String) (rest : List String) (names : List String) (jarFile : String)
    (hd : disk dir = .files names) (hf : names.find? isRuntimeJar = some jarFile) :
    findRuntimeJarIn disk (dir :: rest) = .found (Deps.pathJoin [dir, jarFile]) := by
  have hne : jarFile ≠ "" := isRuntimeJar_ne_empty (List.find?_some hf)
  simp only [findRuntimeJarIn, hd, hf, hne, ne_eq, not_false_eq_true, if_true]

theorem findRuntimeJarIn_cons_pass (disk : String → Listing)
    (dir : String) (rest : List String) (h : PassedOver disk dir) :
    findRuntimeJarIn disk (dir :: rest) = findRuntimeJarIn disk rest := by
  rcases h with hd | ⟨listed, hd, hno⟩
  · simp only [findRuntimeJarIn, hd]
  · have hnone : listed.find? isRuntimeJar = none := by
      rw [List.find?_eq_none]
      intro f hf
      simp [hno f hf]
    simp only [findRuntimeJarIn, hd, hnone]

theorem findRuntimeJarIn_cons_throw (disk : String → Listing)
    (dir : String) (rest : List String) (error : String)
    (hd : disk dir = .unreadable error) :
    findRuntimeJarIn disk (dir :: rest) = .thrown error := by
  simp only [findRuntimeJarIn, hd]

theorem candidate_cases (disk : String → Listing) (dir : String) :
    PassedOver disk dir ∨
    (∃ names jarFile, disk dir = .files names ∧ names.find? isRuntimeJar = some jarFile) ∨
    (∃ error, disk dir = .unreadable error) := by
  cases hd : disk dir with
  | missing => exact Or.inl (Or.inl hd)
  | unreadable error => exact Or.inr (Or.inr ⟨error, rfl⟩)
  | files names =>
    cases hf : names.find? isRuntimeJar with
    | some jarFile => exact Or.inr (Or.inl ⟨names, jarFile, rfl, hf⟩)
    | none =>
      refine Or.inl (Or.inr ⟨names, hd, ?_⟩)
      intro f hm
      have := List.find?_eq_none.1 hf f hm
      simpa using this

theorem findRuntimeJarIn_skip (disk : String → Listing) (before rest : List String)
    (h : ∀ d ∈ before, PassedOver disk d) :
    findRuntimeJarIn disk (before ++ rest) = findRuntimeJarIn disk rest := by
  induction before with
  | nil => rfl
  | cons b bs ih =>
    rw [List.cons_append, findRuntimeJarIn_cons_pass disk b _ (h b (List.mem_cons_self _ _)),
      ih (fun d hd => h d (List.mem_cons_of_mem _ hd))]

theorem first_decider (disk : String → Listing) (candidates : List String) :
    (∀ d ∈ candidates, PassedOver disk d) ∨
    ∃ before dir after, candidates = before ++ dir :: after ∧
      (∀ d ∈ before, PassedOver disk d) ∧
      ((∃ names jarFile, disk dir = .files names ∧ names.find? isRuntimeJar = some jarFile) ∨
        (∃ error, disk dir = .unreadable error)) := by
  induction candidates with
  | nil => exact Or.inl (fun d hd => absurd hd (List.not_mem_nil d))
  | cons c rest ih =>
    rcases candidate_cases disk c with hp | hdec
    · rcases ih with hall | ⟨before, dir, after, hc, hb, hdec⟩
      · left
        intro d hd
        rcases List.mem_cons.1 hd with rfl | hd
        · exact hp
        · exact hall d hd
      · right
        refine ⟨c :: before, dir, after, by rw [hc]; rfl, ?_, hdec⟩
        intro d hd
        rcases List.mem_cons.1 hd with rfl | hd
        · exact hp
        · exact hb d hd
    · exact Or.inr ⟨[], c, rest, rfl, fun d hd => absurd hd (List.not_mem_nil d), hdec⟩

theorem findRuntimeJarIn_some (disk : String → Listing)
    (candidates : List String) (path : String) :
    findRuntimeJarIn disk candidates = .found path ↔
      ∃ before dir after names jarFile,
        candidates = before ++ dir :: after ∧
        (∀ d ∈ before, PassedOver disk d) ∧
        disk dir = .files names ∧ names.find? isRuntimeJar = some jarFile ∧
        path = Deps.pathJoin [dir, jarFile] := by
  constructor
  · intro h
    rcases first_decider disk candidates with hall | ⟨before, dir, after, hc, hb, hdec⟩
    · have := findRuntimeJarIn_skip disk candidates [] hall
      rw [List.append_nil, h] at this
      simp [findRuntimeJarIn] at this
    · rw [hc, findRuntimeJarIn_skip disk before _ hb] at h
      rcases hdec with ⟨names, jarFile, hd, hf⟩ | ⟨error, hd⟩
      · rw [findRuntimeJarIn_cons_hit disk dir after names jarFile hd hf] at h
        simp only [Located.found.injEq] at h
        exact ⟨before, dir, after, names, jarFile, hc, hb, hd, hf, h.symm⟩
      · rw [findRuntimeJarIn_cons_throw disk dir after error hd] at h
        cases h
  · rintro ⟨before, dir, after, names, jarFile, hc, hb, hd, hf, hp⟩
    rw [hc, findRuntimeJarIn_skip disk before _ hb,
      findRuntimeJarIn_cons_hit disk dir after names jarFile hd hf, hp]

theorem findRuntimeJarIn_none (disk : String → Listing) (candidates : List String) :
    findRuntimeJarIn disk candidates = .notFound ↔ ∀ d ∈ candidates, PassedOver disk d := by
  constructor
  · intro h
    rcases first_decider disk candidates with hall | ⟨before, dir, after, hc, hb, hdec⟩
    · exact hall
    · rw [hc, findRuntimeJarIn_skip disk before _ hb] at h
      rcases hdec with ⟨names, jarFile, hd, hf⟩ | ⟨error, hd⟩
      · rw [findRuntimeJarIn_cons_hit disk dir after names jarFile hd hf] at h
        simp at h
      · rw [findRuntimeJarIn_cons_throw disk dir after error hd] at h
        cases h
  · intro hall
    have := findRuntimeJarIn_skip disk candidates [] hall
    rw [List.append_nil] at this
    rw [this]
    rfl

theorem findRuntimeJarIn_error (disk : String → Listing) (candidates : List String)
    (error : String) :
    findRuntimeJarIn disk candidates = .thrown error ↔
      ∃ before dir after, candidates = before ++ dir :: after ∧
        (∀ d ∈ before, PassedOver disk d) ∧ disk dir = .unreadable error := by
  constructor
  · intro h
    rcases first_decider disk candidates with hall | ⟨before, dir, after, hc, hb, hdec⟩
    · have := findRuntimeJarIn_skip disk candidates [] hall
      rw [List.append_nil, h] at this
      simp [findRuntimeJarIn] at this
    · rw [hc, findRuntimeJarIn_skip disk before _ hb] at h
      rcases hdec with ⟨names, jarFile, hd, hf⟩ | ⟨error2, hd⟩
      · rw [findRuntimeJarIn_cons_hit disk dir after names jarFile hd hf] at h
        cases h
      · rw [findRuntimeJarIn_cons_throw disk dir after error2 hd] at h
        simp only [Located.thrown.injEq] at h
        exact ⟨before, dir, after, hc, hb, h ▸ hd⟩
  · rintro ⟨before, dir, after, hc, hb, hd⟩
    rw [hc, findRuntimeJarIn_skip disk before _ hb,
      findRuntimeJarIn_cons_throw disk dir after error hd]

theorem passedOver_of_listable (disk : String → Listing) (dir : String)
    (h : ∀ error, disk dir ≠ .unreadable error) :
    PassedOver disk dir ↔
      ∀ listed, disk dir = .files listed → ∀ f ∈ listed, isRuntimeJar f = false := by
  constructor
  · rintro (hm | ⟨listed, hl, hno⟩) listed2 h2
    · rw [hm] at h2
      cases h2
    · rw [hl] at h2
      cases h2
      exact hno
  · intro hno
    cases hd : disk dir with
    | missing => exact Or.inl hd
    | files names => exact Or.inr ⟨names, hd, hno names hd⟩
    | unreadable error => exact (h error hd).elim

/-- Claim C13 fails as stated: with a regular file at `A` and the runtime jar in
`B`, the first candidate that exists and lists a matching name is `B`, but
`findRuntimeJar` over `[A, B]` ends with the exception of `readdirSync` and
not with the path under `B`; over `[A]` alone no existing candidate lists a
matching name, and the result is that exception and not `null`. -/
theorem unlistable_candidate_throws :
    fileAtFirstCandidate "A" = .unreadable "ENOTDIR: not a directory, scandir A" ∧
    fileAtFirstCandidate "B" =
      .files ["artha-runtime-1.0-javadoc.jar", "artha-runtime-1.0.jar",
        "artha-runtime-1.1.jar"] ∧
    ["artha-runtime-1.0-javadoc.jar", "artha-runtime-1.0.jar",
        "artha-runtime-1.1.jar"].find? isRuntimeJar = some "artha-runtime-1.0.jar" ∧
    findRuntimeJarIn fileAtFirstCandidate ["A", "B"] =
      .thrown "ENOTDIR: not a directory, scandir A" ∧
    findRuntimeJarIn fileAtFirstCandidate ["A", "B"] ≠ .found "B/artha-runtime-1.0.jar" ∧
    (∀ d ∈ ["A"], ∀ listed, fileAtFirstCandidate d = .files listed →
      ∀ f ∈ listed, isRuntimeJar f = false) ∧
    findRuntimeJarIn fileAtFirstCandidate ["A"] ≠ .notFound := by
  refine ⟨by decide, by decide, by decide, by decide, by decide, ?_, by decide⟩
  intro d hd listed hl
  simp only [List.mem_singleton] at hd
  subst hd
  rw [show fileAtFirstCandidate "A" = .unreadable "ENOTDIR: not a directory, scandir A" from
    by decide] at hl
  cases hl

/-- Claim C13, amended.  The locator visits the candidates in list order and
passes over a candidate that does not exist or whose listing holds no matching
name; the first candidate it does not pass over decides the result.  It
returns a path exactly when that candidate lists a matching name, and the path
is `path.join` of the candidate with the first matching name of its listing;
it ends with the exception of `readdirSync` exactly when that candidate exists
and cannot be listed; it returns `null` exactly when every candidate is passed
over.  When every existing candidate can be listed, this is the claim as
stated: the path comes from the first candidate that exists and lists a
matching name, and `null` means that no existing candidate lists one.  A name
matches when it starts with `artha-runtime`, ends with `.jar` and ends with
neither `-sources.jar` nor `-javadoc.jar`.  `findRuntimeJar` is this search
over its five fixed candidates. -/
theorem findRuntimeJar_first_match (disk : String → Listing) (candidates : List String) :
    (∀ path, findRuntimeJarIn disk candidates = .found path ↔
      ∃ before dir after names jarFile,
        candidates = before ++ dir :: after ∧
        (∀ d ∈ before, PassedOver disk d) ∧
        disk dir = .files names ∧ names.find? isRuntimeJar = some jarFile ∧
        path = Deps.pathJoin [dir, jarFile]) ∧
    (∀ error, findRuntimeJarIn disk candidates = .thrown error ↔
      ∃ before dir after, candidates = before ++ dir :: after ∧
        (∀ d ∈ before, PassedOver disk d) ∧ disk dir = .unreadable error) ∧
    (findRuntimeJarIn disk candidates = .notFound ↔ ∀ d ∈ candidates, PassedOver disk d) ∧
    ((∀ d ∈ candidates, ∀ error, disk d ≠ .unreadable error) →
      (∀ path, findRuntimeJarIn disk candidates = .found path ↔
        ∃ before dir after names jarFile,
          candidates = before ++ dir :: after ∧
          (∀ d ∈ before, ∀ listed, disk d = .files listed →
            ∀ f ∈ listed, isRuntimeJar f = false) ∧
          disk dir = .files names ∧ names.find? isRuntimeJar = some jarFile ∧
          path = Deps.pathJoin [dir, jarFile]) ∧
      (findRuntimeJarIn disk candidates = .notFound ↔
        ∀ d ∈ candidates, ∀ listed, disk d = .files listed →
          ∀ f ∈ listed, isRuntimeJar f = false)) ∧
    (∀ names jarFile, names.find? isRuntimeJar = some jarFile ↔
      isRuntimeJar jarFile = true ∧
      ∃ earlier later, names = earlier ++ jarFile :: later ∧
        ∀ f ∈ earlier, isRuntimeJar f = false) ∧
    (∀ f, isRuntimeJar f = true ↔
      jsStartsWith f "artha-runtime" = true ∧ jsEndsWith f ".jar" = true ∧
      jsEndsWith f "-sources.jar" = false ∧ jsEndsWith f "-javadoc.jar" = false) ∧
    (∀ cwd dirname, findRuntimeJar cwd dirname disk =
      findRuntimeJarIn disk (possiblePaths cwd dirname) ∧
      (possiblePaths cwd dirname).length = 5) := by
  refine ⟨findRuntimeJarIn_some disk candidates, findRuntimeJarIn_error disk candidates,
    findRuntimeJarIn_none disk candidates, ?_, ?_, ?_, fun _ _ => ⟨rfl, rfl⟩⟩
  · intro hlist
    constructor
    · intro path
      rw [findRuntimeJarIn_some]
      constructor
      · rintro ⟨before, dir, after, names, jarFile, hc, hb, hd, hf, hp⟩
        refine ⟨before, dir, after, names, jarFile, hc, ?_, hd, hf, hp⟩
        intro d hm
        have hmem : d ∈ candidates := by
          rw [hc]
          exact List.mem_append_left _ hm
        exact (passedOver_of_listable disk d (hlist d hmem)).1 (hb d hm)
      · rintro ⟨before, dir, after, names, jarFile, hc, hb, hd, hf, hp⟩
        refine ⟨before, dir, after, names, jarFile, hc, ?_, hd, hf, hp⟩
        intro d hm
        have hmem : d ∈ candidates := by
          rw [hc]
          exact List.mem_append_left _ hm
        exact (passedOver_of_listable disk d (hlist d hmem)).2 (hb d hm)
    · rw [findRuntimeJarIn_none]
      constructor
      · intro h d hm
        exact (passedOver_of_listable disk d (hlist d hm)).1 (h d hm)
      · intro h d hm
        exact (passedOver_of_listable disk d (hlist d hm)).2 (h d hm)
  · intro names jarFile
    rw [List.find?_eq_some]
    constructor
    · rintro ⟨h1, earlier, later, h2, h3⟩
      exact ⟨h1, earlier, later, h2, fun f hf => by simpa using h3 f hf⟩
    · rintro ⟨h1, earlier, later, h2, h3⟩
      exact ⟨h1, earlier, later, h2, fun f hf => by simp [h3 f hf]⟩
  · intro f
    simp only [isRuntimeJar, Bool.and_eq_true, Bool.not_eq_true', and_assoc]

/-- Instance of the amended claim C13: with a match only in `B`, the candidates
`[A, B]` give the path under `B`, of the first matching name; `[A]` alone gives
`null`; and with a regular file at `A` the exception of `readdirSync` is the
result. -/
theorem findRuntimeJar_first_match_witness :
    findRuntimeJarIn sampleListing ["A", "B"] = .found "B/artha-runtime-1.0.jar" ∧
    findRuntimeJarIn sampleListing ["A"] = .notFound ∧
    findRuntimeJarIn fileAtFirstCandidate ["A", "B"] =
      .thrown "ENOTDIR: not a directory, scandir A" :=
  ⟨((findRuntimeJar_first_match sampleListing ["A", "B"]).1 "B/artha-runtime-1.0.jar").2
      ⟨["A"], "B", [],
        ["artha-runtime-1.0-javadoc.jar", "artha-runtime-1.0.jar", "artha-runtime-1.1.jar"],
        "artha-runtime-1.0.jar", rfl,
        fun d hd => Or.inr ⟨["README.md", "artha-runtime-1.0-sources.jar"],
          by rw [List.mem_singleton.1 hd]; decide, by decide⟩,
        by decide, by decide, by decide⟩,
    (findRuntimeJar_first_match sampleListing ["A"]).2.2.1.2
      (fun d hd => Or.inr ⟨["README.md", "artha-runtime-1.0-sources.jar"],
        by rw [List.mem_singleton.1 hd]; decide, by decide⟩),
    ((findRuntimeJar_first_match fileAtFirstCandidate ["A", "B"]).2.1
        "ENOTDIR: not a directory, scandir A").2
      ⟨[], "A", ["B"], rfl, fun d hd => absurd hd (List.not_mem_nil d), by decide⟩⟩

mutual
theorem scanItem_eq_nil :
    ∀ (item : Item) (directory : String),
      (∀ n ∈ item.fileNames, jsEndsWith n ".java" = false) → scanItem directory item = []
  | .file name, directory, h => by
    have hn : jsEndsWith name ".java" = false := h name (by simp [Item.fileNames])
    simp [scanItem, hn]
  | .dir name items, directory, h => by
    rw [scanItem]
    exact scan_eq_nil items _ (by simpa [Item.fileNames] using h)
theorem scan_eq_nil :
    ∀ (items : Items) (directory : String),
      (∀ n ∈ items.fileNames, jsEndsWith n ".java" = false) → scan directory items = []
  | .nil, _, _ => by simp [scan]
  | .cons item rest, directory, h => by
    have h1 : ∀ n ∈ item.fileNames, jsEndsWith n ".java" = false :=
      fun n hn => h n (by simp [Items.fileNames, hn])
    have h2 : ∀ n ∈ rest.fileNames, jsEndsWith n ".java" = false :=
      fun n hn => h n (by simp [Items.fileNames, hn])
    rw [scan, scanItem_eq_nil item directory h1, scan_eq_nil rest directory h2]
    rfl
end

mutual
theorem scanItem_nil_only :
    ∀ (item : Item) (directory : String), scanItem directory item = [] →
      ∀ n ∈ item.fileNames, jsEndsWith n ".java" = false
  | .file name, directory, h => by
    intro n hn
    simp only [Item.fileNames, List.mem_singleton] at hn
    subst hn
    cases he : jsEndsWith n ".java" with
    | false => rfl
    | true => simp [scanItem, he] at h
  | .dir name items, directory, h => by
    rw [scanItem] at h
    simpa [Item.fileNames] using scan_nil_only items _ h
theorem scan_nil_only :
    ∀ (items : Items) (directory : String), scan directory items = [] →
      ∀ n ∈ items.fileNames, jsEndsWith n ".java" = false
  | .nil, _, _ => by simp [Items.fileNames]
  | .cons item rest, directory, h => by
    rw [scan, List.append_eq_nil] at h
    intro n hn
    simp only [Items.fileNames, List.mem_append] at hn
    rcases hn with hn | hn
    · exact scanItem_nil_only item directory h.1 n hn
    · exact scan_nil_only rest directory h.2 n hn
end

/-- Claim C14, as stated, fails on the diagnostic: with no `.java` file under
`src`, the first build fails with `No Java files found in src`; the text
`No source files found in src` is printed nowhere. -/
theorem diagnostic_names_java_files :
    findJavaFiles sampleConfig.srcDir treeWithoutSources = [] ∧
    (run sampleConfig awaitingSources
        [.findJavaFilesDone 0 (.ok (findJavaFiles sampleConfig.srcDir treeWithoutSources))]).map
        (fun s => s.trace) =
      some [.spinnerStart "Compiling...", .spinnerFail "No Java files found in src",
        .console "\n👀 Watching for changes... (Press Ctrl+C to stop)\n"] ∧
    (∀ s, run sampleConfig awaitingSources
        [.findJavaFilesDone 0 (.ok (findJavaFiles sampleConfig.srcDir treeWithoutSources))] =
          some s →
      Action.spinnerFail "No source files found in src" ∉ s.trace ∧
      Action.console "No source files found in src" ∉ s.trace) := by
  refine ⟨by decide, by decide, ?_⟩
  intro s hs
  have h : some s = run sampleConfig awaitingSources
      [.findJavaFilesDone 0 (.ok (findJavaFiles sampleConfig.srcDir treeWithoutSources))] :=
    hs.symm
  have h2 : s = (run sampleConfig awaitingSources
      [.findJavaFilesDone 0 (.ok (findJavaFiles sampleConfig.srcDir treeWithoutSources))]).getD
      init := by
    rw [← h]
    rfl
  rw [h2]
  decide

/-- Claim C14, amended.  In every reachable state in which a flow awaits
`findJavaFiles`, for every tree under the source directory without a file whose
name ends in `.java`: `findJavaFiles` returns the empty list (and only then),
and the callback that delivers it ends the build with the diagnostic
`No Java files found in <srcDir>`; `compile` and `startServer` are not called,
the flow is over, the guard is not set and the worker slot is empty. -/
theorem no_java_files_fails_build (cfg : Config) (s : State) (id : Nat) (f : Flow)
    (items : Items) (hr : Reachable cfg s) (hf : s.flow? id = some f)
    (hp : f.phase = .awaitFindJavaFiles)
    (hno : ∀ n ∈ items.fileNames, jsEndsWith n ".java" = false) :
    findJavaFiles cfg.srcDir items = [] ∧
    (∀ other : Items, findJavaFiles cfg.srcDir other = [] ↔
      ∀ n ∈ other.fileNames, jsEndsWith n ".java" = false) ∧
    ∃ s1, step cfg s (.findJavaFilesDone id (.ok (findJavaFiles cfg.srcDir items))) = some s1 ∧
      s1.trace = s.trace ++ Action.spinnerFail ("No Java files found in " ++ cfg.srcDir) ::
        (match f.caller with
          | .startup => [.console "\n👀 Watching for changes... (Press Ctrl+C to stop)\n"]
          | .handler => []) ∧
      compileCalls s1.trace = compileCalls s.trace ∧
      startServerCalls s1.trace = startServerCalls s.trace ∧
      s1.javaProcess = none ∧ s1.flows = [] ∧ s1.isRestarting = false := by
  have hnil : findJavaFiles cfg.srcDir items = [] := scan_eq_nil items cfg.srcDir hno
  refine ⟨hnil, fun other => ⟨scan_nil_only other cfg.srcDir, scan_eq_nil other cfg.srcDir⟩, ?_⟩
  obtain ⟨hs, -⟩ := reachable_inv hr
  rcases shape_cases hs with ⟨hfl, -, -⟩ | ⟨g, hfl, hw, hg, hok⟩
  · exact (flow?_nil hfl hf).elim
  · obtain ⟨rfl, hid⟩ := flow?_single hfl hf
    rcases f with ⟨i, clr, ph⟩
    simp only at hp hid
    subst hp
    subst hid
    simp only [phaseOk] at hok
    have hstep : step cfg s (.findJavaFilesDone i (.ok (findJavaFiles cfg.srcDir items))) =
        some (afterFindJavaFiles cfg i clr (.ok (findJavaFiles cfg.srcDir items)) s) := by
      simp only [step, hf]
    refine ⟨_, hstep, ?_⟩
    rw [hnil]
    cases clr with
    | startup =>
      simp at hg
      simp [afterFindJavaFiles, resumeCaller, State.finish, State.emit, hfl, hok, hg,
        compileCalls, startServerCalls, List.countP_append]
    | handler =>
      simp [afterFindJavaFiles, resumeCaller, State.finish, State.emit, hfl, hok,
        compileCalls, startServerCalls, List.countP_append]

/-- Instance of the amended claim C14: the first build of a tree without sources. -/
theorem no_java_files_fails_build_witness :
    Reachable sampleConfig awaitingSources ∧
    (∀ n ∈ treeWithoutSources.fileNames, jsEndsWith n ".java" = false) ∧
    findJavaFiles sampleConfig.srcDir treeWithoutSources = [] :=
  ⟨⟨[.ensureDirDone 0 none], by decide⟩, by decide,
    (no_java_files_fails_build sampleConfig awaitingSources 0 ⟨0, .startup, .awaitFindJavaFiles⟩
      treeWithoutSources ⟨[.ensureDirDone 0 none], by decide⟩ (by decide) rfl (by decide)).1⟩

end Dev

namespace Deps

theorem get_set_self (o : JsObject) (k v : String) : (o.set k v).get k = some v := by
  unfold JsObject.set JsObject.get
  split
  · rename_i h
    induction o with
    | nil => simp at h
    | cons p ps ih =>
      by_cases hp : p.1 = k
      · simp [List.find?_cons, hp]
      · have h2 : ps.any (fun p => p.1 = k) = true := by
          simpa [List.any_cons, hp] using h
        simpa [List.find?_cons, hp] using ih h2
  · rename_i h
    have hnone : o.find? (fun p => decide (p.1 = k)) = none := by
      rw [List.find?_eq_none]
      intro p hp hk
      apply h
      rw [List.any_eq_true]
      exact ⟨p, hp, hk⟩
    simp [List.find?_append, hnone]

theorem get_map_ne (o : JsObject) {k k1 : String} (v : String) (h : k1 ≠ k) :
    JsObject.get (o.map (fun p => if p.1 = k then (k, v) else p)) k1 = o.get k1 := by
  unfold JsObject.get
  induction o with
  | nil => rfl
  | cons p ps ih =>
    by_cases hp : p.1 = k
    · have hp1 : ¬ p.1 = k1 := fun e => h (e.symm.trans hp)
      rw [List.map_cons, if_pos hp, List.find?_cons_of_neg _ (by simpa using h.symm),
        List.find?_cons_of_neg _ (by simpa using hp1)]
      exact ih
    · rw [List.map_cons, if_neg hp]
      by_cases hp1 : p.1 = k1
      · rw [List.find?_cons_of_pos _ (by simpa using hp1),
          List.find?_cons_of_pos _ (by simpa using hp1)]
      · rw [List.find?_cons_of_neg _ (by simpa using hp1),
          List.find?_cons_of_neg _ (by simpa using hp1)]
        exact ih

theorem get_set_ne (o : JsObject) {k k1 : String} (v : String) (h : k1 ≠ k) :
    (o.set k v).get k1 = o.get k1 := by
  unfold JsObject.set
  split
  · exact get_map_ne o v h
  · unfold JsObject.get
    have hnone : [(k, v)].find? (fun p => decide (p.1 = k1)) = none := by
      simp [List.find?_cons, h.symm]
    simp [List.find?_append, hnone]

theorem get_fill_self (o : JsObject) (k v : String) :
    (if (!truthy (o.get k)) = true then o.set k v else o).get k =
      some (if truthy (o.get k) = true then (o.get k).getD "" else v) := by
  cases hk : o.get k with
  | none => simp [truthy, get_set_self]
  | some c =>
    by_cases hc : c = ""
    · simp [truthy, hc, get_set_self]
    · simp [truthy, hc, hk]

theorem get_fill_ne (o : JsObject) {k k1 : String} (v : String) (h : k1 ≠ k) :
    (if (!truthy (o.get k)) = true then o.set k v else o).get k1 = o.get k1 := by
  split
  · exact get_set_ne o v h
  · rfl

/-- Claim C7, as stated, fails on the empty version string: `jackson` at version
`""` is not expanded at all, and a companion explicitly given as `""` does not
keep that version but receives the one of `jackson`. -/
theorem empty_version_breaks_expansion :
    JsObject.get [("jackson", "")] "jackson" = some "" ∧
    expandTransitive [("jackson", "")] = [("jackson", "")] ∧
    (expandTransitive [("jackson", "")]).get "jackson-core" = none ∧
    JsObject.get [("jackson", "2.17.0"), ("jackson-core", "")] "jackson-core" = some "" ∧
    (expandTransitive [("jackson", "2.17.0"), ("jackson-core", "")]).get "jackson-core" =
      some "2.17.0" := by
  decide

/-- Claim C7, amended.  When the mapping gives `jackson` a non-empty version `v`,
the expanded mapping contains `jackson` at `v` and both companions; a companion
keeps its own version when that is a non-empty string and has version `v` when
it was absent or empty; every other entry is unchanged.  A mapping without
`jackson`, or with `jackson` at the empty version, is unchanged. -/
theorem jackson_expansion (deps : JsObject) :
    (∀ v, deps.get "jackson" = some v → v ≠ "" →
      (expandTransitive deps).get "jackson" = some v ∧
      (expandTransitive deps).get "jackson-core" =
        some (if truthy (deps.get "jackson-core") then (deps.get "jackson-core").getD "" else v) ∧
      (expandTransitive deps).get "jackson-annotations" =
        some (if truthy (deps.get "jackson-annotations") then
          (deps.get "jackson-annotations").getD "" else v) ∧
      ∀ k, k ≠ "jackson-core" → k ≠ "jackson-annotations" →
        (expandTransitive deps).get k = deps.get k) ∧
    (deps.get "jackson" = none ∨ deps.get "jackson" = some "" → expandTransitive deps = deps) := by
  constructor
  · intro v hv hne
    have ht : truthy (deps.get "jackson") = true := by simp [hv, truthy, hne]
    have hca : ("jackson-annotations" : String) ≠ "jackson-core" := by decide
    have hjc : ("jackson" : String) ≠ "jackson-core" := by decide
    have hja : ("jackson" : String) ≠ "jackson-annotations" := by decide
    have hexp : expandTransitive deps =
        (if (!truthy ((if (!truthy (deps.get "jackson-core")) = true then
              deps.set "jackson-core" v else deps).get "jackson-annotations")) = true then
          (if (!truthy (deps.get "jackson-core")) = true then
              deps.set "jackson-core" v else deps).set "jackson-annotations" v
        else (if (!truthy (deps.get "jackson-core")) = true then
              deps.set "jackson-core" v else deps)) := by
      have ht1 : truthy (some v) = true := by simpa [hv] using ht
      simp only [expandTransitive, hv, ht1, if_true, Option.getD_some]
    rw [hexp]
    refine ⟨?_, ?_, ?_, ?_⟩
    · rw [get_fill_ne _ _ hja, get_fill_ne _ _ hjc, hv]
    · rw [get_fill_ne _ _ hca.symm, get_fill_self]
    · rw [get_fill_self, get_fill_ne _ _ hca]
    · intro k h1 h2
      rw [get_fill_ne _ _ h2, get_fill_ne _ _ h1]
  · intro h
    have ht : truthy (deps.get "jackson") = false := by
      rcases h with h | h <;> simp [h, truthy]
    simp [expandTransitive, ht]

/-- Instance of the amended claim C7: `{jackson: "2.17.0"}` expands to exactly
three specs, all at `2.17.0`, and an explicit `jackson-core` version is kept. -/
theorem jackson_expansion_witness :
    entries (expandTransitive [("jackson", "2.17.0")]) =
      [("jackson", "2.17.0"), ("jackson-core", "2.17.0"), ("jackson-annotations", "2.17.0")] ∧
    ((expandTransitive [("jackson", "2.17.0"), ("jackson-core", "2.16.1")]).get "jackson" =
        some "2.17.0" ∧
      (expandTransitive [("jackson", "2.17.0"), ("jackson-core", "2.16.1")]).get
          "jackson-core" = some "2.16.1" ∧
      (expandTransitive [("jackson", "2.17.0"), ("jackson-core", "2.16.1")]).get
          "jackson-annotations" = some "2.17.0" ∧
      ∀ k, k ≠ "jackson-core" → k ≠ "jackson-annotations" →
        (expandTransitive [("jackson", "2.17.0"), ("jackson-core", "2.16.1")]).get k =
          JsObject.get [("jackson", "2.17.0"), ("jackson-core", "2.16.1")] k) :=
  ⟨by decide,
    (jackson_expansion [("jackson", "2.17.0"), ("jackson-core", "2.16.1")]).1 "2.17.0"
      (by decide) (by decide)⟩

theorem download_unregistered (projectPath name version : String) (fs : FileSystem)
    (net : Network) (h : lookupDependency name = .undefined) :
    downloadDependency projectPath name version fs net =
      ⟨.rejected (.unknownDependency name), fs, []⟩ := by
  simp only [downloadDependency, h]

/-- Claim C8.  `constructor` is not a key of `DEPENDENCY_MAP`, yet the property
read `DEPENDENCY_MAP['constructor']` yields the function inherited from
`Object.prototype`, which is truthy: the guard of line 60 does not throw, and
`mavenCoords.split(':')` raises a `TypeError` whose message is not
`Unknown dependency: constructor`.  No cache lookup and no HTTP request is made.
A name that is neither a key of the table nor a property of `Object.prototype`
is rejected with `Unknown dependency: <name>`, also without any access. -/
theorem inherited_name_is_not_unknown (projectPath version : String) (fs : FileSystem)
    (net : Network) :
    (DEPENDENCY_MAP.map (fun p => p.1)).length = 11 ∧
    "constructor" ∉ DEPENDENCY_MAP.map (fun p => p.1) ∧
    downloadDependency projectPath "constructor" version fs net =
      ⟨.rejected (.typeError "mavenCoords.split is not a function"), fs, []⟩ ∧
    (DepError.typeError "mavenCoords.split is not a function").message ≠
      (DepError.unknownDependency "constructor").message ∧
    (downloadDependency projectPath "toString" version fs net).result ≠
      .rejected (.unknownDependency "toString") ∧
    (∀ name, name ∉ DEPENDENCY_MAP.map (fun p => p.1) → name ∉ objectPrototypeKeys →
      downloadDependency projectPath name version fs net =
        ⟨.rejected (.unknownDependency name), fs, []⟩ ∧
      (DepError.unknownDependency name).message = "Unknown dependency: " ++ name) := by
  refine ⟨by decide, by decide, ?_, by decide, ?_, ?_⟩
  · have h : lookupDependency "constructor" = .inherited "constructor" := by decide
    simp only [downloadDependency, h]
  · have h : lookupDependency "toString" = .inherited "toString" := by decide
    simp only [downloadDependency, h]
    decide
  · intro name h1 h2
    refine ⟨download_unregistered _ _ _ _ _ ?_, rfl⟩
    have hnone : DEPENDENCY_MAP.find? (fun p => decide (p.1 = name)) = none := by
      rw [List.find?_eq_none]
      intro p hp hk
      apply h1
      rw [List.mem_map]
      exact ⟨p, hp, by simpa using hk⟩
    simp only [lookupDependency, hnone, Option.map_none', h2, if_false]

theorem pathExists_writeFile (fs : FileSystem) (path : String) (bytes : List Nat) :
    pathExists (writeFile fs path bytes) path = true := by
  simp [pathExists, writeFile]

theorem pathExists_writeFile_mono (fs : FileSystem) (path q : String) (bytes : List Nat)
    (h : pathExists fs q = true) : pathExists (writeFile fs path bytes) q = true := by
  by_cases hq : q = path
  · rw [hq]; exact pathExists_writeFile fs path bytes
  · simp only [pathExists, writeFile, List.any_append, List.any_eq_true, Bool.or_eq_true,
      List.mem_filter] at h ⊢
    obtain ⟨f, hf, hfq⟩ := h
    left
    refine ⟨f, ⟨hf, ?_⟩, hfq⟩
    have : f.1 = q := by simpa using hfq
    simp [this, hq]

theorem download_cache_hit (projectPath name version coords : String) (fs : FileSystem)
    (net : Network) (hreg : lookupDependency name = .string coords)
    (hex : pathExists fs (jarPathOf projectPath coords version) = true) :
    downloadDependency projectPath name version fs net =
      ⟨.fulfilled (jarPathOf projectPath coords version), fs,
        [.pathExists (jarPathOf projectPath coords version)]⟩ := by
  simp only [downloadDependency, hreg, hex, if_true]

/-- Claim C9, as stated, fails: the write stream fails after two of the four bytes
of `gson-2.10.1.jar` have reached the cache file.  The download is rejected,
but the truncated file stays, and the next resolution of the same spec, here
without any network, is fulfilled with its path as a cache hit.  And when the
response stream fails instead, the promise of the download stays pending. -/
theorem truncated_file_is_cache_hit :
    lookupDependency "gson" = .string "com.google.code.gson:gson" ∧
    downloadDependency "/app" "gson" "2.10.1" []
        (sampleNetwork (.writeError (some 2) "ENOSPC")) =
      ⟨.rejected (.writeFailed "ENOSPC"), [("/app/.artha/lib/gson-2.10.1.jar", [80, 75])],
        [.pathExists "/app/.artha/lib/gson-2.10.1.jar",
         .httpGet "https://repo1.maven.org/maven2/com/google/code/gson/gson/2.10.1/gson-2.10.1.jar"
           30000,
         .createWriteStream "/app/.artha/lib/gson-2.10.1.jar"]⟩ ∧
    downloadDependency "/app" "gson" "2.10.1" [("/app/.artha/lib/gson-2.10.1.jar", [80, 75])]
        offline =
      ⟨.fulfilled "/app/.artha/lib/gson-2.10.1.jar",
        [("/app/.artha/lib/gson-2.10.1.jar", [80, 75])],
        [.pathExists "/app/.artha/lib/gson-2.10.1.jar"]⟩ ∧
    (downloadDependency "/app" "gson" "2.10.1" [] (sampleNetwork (.sourceError 2))).result =
      .pending := by
  decide

/-- Claim C9, amended.  For a registered spec whose cache file does not exist:
when the request itself fails, `downloadDependency` is rejected, the file
system is unchanged and a later resolution issues the request again; when the
write stream reports an error, `downloadDependency` is rejected, and if the
file had been created the truncated file stays at the cache path, so that every
later resolution of the spec is fulfilled with that path as a cache hit, without
a request. -/
theorem failed_fetch_outcomes (projectPath name version coords : String) (fs : FileSystem)
    (net : Network) (hreg : lookupDependency name = .string coords)
    (hmiss : pathExists fs (jarPathOf projectPath coords version) = false) :
    (∀ message, net (urlOf coords version) = .requestError message →
      downloadDependency projectPath name version fs net =
        ⟨.rejected (.requestFailed message), fs,
          [.pathExists (jarPathOf projectPath coords version),
           .httpGet (urlOf coords version) 30000]⟩ ∧
      ∀ net2, httpRequests (downloadDependency projectPath name version
          (downloadDependency projectPath name version fs net).fs net2).effects =
        [urlOf coords version]) ∧
    (∀ body message, net (urlOf coords version) = .response body (.writeError none message) →
      (downloadDependency projectPath name version fs net).result =
        .rejected (.writeFailed message) ∧
      (downloadDependency projectPath name version fs net).fs = fs) ∧
    (∀ body written message,
      net (urlOf coords version) = .response body (.writeError (some written) message) →
      (downloadDependency projectPath name version fs net).result =
        .rejected (.writeFailed message) ∧
      (downloadDependency projectPath name version fs net).fs =
        writeFile fs (jarPathOf projectPath coords version) (body.take written) ∧
      ∀ net2, downloadDependency projectPath name version
          (downloadDependency projectPath name version fs net).fs net2 =
        ⟨.fulfilled (jarPathOf projectPath coords version),
          (downloadDependency projectPath name version fs net).fs,
          [.pathExists (jarPathOf projectPath coords version)]⟩) := by
  refine ⟨?_, ?_, ?_⟩
  · intro message hnet
    have h1 : downloadDependency projectPath name version fs net =
        ⟨.rejected (.requestFailed message), fs,
          [.pathExists (jarPathOf projectPath coords version),
           .httpGet (urlOf coords version) 30000]⟩ := by
      simp [downloadDependency, hreg, hmiss, hnet]
    refine ⟨h1, ?_⟩
    intro net2
    rw [h1]
    simp only [downloadDependency, hreg, hmiss]
    cases hn : net2 (urlOf coords version) with
    | requestError m => simp [httpRequests]
    | response body ending =>
      cases ending with
      | finish => simp [httpRequests]
      | writeError w m => cases w <;> simp [httpRequests]
      | sourceError w => simp [httpRequests]
  · intro body message hnet
    simp [downloadDependency, hreg, hmiss, hnet]
  · intro body written message hnet
    have h1 : downloadDependency projectPath name version fs net =
        ⟨.rejected (.writeFailed message),
          writeFile fs (jarPathOf projectPath coords version) (body.take written),
          [.pathExists (jarPathOf projectPath coords version),
           .httpGet (urlOf coords version) 30000,
           .createWriteStream (jarPathOf projectPath coords version)]⟩ := by
      simp [downloadDependency, hreg, hmiss, hnet]
    refine ⟨by rw [h1], by rw [h1], ?_⟩
    intro net2
    rw [h1]
    exact download_cache_hit _ _ _ _ _ _ hreg (pathExists_writeFile _ _ _)

/-- Instance of the amended claim C9 for `gson@2.10.1` on an empty cache. -/
theorem failed_fetch_outcomes_witness :
    lookupDependency "gson" = .string "com.google.code.gson:gson" ∧
    pathExists [] (jarPathOf "/app" "com.google.code.gson:gson" "2.10.1") = false ∧
    (downloadDependency "/app" "gson" "2.10.1" []
        (sampleNetwork (.writeError (some 2) "ENOSPC"))).result =
      .rejected (.writeFailed "ENOSPC") ∧
    (downloadDependency "/app" "gson" "2.10.1" []
        (sampleNetwork (.writeError (some 2) "ENOSPC"))).fs =
      writeFile [] (jarPathOf "/app" "com.google.code.gson:gson" "2.10.1")
        (List.take 2 [80, 75, 3, 4]) :=
  ⟨by decide, by decide,
    ((failed_fetch_outcomes "/app" "gson" "2.10.1" "com.google.code.gson:gson" []
        (sampleNetwork (.writeError (some 2) "ENOSPC")) (by decide) (by decide)).2.2
      [80, 75, 3, 4] 2 "ENOSPC" rfl).1,
    ((failed_fetch_outcomes "/app" "gson" "2.10.1" "com.google.code.gson:gson" []
        (sampleNetwork (.writeError (some 2) "ENOSPC")) (by decide) (by decide)).2.2
      [80, 75, 3, 4] 2 "ENOSPC" rfl).2.1⟩

theorem download_fs_mono (projectPath name version : String) (fs : FileSystem)
    (net : Network) (q : String) (h : pathExists fs q = true) :
    pathExists (downloadDependency projectPath name version fs net).fs q = true := by
  unfold downloadDependency
  cases lookupDependency name with
  | undefined => exact h
  | inherited k => exact h
  | string coords =>
    simp only []
    split
    · exact h
    · cases net (urlOf coords version) with
      | requestError m => exact h
      | response body ending =>
        cases ending with
        | finish => exact pathExists_writeFile_mono _ _ _ _ h
        | writeError w m =>
          cases w with
          | none => exact h
          | some n => exact pathExists_writeFile_mono _ _ _ _ h
        | sourceError n => exact pathExists_writeFile_mono _ _ _ _ h

theorem download_fulfilled (projectPath name version : String) (fs : FileSystem)
    (net : Network) (path : String)
    (h : (downloadDependency projectPath name version fs net).result = .fulfilled path) :
    cachePath? projectPath name version = some path ∧
    pathExists (downloadDependency projectPath name version fs net).fs path = true := by
  cases hl : lookupDependency name with
  | undefined => simp [downloadDependency, hl] at h
  | inherited k => simp [downloadDependency, hl] at h
  | string coords =>
    have hc : cachePath? projectPath name version =
        some (jarPathOf projectPath coords version) := by
      simp [cachePath?, hl]
    by_cases hex : pathExists fs (jarPathOf projectPath coords version) = true
    · rw [download_cache_hit _ _ _ _ _ _ hl hex] at h ⊢
      simp only [Settled.fulfilled.injEq] at h
      subst h
      exact ⟨hc, hex⟩
    · cases hn : net (urlOf coords version) with
      | requestError m => simp [downloadDependency, hl, hex, hn] at h
      | response body ending =>
        cases ending with
        | finish =>
          simp only [downloadDependency, hl, hex, hn, Settled.fulfilled.injEq] at h ⊢
          simp only [Bool.false_eq_true, if_false, Settled.fulfilled.injEq] at h ⊢
          subst h
          exact ⟨hc, pathExists_writeFile _ _ _⟩
        | writeError w m => cases w <;> simp [downloadDependency, hl, hex, hn] at h
        | sourceError n => simp [downloadDependency, hl, hex, hn] at h

theorem download_cached (projectPath name version path : String) (fs : FileSystem)
    (net : Network) (hc : cachePath? projectPath name version = some path)
    (hex : pathExists fs path = true) :
    downloadDependency projectPath name version fs net =
      ⟨.fulfilled path, fs, [.pathExists path]⟩ := by
  unfold cachePath? at hc
  cases hl : lookupDependency name with
  | undefined => simp [hl] at hc
  | inherited k => simp [hl] at hc
  | string coords =>
    simp only [hl, Option.some.injEq] at hc
    subst hc
    exact download_cache_hit _ _ _ _ _ _ hl hex

theorem resolveAll_cons (projectPath : String) (net : Network) (name version : String)
    (rest : List (String × String)) (fs : FileSystem) :
    resolveAll projectPath net ((name, version) :: rest) fs =
      if (downloadDependency projectPath name version fs net).result = .pending then
        ([⟨name, version, (downloadDependency projectPath name version fs net).result,
            (downloadDependency projectPath name version fs net).effects⟩],
          (downloadDependency projectPath name version fs net).fs)
      else
        (⟨name, version, (downloadDependency projectPath name version fs net).result,
            (downloadDependency projectPath name version fs net).effects⟩ ::
          (resolveAll projectPath net rest
            (downloadDependency projectPath name version fs net).fs).1,
         (resolveAll projectPath net rest
            (downloadDependency projectPath name version fs net).fs).2) := by
  rw [resolveAll]
  cases h : (downloadDependency projectPath name version fs net).result <;> simp [h]

theorem resolveAll_mono (projectPath : String) (net : Network)
    (specs : List (String × String)) (fs : FileSystem) (q : String)
    (h : pathExists fs q = true) :
    pathExists (resolveAll projectPath net specs fs).2 q = true := by
  induction specs generalizing fs with
  | nil => exact h
  | cons s rest ih =>
    rcases s with ⟨name, version⟩
    rw [resolveAll_cons]
    split
    · exact download_fs_mono _ _ _ _ _ _ h
    · exact ih _ (download_fs_mono _ _ _ _ _ _ h)

theorem resolveAll_attempt (projectPath : String) (net : Network)
    (specs : List (String × String)) (fs : FileSystem) (a : Attempt)
    (h : a ∈ (resolveAll projectPath net specs fs).1) :
    (a.name, a.version) ∈ specs ∧
    ∃ fs1, (∀ q, pathExists fs q = true → pathExists fs1 q = true) ∧
      a.result = (downloadDependency projectPath a.name a.version fs1 net).result ∧
      a.effects = (downloadDependency projectPath a.name a.version fs1 net).effects ∧
      ∀ q, pathExists (downloadDependency projectPath a.name a.version fs1 net).fs q = true →
        pathExists (resolveAll projectPath net specs fs).2 q = true := by
  induction specs generalizing fs with
  | nil => simp [resolveAll] at h
  | cons s rest ih =>
    rcases s with ⟨name, version⟩
    rw [resolveAll_cons] at h ⊢
    split at h
    · rename_i hp
      simp only [List.mem_singleton] at h
      subst h
      rw [if_pos hp]
      exact ⟨List.mem_cons_self _ _, fs, fun q hq => hq, rfl, rfl, fun q hq => hq⟩
    · rename_i hp
      rw [if_neg hp]
      rcases List.mem_cons.1 h with h | h
      · subst h
        exact ⟨List.mem_cons_self _ _, fs, fun q hq => hq, rfl, rfl,
          fun q hq => resolveAll_mono _ _ _ _ _ hq⟩
      · obtain ⟨hm, fs1, h1, h2, h3, h4⟩ := ih _ h
        exact ⟨List.mem_cons_of_mem _ hm, fs1,
          fun q hq => h1 q (download_fs_mono _ _ _ _ _ _ hq), h2, h3, h4⟩

theorem resolveAll_complete (projectPath : String) (net : Network)
    (specs : List (String × String)) (fs : FileSystem)
    (h : (resolveAll projectPath net specs fs).1.any (fun a => a.result = .pending) = false) :
    (resolveAll projectPath net specs fs).1.map (fun a => (a.name, a.version)) = specs := by
  induction specs generalizing fs with
  | nil => rfl
  | cons s rest ih =>
    rcases s with ⟨name, version⟩
    rw [resolveAll_cons] at h ⊢
    split at h
    · rename_i hp
      simp [hp] at h
    · rename_i hp
      simp only [hp, if_false, List.map_cons, List.any_cons, Bool.or_eq_false_iff] at h ⊢
      rw [ih _ h.2]

theorem resolveAll_warm (projectPath : String) (net : Network)
    (specs : List (String × String)) (fs : FileSystem)
    (h : ∀ s ∈ specs, ∃ path, cachePath? projectPath s.1 s.2 = some path ∧
      pathExists fs path = true) :
    resolveAll projectPath net specs fs =
      (specs.map (fun s =>
        ⟨s.1, s.2, .fulfilled ((cachePath? projectPath s.1 s.2).getD ""),
          [.pathExists ((cachePath? projectPath s.1 s.2).getD "")]⟩), fs) := by
  induction specs with
  | nil => rfl
  | cons s rest ih =>
    rcases s with ⟨name, version⟩
    obtain ⟨path, hc, hex⟩ := h (name, version) (List.mem_cons_self _ _)
    have hd := download_cached projectPath name version path fs net hc hex
    rw [resolveAll_cons, hd]
    simp only [reduceCtorEq, if_false, List.map_cons]
    rw [ih (fun s hs => h s (List.mem_cons_of_mem _ hs))]
    simp [hc]

theorem install_cases (projectPath : String) (config : ConfigFile)
    (ensureDirError : Option String) :
    (∃ result, ∀ net fs, install projectPath config ensureDirError net fs = ⟨result, [], fs⟩) ∨
    (∃ specs, ∀ net fs, install projectPath config ensureDirError net fs =
      if (resolveAll projectPath net specs fs).1.any (fun a => a.result = .pending) = true then
        ⟨.pending, (resolveAll projectPath net specs fs).1, (resolveAll projectPath net specs fs).2⟩
      else
        ⟨.fulfilled (jarPaths (resolveAll projectPath net specs fs).1),
          (resolveAll projectPath net specs fs).1, (resolveAll projectPath net specs fs).2⟩) := by
  cases config with
  | missing => exact Or.inl ⟨_, fun _ _ => rfl⟩
  | unreadable message => exact Or.inl ⟨_, fun _ _ => rfl⟩
  | parsed field =>
    by_cases hl : (entries (expandTransitive (field.getD []))).length = 0
    · exact Or.inl ⟨.fulfilled [], fun _ _ => by simp only [install, hl, if_true]⟩
    · cases ensureDirError with
      | some message =>
        exact Or.inl ⟨.rejected (.fileSystem message), fun _ _ => by
          simp only [install, hl, if_false]⟩
      | none =>
        exact Or.inr ⟨entries (expandTransitive (field.getD [])), fun _ _ => by
          simp only [install, hl, if_false]⟩

theorem mem_jarPaths (attempts : List Attempt) (path : String) :
    path ∈ jarPaths attempts ↔ ∃ a ∈ attempts, a.result = .fulfilled path := by
  simp only [jarPaths, List.mem_filterMap]
  constructor
  · rintro ⟨a, ha, h⟩
    refine ⟨a, ha, ?_⟩
    cases hr : a.result <;> simp [hr] at h
    rw [h]
  · rintro ⟨a, ha, h⟩
    exact ⟨a, ha, by simp [h]⟩

theorem jarPaths_warm (projectPath : String) (specs : List (String × String)) :
    jarPaths (specs.map (fun s =>
        (⟨s.1, s.2, .fulfilled ((cachePath? projectPath s.1 s.2).getD ""),
          [.pathExists ((cachePath? projectPath s.1 s.2).getD "")]⟩ : Attempt))) =
      specs.map (fun s => (cachePath? projectPath s.1 s.2).getD "") := by
  induction specs with
  | nil => rfl
  | cons s rest ih =>
    simp only [jarPaths, List.map_cons, List.filterMap_cons] at ih ⊢
    rw [ih]

theorem jarPaths_all_fulfilled (projectPath : String) (attempts : List Attempt)
    (h : ∀ a ∈ attempts, ∃ path, a.result = .fulfilled path ∧
      cachePath? projectPath a.name a.version = some path) :
    jarPaths attempts =
      (attempts.map (fun a => (a.name, a.version))).map
        (fun s => (cachePath? projectPath s.1 s.2).getD "") := by
  induction attempts with
  | nil => rfl
  | cons a rest ih =>
    obtain ⟨path, hr, hc⟩ := h a (List.mem_cons_self _ _)
    have ih2 := ih (fun b hb => h b (List.mem_cons_of_mem _ hb))
    simp only [jarPaths, List.map_cons, List.filterMap_cons, hr, hc, Option.getD_some] at ih2 ⊢
    rw [ih2]

theorem any_pending_warm (projectPath : String) (specs : List (String × String)) :
    (specs.map (fun s =>
        (⟨s.1, s.2, .fulfilled ((cachePath? projectPath s.1 s.2).getD ""),
          [.pathExists ((cachePath? projectPath s.1 s.2).getD "")]⟩ : Attempt))).any
      (fun a => a.result = .pending) = false := by
  induction specs with
  | nil => rfl
  | cons s rest ih =>
    simp only [List.map_cons, List.any_cons, ih, Bool.or_false]
    simp

/-- Cache hits after a first run.  `r1` is a run of `install`, `r2` a second run
on the file system the first one left, under any network.  Every spec that the
first run resolved to a path is a cache hit from then on: on the resulting file
system, and on every one with at least its files, `downloadDependency` is
fulfilled with the same path after the single test of the cache path, and an
attempt the second run makes on that spec is fulfilled with the same path
without an HTTP request.  When both runs return, every path of the first is
returned by the second.  When every spec succeeded in the first run, the second
run returns the same list of paths, issues no HTTP request and leaves the file
system as it is; this is the case in particular when every cache file exists
beforehand, and then the first run issues no request either and both runs
coincide. -/
theorem cache_hits_after_first_run (projectPath : String) (config : ConfigFile)
    (ensureDirError : Option String) (net1 net2 : Network) (fs : FileSystem)
    (r1 r2 : InstallRun)
    (h1 : r1 = install projectPath config ensureDirError net1 fs)
    (h2 : r2 = install projectPath config ensureDirError net2 r1.fs) :
    (∀ a ∈ r1.attempts, ∀ path, a.result = .fulfilled path →
      (∀ fs2, (∀ q, pathExists r1.fs q = true → pathExists fs2 q = true) →
        downloadDependency projectPath a.name a.version fs2 net2 =
          ⟨.fulfilled path, fs2, [.pathExists path]⟩) ∧
      (∀ a2 ∈ r2.attempts, a2.name = a.name → a2.version = a.version →
        a2.result = .fulfilled path ∧ httpRequests a2.effects = [])) ∧
    (∀ paths1 paths2, r1.result = .fulfilled paths1 → r2.result = .fulfilled paths2 →
      ∀ path ∈ paths1, path ∈ paths2) ∧
    (∀ paths1, r1.result = .fulfilled paths1 →
      (∀ a ∈ r1.attempts, ∃ path, a.result = .fulfilled path) →
      r2.result = .fulfilled paths1 ∧ r2.fs = r1.fs ∧
      ∀ a2 ∈ r2.attempts, httpRequests a2.effects = []) ∧
    (∀ field, config = .parsed field → ensureDirError = none →
      (∀ s ∈ entries (expandTransitive (field.getD [])), ∃ path,
        cachePath? projectPath s.1 s.2 = some path ∧ pathExists fs path = true) →
      r2 = r1 ∧ r1.fs = fs ∧
      r1.result = .fulfilled ((entries (expandTransitive (field.getD []))).map
        (fun s => (cachePath? projectPath s.1 s.2).getD "")) ∧
      ∀ a ∈ r1.attempts, httpRequests a.effects = []) := by
  subst h1
  subst h2
  have part4 : ∀ field, config = .parsed field → ensureDirError = none →
      (∀ s ∈ entries (expandTransitive (field.getD [])), ∃ path,
        cachePath? projectPath s.1 s.2 = some path ∧ pathExists fs path = true) →
      install projectPath config ensureDirError net2
          (install projectPath config ensureDirError net1 fs).fs =
        install projectPath config ensureDirError net1 fs ∧
      (install projectPath config ensureDirError net1 fs).fs = fs ∧
      (install projectPath config ensureDirError net1 fs).result =
        .fulfilled ((entries (expandTransitive (field.getD []))).map
          (fun s => (cachePath? projectPath s.1 s.2).getD "")) ∧
      ∀ a ∈ (install projectPath config ensureDirError net1 fs).attempts,
        httpRequests a.effects = [] := by
    intro field hc he hw
    subst hc
    subst he
    by_cases hl : (entries (expandTransitive (field.getD []))).length = 0
    · have hnil : entries (expandTransitive (field.getD [])) = [] := List.length_eq_zero.1 hl
      have hi : ∀ net fs0, install projectPath (.parsed field) none net fs0 =
          ⟨.fulfilled [], [], fs0⟩ := fun _ _ => by simp only [install, hl, if_true]
      rw [hi net1 fs, hi net2 fs, hnil]
      exact ⟨rfl, rfl, rfl, fun a ha => by cases ha⟩
    · have hi : ∀ net, install projectPath (.parsed field) none net fs =
          ⟨.fulfilled ((entries (expandTransitive (field.getD []))).map
              (fun s => (cachePath? projectPath s.1 s.2).getD "")),
            (entries (expandTransitive (field.getD []))).map (fun s =>
              ⟨s.1, s.2, .fulfilled ((cachePath? projectPath s.1 s.2).getD ""),
                [.pathExists ((cachePath? projectPath s.1 s.2).getD "")]⟩), fs⟩ := by
        intro net
        simp only [install, hl, if_false, resolveAll_warm projectPath net _ fs hw,
          any_pending_warm, jarPaths_warm, Bool.false_eq_true]
      have e2 := hi net2
      rw [hi net1]
      refine ⟨e2, rfl, rfl, ?_⟩
      intro a ha
      obtain ⟨s, -, rfl⟩ := List.mem_map.1 ha
      rfl
  rcases install_cases projectPath config ensureDirError with ⟨result, hA⟩ | ⟨specs, hB⟩
  · have E1 : install projectPath config ensureDirError net1 fs = ⟨result, [], fs⟩ := hA _ _
    have E2 : install projectPath config ensureDirError net2
        (install projectPath config ensureDirError net1 fs).fs = ⟨result, [], fs⟩ := by
      rw [E1]
      exact hA _ _
    refine ⟨?_, ?_, ?_, part4⟩
    · intro a ha
      rw [E1] at ha
      cases ha
    · intro paths1 paths2 e1 e2 path hp
      rw [E2] at e2
      rw [E1] at e1
      have e3 : Settled.fulfilled paths1 = Settled.fulfilled paths2 := e1.symm.trans e2
      cases e3
      exact hp
    · intro paths1 e1 _
      rw [E2]
      rw [E1] at e1 ⊢
      exact ⟨e1, rfl, fun a ha => by cases ha⟩
  · have hat : ∀ net fs0, (install projectPath config ensureDirError net fs0).attempts =
        (resolveAll projectPath net specs fs0).1 := by
      intro net fs0
      rw [hB]
      split <;> rfl
    have hfs : ∀ net fs0, (install projectPath config ensureDirError net fs0).fs =
        (resolveAll projectPath net specs fs0).2 := by
      intro net fs0
      rw [hB]
      split <;> rfl
    have hres : ∀ net fs0 paths,
        (install projectPath config ensureDirError net fs0).result = .fulfilled paths →
        (resolveAll projectPath net specs fs0).1.any (fun a => a.result = .pending) = false ∧
        paths = jarPaths (resolveAll projectPath net specs fs0).1 := by
      intro net fs0 paths h
      rw [hB] at h
      split at h
      · simp at h
      · rename_i hp
        simp only [Settled.fulfilled.injEq] at h
        exact ⟨by simpa using hp, h.symm⟩
    have key : ∀ a ∈ (resolveAll projectPath net1 specs fs).1, ∀ path,
        a.result = .fulfilled path →
        (a.name, a.version) ∈ specs ∧ cachePath? projectPath a.name a.version = some path ∧
        pathExists (resolveAll projectPath net1 specs fs).2 path = true := by
      intro a ha path hr
      obtain ⟨hm, fs1, -, e1, -, e3⟩ := resolveAll_attempt _ _ _ _ _ ha
      rw [e1] at hr
      obtain ⟨hc, hex⟩ := download_fulfilled _ _ _ _ _ _ hr
      exact ⟨hm, hc, e3 _ hex⟩
    have hit : ∀ a ∈ (resolveAll projectPath net1 specs fs).1, ∀ path,
        a.result = .fulfilled path →
        ∀ a2 ∈ (resolveAll projectPath net2 specs (resolveAll projectPath net1 specs fs).2).1,
        a2.name = a.name → a2.version = a.version →
        a2.result = .fulfilled path ∧ httpRequests a2.effects = [] := by
      intro a ha path hr a2 ha2 hn hv
      obtain ⟨-, hc, hex⟩ := key a ha path hr
      obtain ⟨-, fs1, m1, e1, e2, -⟩ := resolveAll_attempt _ _ _ _ _ ha2
      rw [hn, hv] at e1 e2
      rw [download_cached _ _ _ _ _ _ hc (m1 _ hex)] at e1 e2
      exact ⟨e1, by rw [e2]; rfl⟩
    refine ⟨?_, ?_, ?_, part4⟩
    · intro a ha path hr
      rw [hat] at ha
      obtain ⟨-, hc, hex⟩ := key a ha path hr
      refine ⟨?_, ?_⟩
      · intro fs2 hsub
        rw [hfs] at hsub
        exact download_cached _ _ _ _ _ _ hc (hsub _ hex)
      · intro a2 ha2 hn hv
        rw [hat, hfs] at ha2
        exact hit a ha path hr a2 ha2 hn hv
    · intro paths1 paths2 e1 e2 path hp
      obtain ⟨-, rfl⟩ := hres _ _ _ e1
      obtain ⟨hnp, rfl⟩ := hres _ _ _ e2
      rw [hfs] at hnp ⊢
      obtain ⟨a, ha, hr⟩ := (mem_jarPaths _ _).1 hp
      obtain ⟨hm, -, -⟩ := key a ha path hr
      rw [← resolveAll_complete _ _ _ _ hnp] at hm
      obtain ⟨a2, ha2, hk⟩ := List.mem_map.1 hm
      simp only [Prod.mk.injEq] at hk
      exact (mem_jarPaths _ _).2 ⟨a2, ha2, (hit a ha path hr a2 ha2 hk.1 hk.2).1⟩
    · intro paths1 e1 hall
      obtain ⟨hnp, rfl⟩ := hres _ _ _ e1
      rw [hat] at hall
      have hcomp := resolveAll_complete _ _ _ _ hnp
      have hall2 : ∀ a ∈ (resolveAll projectPath net1 specs fs).1, ∃ path,
          a.result = .fulfilled path ∧ cachePath? projectPath a.name a.version = some path := by
        intro a ha
        obtain ⟨path, hr⟩ := hall a ha
        exact ⟨path, hr, (key a ha path hr).2.1⟩
      have hwarm : ∀ s ∈ specs, ∃ path, cachePath? projectPath s.1 s.2 = some path ∧
          pathExists (resolveAll projectPath net1 specs fs).2 path = true := by
        intro s hs
        rw [← hcomp] at hs
        obtain ⟨a, ha, rfl⟩ := List.mem_map.1 hs
        obtain ⟨path, hr⟩ := hall a ha
        exact ⟨path, (key a ha path hr).2.1, (key a ha path hr).2.2⟩
      have hpaths : jarPaths (resolveAll projectPath net1 specs fs).1 =
          specs.map (fun s => (cachePath? projectPath s.1 s.2).getD "") := by
        rw [jarPaths_all_fulfilled projectPath _ hall2, hcomp]
      have hrun2 : install projectPath config ensureDirError net2
          (install projectPath config ensureDirError net1 fs).fs =
          ⟨.fulfilled (specs.map (fun s => (cachePath? projectPath s.1 s.2).getD "")),
            specs.map (fun s =>
              ⟨s.1, s.2, .fulfilled ((cachePath? projectPath s.1 s.2).getD ""),
                [.pathExists ((cachePath? projectPath s.1 s.2).getD "")]⟩),
            (resolveAll projectPath net1 specs fs).2⟩ := by
        rw [hfs, hB net2]
        simp only [resolveAll_warm projectPath net2 specs _ hwarm, any_pending_warm,
          jarPaths_warm, Bool.false_eq_true, if_false]
      rw [hrun2, hpaths, hfs]
      refine ⟨rfl, rfl, ?_⟩
      intro a2 ha2
      obtain ⟨s, -, rfl⟩ := List.mem_map.1 ha2
      rfl

/-- The first run fetches `lombok` and fails on `gson`; a second run without
any network returns the path of `lombok` again. -/
theorem cache_hits_offline :
    firstRun.result = .fulfilled ["/app/.artha/lib/lombok-1.18.30.jar"] ∧
    secondRun.result = .fulfilled ["/app/.artha/lib/lombok-1.18.30.jar"] ∧
    (∀ paths1 paths2, firstRun.result = .fulfilled paths1 →
      secondRun.result = .fulfilled paths2 → ∀ path ∈ paths1, path ∈ paths2) :=
  ⟨by decide, by decide,
    (cache_hits_after_first_run "/app" sampleConfigFile none lombokOnly offline [] firstRun
      secondRun rfl rfl).2.1⟩

/-- Claim C10 fails on the code.  The first run of the sample project gets 404 for
`gson`, fetches `lombok` and returns its path, and the file of `lombok` is in
the cache.  In a later run on those files the request for `gson` is answered
and the response breaks off after two bytes: the write stream emits neither
'finish' nor 'error' (line 80 handles the write stream only), the promise of
`downloadDependency` stays pending, and so does `install`.  `lombok`, which
succeeded in the first run, is not attempted and no path is returned for it. -/
theorem second_run_never_returns :
    firstRun.attempts.map (fun a => (a.name, a.version, a.result)) =
      [("gson", "2.10.1", .rejected (.requestFailed "Request failed with status code 404")),
       ("lombok", "1.18.30", .fulfilled "/app/.artha/lib/lombok-1.18.30.jar")] ∧
    firstRun.result = .fulfilled ["/app/.artha/lib/lombok-1.18.30.jar"] ∧
    pathExists firstRun.fs "/app/.artha/lib/lombok-1.18.30.jar" = true ∧
    interruptedRun.attempts.map (fun a => (a.name, a.version, a.result)) =
      [("gson", "2.10.1", .pending)] ∧
    interruptedRun.result = .pending ∧
    (∀ paths, interruptedRun.result ≠ .fulfilled paths) := by
  refine ⟨by decide, by decide, by decide, by decide, by decide, ?_⟩
  intro paths h
  rw [show interruptedRun.result = .pending from by decide] at h
  cases h

theorem download_settles (projectPath name version : String) (fs : FileSystem)
    (net : Network) (h : NoBrokenTransfer net) :
    (downloadDependency projectPath name version fs net).result ≠ .pending := by
  cases hl : lookupDependency name with
  | undefined => simp [downloadDependency, hl]
  | inherited k => simp [downloadDependency, hl]
  | string coords =>
    by_cases hex : pathExists fs (jarPathOf projectPath coords version) = true
    · simp [downloadDependency, hl, hex]
    · cases hn : net (urlOf coords version) with
      | requestError m => simp [downloadDependency, hl, hex, hn]
      | response body ending =>
        cases ending with
        | finish => simp [downloadDependency, hl, hex, hn]
        | writeError w m => cases w <;> simp [downloadDependency, hl, hex, hn]
        | sourceError n => exact (h _ _ _ hn).elim

theorem resolveAll_settles (projectPath : String) (net : Network)
    (specs : List (String × String)) (fs : FileSystem) (h : NoBrokenTransfer net) :
    (resolveAll projectPath net specs fs).1.any (fun a => a.result = .pending) = false := by
  induction specs generalizing fs with
  | nil => rfl
  | cons s rest ih =>
    rcases s with ⟨name, version⟩
    have hd := download_settles projectPath name version fs net h
    rw [resolveAll_cons, if_neg hd]
    simp only [List.any_cons, ih, Bool.or_false]
    simpa using hd

theorem lombokOnly_noBrokenTransfer : NoBrokenTransfer lombokOnly := by
  intro url body written h
  unfold lombokOnly at h
  split at h <;> simp at h

theorem allNotFound_noBrokenTransfer : NoBrokenTransfer allNotFound := by
  intro url body written h
  simp [allNotFound] at h

theorem any_filter_ne (fs : FileSystem) (p q : String) (h : ¬ p = q) :
    (fs.filter (fun f => f.1 ≠ p)).any (fun f => f.1 = q) = fs.any (fun f => f.1 = q) := by
  induction fs with
  | nil => rfl
  | cons f rest ih =>
    by_cases hf : f.1 = p
    · have hq : ¬ f.1 = q := fun e => h (hf.symm.trans e)
      rw [List.filter_cons_of_neg (by simpa using hf), ih, List.any_cons]
      simp [hq]
    · rw [List.filter_cons_of_pos (by simpa using hf), List.any_cons, List.any_cons, ih]

theorem pathExists_writeFile_eq (fs : FileSystem) (p : String) (bytes : List Nat)
    (q : String) :
    pathExists (writeFile fs p bytes) q = (decide (p = q) || pathExists fs q) := by
  by_cases h : p = q
  · subst h
    simp [pathExists_writeFile]
  · unfold pathExists writeFile
    rw [List.any_append, any_filter_ne fs p q h]
    simp [h]

theorem download_fs_other (projectPath name version : String) (fs : FileSystem)
    (net : Network) (q : String)
    (h : ∀ p, cachePath? projectPath name version = some p → p ≠ q) :
    pathExists (downloadDependency projectPath name version fs net).fs q = pathExists fs q := by
  cases hl : lookupDependency name with
  | undefined => simp only [downloadDependency, hl]
  | inherited k => simp only [downloadDependency, hl]
  | string coords =>
    have hq : jarPathOf projectPath coords version ≠ q :=
      h _ (by simp only [cachePath?, hl])
    have hw : ∀ bytes, pathExists (writeFile fs (jarPathOf projectPath coords version) bytes) q =
        pathExists fs q := by
      intro bytes
      rw [pathExists_writeFile_eq]
      simp [hq]
    simp only [downloadDependency, hl]
    split
    · rfl
    · cases net (urlOf coords version) with
      | requestError m => rfl
      | response body ending =>
        cases ending with
        | finish => exact hw _
        | writeError w m =>
          cases w with
          | none => rfl
          | some n => exact hw _
        | sourceError n => exact hw _

theorem download_congr (projectPath name version : String) (fs fs1 : FileSystem)
    (net net1 : Network)
    (hnet : ∀ coords, lookupDependency name = .string coords →
      net1 (urlOf coords version) = net (urlOf coords version))
    (hfs : ∀ p, cachePath? projectPath name version = some p →
      pathExists fs1 p = pathExists fs p) :
    (downloadDependency projectPath name version fs1 net1).result =
      (downloadDependency projectPath name version fs net).result ∧
    (downloadDependency projectPath name version fs1 net1).effects =
      (downloadDependency projectPath name version fs net).effects ∧
    ∀ q, pathExists fs1 q = pathExists fs q →
      pathExists (downloadDependency projectPath name version fs1 net1).fs q =
        pathExists (downloadDependency projectPath name version fs net).fs q := by
  cases hl : lookupDependency name with
  | undefined =>
    have e : ∀ f n, downloadDependency projectPath name version f n =
        ⟨.rejected (.unknownDependency name), f, []⟩ :=
      fun f n => by simp only [downloadDependency, hl]
    rw [e, e]
    exact ⟨rfl, rfl, fun q hq => hq⟩
  | inherited k =>
    have e : ∀ f n, downloadDependency projectPath name version f n =
        ⟨.rejected (.typeError "mavenCoords.split is not a function"), f, []⟩ :=
      fun f n => by simp only [downloadDependency, hl]
    rw [e, e]
    exact ⟨rfl, rfl, fun q hq => hq⟩
  | string coords =>
    have e1 := hnet coords hl
    have e2 := hfs (jarPathOf projectPath coords version) (by simp only [cachePath?, hl])
    have hw : ∀ bytes q, pathExists fs1 q = pathExists fs q →
        pathExists (writeFile fs1 (jarPathOf projectPath coords version) bytes) q =
          pathExists (writeFile fs (jarPathOf projectPath coords version) bytes) q := by
      intro bytes q hq
      rw [pathExists_writeFile_eq, pathExists_writeFile_eq, hq]
    by_cases hex : pathExists fs (jarPathOf projectPath coords version) = true
    · rw [download_cache_hit _ _ _ _ _ _ hl hex,
        download_cache_hit _ _ _ _ _ _ hl (e2.trans hex)]
      exact ⟨rfl, rfl, fun q hq => hq⟩
    · have hex1 : ¬ pathExists fs1 (jarPathOf projectPath coords version) = true := by
        rw [e2]
        exact hex
      cases hn : net (urlOf coords version) with
      | requestError m =>
        have d : ∀ f n, ¬ pathExists f (jarPathOf projectPath coords version) = true →
            n (urlOf coords version) = .requestError m →
            downloadDependency projectPath name version f n =
              ⟨.rejected (.requestFailed m), f,
                [.pathExists (jarPathOf projectPath coords version),
                  .httpGet (urlOf coords version) 30000]⟩ :=
          fun f n hf hn0 => by simp only [downloadDependency, hl, hf, hn0, Bool.false_eq_true, if_false]
        rw [d fs net hex hn, d fs1 net1 hex1 (e1.trans hn)]
        exact ⟨rfl, rfl, fun q hq => hq⟩
      | response body ending =>
        have hn1 := e1.trans hn
        cases ending with
        | finish =>
          have d : ∀ f n, ¬ pathExists f (jarPathOf projectPath coords version) = true →
              n (urlOf coords version) = .response body .finish →
              downloadDependency projectPath name version f n =
                ⟨.fulfilled (jarPathOf projectPath coords version),
                  writeFile f (jarPathOf projectPath coords version) body,
                  [.pathExists (jarPathOf projectPath coords version),
                    .httpGet (urlOf coords version) 30000,
                    .createWriteStream (jarPathOf projectPath coords version)]⟩ :=
            fun f n hf hn0 => by simp only [downloadDependency, hl, hf, hn0, Bool.false_eq_true, if_false]
          rw [d fs net hex hn, d fs1 net1 hex1 hn1]
          exact ⟨rfl, rfl, hw _⟩
        | writeError w m =>
          cases w with
          | none =>
            have d : ∀ f n, ¬ pathExists f (jarPathOf projectPath coords version) = true →
                n (urlOf coords version) = .response body (.writeError none m) →
                downloadDependency projectPath name version f n =
                  ⟨.rejected (.writeFailed m), f,
                    [.pathExists (jarPathOf projectPath coords version),
                      .httpGet (urlOf coords version) 30000,
                      .createWriteStream (jarPathOf projectPath coords version)]⟩ :=
              fun f n hf hn0 => by simp only [downloadDependency, hl, hf, hn0, Bool.false_eq_true, if_false]
            rw [d fs net hex hn, d fs1 net1 hex1 hn1]
            exact ⟨rfl, rfl, fun q hq => hq⟩
          | some k =>
            have d : ∀ f n, ¬ pathExists f (jarPathOf projectPath coords version) = true →
                n (urlOf coords version) = .response body (.writeError (some k) m) →
                downloadDependency projectPath name version f n =
                  ⟨.rejected (.writeFailed m),
                    writeFile f (jarPathOf projectPath coords version) (body.take k),
                    [.pathExists (jarPathOf projectPath coords version),
                      .httpGet (urlOf coords version) 30000,
                      .createWriteStream (jarPathOf projectPath coords version)]⟩ :=
              fun f n hf hn0 => by simp only [downloadDependency, hl, hf, hn0, Bool.false_eq_true, if_false]
            rw [d fs net hex hn, d fs1 net1 hex1 hn1]
            exact ⟨rfl, rfl, hw _⟩
        | sourceError k =>
          have d : ∀ f n, ¬ pathExists f (jarPathOf projectPath coords version) = true →
              n (urlOf coords version) = .response body (.sourceError k) →
              downloadDependency projectPath name version f n =
                ⟨.pending, writeFile f (jarPathOf projectPath coords version) (body.take k),
                  [.pathExists (jarPathOf projectPath coords version),
                    .httpGet (urlOf coords version) 30000,
                    .createWriteStream (jarPathOf projectPath coords version)]⟩ :=
            fun f n hf hn0 => by simp only [downloadDependency, hl, hf, hn0, Bool.false_eq_true, if_false]
          rw [d fs net hex hn, d fs1 net1 hex1 hn1]
          exact ⟨rfl, rfl, hw _⟩

theorem resolveAll_other_specs (projectPath : String) (net net1 : Network)
    (changed : String × String) (specs : List (String × String))
    (hnet : ∀ s ∈ specs, s ≠ changed → ∀ coords, lookupDependency s.1 = .string coords →
      net1 (urlOf coords s.2) = net (urlOf coords s.2))
    (hpath : ∀ s ∈ specs, s ≠ changed → ∀ p, cachePath? projectPath s.1 s.2 = some p →
      cachePath? projectPath changed.1 changed.2 ≠ some p)
    (fs fs1 : FileSystem)
    (hfs : ∀ q, cachePath? projectPath changed.1 changed.2 ≠ some q →
      pathExists fs1 q = pathExists fs q)
    (i : Nat) (a a1 : Attempt)
    (ha : (resolveAll projectPath net specs fs).1[i]? = some a)
    (ha1 : (resolveAll projectPath net1 specs fs1).1[i]? = some a1)
    (hne : (a.name, a.version) ≠ changed) : a1 = a := by
  induction specs generalizing fs fs1 i with
  | nil => simp [resolveAll] at ha
  | cons s rest ih =>
    rcases s with ⟨name, version⟩
    have hnext : ∀ q, cachePath? projectPath changed.1 changed.2 ≠ some q →
        pathExists (downloadDependency projectPath name version fs1 net1).fs q =
          pathExists (downloadDependency projectPath name version fs net).fs q := by
      intro q hq
      by_cases hs : (name, version) = changed
      · have hown : ∀ p, cachePath? projectPath name version = some p → p ≠ q := by
          intro p hp e
          apply hq
          rw [← hs, ← e]
          exact hp
        rw [download_fs_other _ _ _ _ _ _ hown, download_fs_other _ _ _ _ _ _ hown]
        exact hfs q hq
      · exact (download_congr projectPath name version fs fs1 net net1
          (hnet _ (List.mem_cons_self _ _) hs)
          (fun p hp => hfs p (hpath _ (List.mem_cons_self _ _) hs p hp))).2.2 q (hfs q hq)
    rw [resolveAll_cons] at ha ha1
    cases i with
    | zero =>
      have e : a = ⟨name, version, (downloadDependency projectPath name version fs net).result,
          (downloadDependency projectPath name version fs net).effects⟩ := by
        split at ha <;> simpa using ha.symm
      have e1 : a1 = ⟨name, version,
          (downloadDependency projectPath name version fs1 net1).result,
          (downloadDependency projectPath name version fs1 net1).effects⟩ := by
        split at ha1 <;> simpa using ha1.symm
      have hs : (name, version) ≠ changed := by
        rw [e] at hne
        exact hne
      obtain ⟨r1, r2, -⟩ := download_congr projectPath name version fs fs1 net net1
        (hnet _ (List.mem_cons_self _ _) hs)
        (fun p hp => hfs p (hpath _ (List.mem_cons_self _ _) hs p hp))
      rw [e, e1, r1, r2]
    | succ j =>
      split at ha
      · simp at ha
      · split at ha1
        · simp at ha1
        · simp only [List.getElem?_cons_succ] at ha ha1
          exact ih (fun s hs => hnet s (List.mem_cons_of_mem _ hs))
            (fun s hs => hpath s (List.mem_cons_of_mem _ hs)) _ _ hnext j ha ha1

/-- Claim C11 fails as stated.  The specs `gson` at `/../lombok-1` and `lombok` at
`1` have the same cache path, `/app/.artha/lib/lombok-1.jar`.  On a network
that answers the request for `gson` and answers 404 otherwise, `gson` is
fetched and `lombok` is then fulfilled from the file that `gson` left; on one
that differs only in answering 404 to the request for `gson` too, `lombok`
fails: the failure of `gson` changes whether `lombok` is resolved.  And where a
response breaks off after it has started, `install` stays pending at that spec
and never attempts the next one. -/
theorem shared_cache_path_couples_specs :
    entries (expandTransitive [("gson", "/../lombok-1"), ("lombok", "1")]) =
      [("gson", "/../lombok-1"), ("lombok", "1")] ∧
    cachePath? "/app" "gson" "/../lombok-1" = some "/app/.artha/lib/lombok-1.jar" ∧
    cachePath? "/app" "lombok" "1" = some "/app/.artha/lib/lombok-1.jar" ∧
    (∀ url, url ≠ urlOf "com.google.code.gson:gson" "/../lombok-1" →
      gsonOnly url = allNotFound url) ∧
    (install "/app" sharedPathConfigFile none gsonOnly []).attempts.map
        (fun a => (a.name, a.version, a.result)) =
      [("gson", "/../lombok-1", .fulfilled "/app/.artha/lib/lombok-1.jar"),
       ("lombok", "1", .fulfilled "/app/.artha/lib/lombok-1.jar")] ∧
    (install "/app" sharedPathConfigFile none allNotFound []).attempts.map
        (fun a => (a.name, a.version, a.result)) =
      [("gson", "/../lombok-1",
          .rejected (.requestFailed "Request failed with status code 404")),
       ("lombok", "1", .rejected (.requestFailed "Request failed with status code 404"))] ∧
    (install "/app" mixedConfigFile none (sampleNetwork (.sourceError 2)) []).attempts.map
        (fun a => (a.name, a.version, a.result)) =
      [("left-pad", "1.3.0", .rejected (.unknownDependency "left-pad")),
       ("gson", "2.10.1", .pending)] ∧
    (install "/app" mixedConfigFile none (sampleNetwork (.sourceError 2)) []).result =
      .pending := by
  refine ⟨by decide, by decide, by decide, ?_, by decide, by decide, by decide, by decide⟩
  intro url h
  simp only [gsonOnly, allNotFound, h, if_false]

/-- Claim C11, amended.  For a non-empty expanded mapping, on a network that never
breaks off a response it has started, `install` makes one attempt per spec, in
the order of `Object.entries`, each ending fulfilled with a path or rejected;
it is not rejected itself, and it returns exactly the paths of the fulfilled
attempts, in that order.  Let one spec, `changed`, fare differently: the
network answers its request in another way, or its cache file is there or not.
If no other spec has the cache path of `changed`, then the attempt on every
other spec is the same in both runs, with the same result, path and
accesses. -/
theorem install_per_spec_independent (projectPath : String) (field : Option JsObject)
    (net : Network) (fs : FileSystem)
    (hne : entries (expandTransitive (field.getD [])) ≠ [])
    (hnet : NoBrokenTransfer net) :
    (install projectPath (.parsed field) none net fs).attempts.map
        (fun a => (a.name, a.version)) =
      entries (expandTransitive (field.getD [])) ∧
    (∀ a ∈ (install projectPath (.parsed field) none net fs).attempts,
      (∃ path, a.result = .fulfilled path) ∨ (∃ e, a.result = .rejected e)) ∧
    (install projectPath (.parsed field) none net fs).result =
      .fulfilled (jarPaths (install projectPath (.parsed field) none net fs).attempts) ∧
    (∀ (net1 : Network) (fs1 : FileSystem) (changed : String × String),
      NoBrokenTransfer net1 →
      (∀ s ∈ entries (expandTransitive (field.getD [])), s ≠ changed →
        ∀ coords, lookupDependency s.1 = .string coords →
          net1 (urlOf coords s.2) = net (urlOf coords s.2)) →
      (∀ q, cachePath? projectPath changed.1 changed.2 ≠ some q →
        pathExists fs1 q = pathExists fs q) →
      (∀ s ∈ entries (expandTransitive (field.getD [])), s ≠ changed →
        ∀ p, cachePath? projectPath s.1 s.2 = some p →
          cachePath? projectPath changed.1 changed.2 ≠ some p) →
      ∀ (i : Nat) (s : String × String),
        (entries (expandTransitive (field.getD [])))[i]? = some s → s ≠ changed →
        ∃ a, (install projectPath (.parsed field) none net fs).attempts[i]? = some a ∧
          (install projectPath (.parsed field) none net1 fs1).attempts[i]? = some a ∧
          a.name = s.1 ∧ a.version = s.2) := by
  have hl : ¬ (entries (expandTransitive (field.getD []))).length = 0 :=
    fun h => hne (List.length_eq_zero.1 h)
  have hi : ∀ (n : Network) (f : FileSystem), NoBrokenTransfer n →
      install projectPath (.parsed field) none n f =
        ⟨.fulfilled (jarPaths
            (resolveAll projectPath n (entries (expandTransitive (field.getD []))) f).1),
          (resolveAll projectPath n (entries (expandTransitive (field.getD []))) f).1,
          (resolveAll projectPath n (entries (expandTransitive (field.getD []))) f).2⟩ := by
    intro n f hn
    have hs := resolveAll_settles projectPath n (entries (expandTransitive (field.getD []))) f hn
    simp only [install, hl, if_false, hs, Bool.false_eq_true]
  have hs := resolveAll_settles projectPath net (entries (expandTransitive (field.getD []))) fs
    hnet
  rw [hi net fs hnet]
  refine ⟨resolveAll_complete _ _ _ _ hs, ?_, rfl, ?_⟩
  · intro a ha
    have hp : a.result ≠ .pending := by
      intro hp
      have : (resolveAll projectPath net (entries (expandTransitive (field.getD []))) fs).1.any
          (fun a => a.result = .pending) = true := by
        rw [List.any_eq_true]
        exact ⟨a, ha, by simpa using hp⟩
      rw [hs] at this
      cases this
    cases hr : a.result with
    | fulfilled path => exact Or.inl ⟨path, rfl⟩
    | rejected e => exact Or.inr ⟨e, rfl⟩
    | pending => exact (hp hr).elim
  · intro net1 fs1 changed hnet1 hagree hfs hpath i s hi0 hsc
    rw [hi net1 fs1 hnet1]
    have hs1 := resolveAll_settles projectPath net1
      (entries (expandTransitive (field.getD []))) fs1 hnet1
    have c := congrArg (fun l => l[i]?) (resolveAll_complete _ _ _ _ hs)
    have c1 := congrArg (fun l => l[i]?) (resolveAll_complete _ _ _ _ hs1)
    simp only [List.getElem?_map, hi0] at c c1
    cases ha : (resolveAll projectPath net (entries (expandTransitive (field.getD []))) fs).1[i]?
      with
    | none => simp [ha] at c
    | some a =>
      cases ha1 :
          (resolveAll projectPath net1 (entries (expandTransitive (field.getD []))) fs1).1[i]? with
      | none => simp [ha1] at c1
      | some a1 =>
        simp only [ha, Option.map_some', Option.some.injEq] at c
        have hna : (a.name, a.version) ≠ changed := by
          rw [c]
          exact hsc
        have e := resolveAll_other_specs projectPath net net1 changed _ hagree hpath fs fs1 hfs
          i a a1 ha ha1 hna
        refine ⟨a, rfl, by rw [e], ?_, ?_⟩
        · exact congrArg Prod.fst c
        · exact congrArg Prod.snd c

/-- Instance of the amended claim C11: of `left-pad`, `gson` and `lombok`, the
first is not registered and the second is answered with 404; `install`
attempts all three and returns the path of `lombok`.  Where the request for
`lombok` is answered with 404 as well, the attempt on `gson` is the same. -/
theorem install_per_spec_independent_witness :
    entries (expandTransitive [("left-pad", "1.3.0"), ("gson", "2.10.1"), ("lombok", "1.18.30")])
      ≠ [] ∧
    (install "/app" mixedConfigFile none lombokOnly []).attempts.map
        (fun a => (a.name, a.version, a.result)) =
      [("left-pad", "1.3.0", .rejected (.unknownDependency "left-pad")),
       ("gson", "2.10.1", .rejected (.requestFailed "Request failed with status code 404")),
       ("lombok", "1.18.30", .fulfilled "/app/.artha/lib/lombok-1.18.30.jar")] ∧
    jarPaths (install "/app" mixedConfigFile none lombokOnly []).attempts =
      ["/app/.artha/lib/lombok-1.18.30.jar"] ∧
    (install "/app" mixedConfigFile none lombokOnly []).result =
      .fulfilled (jarPaths (install "/app" mixedConfigFile none lombokOnly []).attempts) ∧
    (∃ a, (install "/app" mixedConfigFile none lombokOnly []).attempts[1]? = some a ∧
      (install "/app" mixedConfigFile none allNotFound []).attempts[1]? = some a ∧
      a.name = "gson" ∧ a.version = "2.10.1") := by
  have hspecs : entries (expandTransitive
      ((some [("left-pad", "1.3.0"), ("gson", "2.10.1"), ("lombok", "1.18.30")] :
        Option JsObject).getD [])) =
      [("left-pad", "1.3.0"), ("gson", "2.10.1"), ("lombok", "1.18.30")] := by decide
  have h := install_per_spec_independent "/app"
    (some [("left-pad", "1.3.0"), ("gson", "2.10.1"), ("lombok", "1.18.30")]) lombokOnly []
    (by decide) lombokOnly_noBrokenTransfer
  refine ⟨by decide, by decide, by decide, h.2.2.1, ?_⟩
  refine h.2.2.2 allNotFound [] ("lombok", "1.18.30") allNotFound_noBrokenTransfer ?_
    (fun _ _ => rfl) ?_ 1 ("gson", "2.10.1") (by decide) (by decide)
  · intro s hs hsc coords hl
    rw [hspecs] at hs
    simp only [List.mem_cons, List.mem_singleton, List.not_mem_nil, or_false] at hs
    rcases hs with rfl | rfl | rfl
    · rw [show lookupDependency "left-pad" = .undefined from by decide] at hl
      cases hl
    · rw [show lookupDependency "gson" = .string "com.google.code.gson:gson" from by decide] at hl
      cases hl
      decide
    · exact (hsc rfl).elim
  · intro s hs hsc p hp
    rw [hspecs] at hs
    simp only [List.mem_cons, List.mem_singleton, List.not_mem_nil, or_false] at hs
    rcases hs with rfl | rfl | rfl
    · rw [show cachePath? "/app" "left-pad" "1.3.0" = none from by decide] at hp
      cases hp
    · rw [show cachePath? "/app" "gson" "2.10.1" = some "/app/.artha/lib/gson-2.10.1.jar" from
        by decide] at hp
      cases hp
      decide
    · exact (hsc rfl).elim

theorem splitChars_plain {seg : List Char} (h : '/' ∉ seg) : splitChars '/' seg = [seg] := by
  induction seg with
  | nil => rfl
  | cons c cs ih =>
    have hc : c ≠ '/' := fun e => h (e ▸ List.mem_cons_self _ _)
    have hcs : '/' ∉ cs := fun m => h (List.mem_cons_of_mem _ m)
    simp only [splitChars, hc, if_false, ih hcs]

theorem splitChars_append {seg : List Char} (rest : List Char) (h : '/' ∉ seg) :
    splitChars '/' (seg ++ '/' :: rest) = seg :: splitChars '/' rest := by
  induction seg with
  | nil => simp [splitChars]
  | cons c cs ih =>
    have hc : c ≠ '/' := fun e => h (e ▸ List.mem_cons_self _ _)
    have hcs : '/' ∉ cs := fun m => h (List.mem_cons_of_mem _ m)
    rw [List.cons_append, splitChars, if_neg hc, ih hcs]

theorem joinSegments_cons_cons (seg seg2 : List Char) (rest : List (List Char)) :
    joinSegments (seg :: seg2 :: rest) = seg ++ '/' :: joinSegments (seg2 :: rest) := rfl

theorem splitChars_joinSegments {segs : List (List Char)} (hne : segs ≠ [])
    (h : ∀ seg ∈ segs, '/' ∉ seg) : splitChars '/' (joinSegments segs) = segs := by
  induction segs with
  | nil => exact (hne rfl).elim
  | cons seg rest ih =>
    cases rest with
    | nil => exact splitChars_plain (h seg (List.mem_cons_self _ _))
    | cons seg2 rest2 =>
      rw [joinSegments_cons_cons, splitChars_append _ (h seg (List.mem_cons_self _ _)),
        ih (by simp) (fun s hs => h s (List.mem_cons_of_mem _ hs))]

theorem normalizeSegments_plain (allow : Bool) (acc segs : List (List Char))
    (h : ∀ seg ∈ segs, PlainSegment seg) :
    normalizeSegments allow acc segs = acc.reverse ++ segs := by
  induction segs generalizing acc with
  | nil => simp [normalizeSegments]
  | cons seg rest ih =>
    obtain ⟨h1, -, h3, h4⟩ := h seg (List.mem_cons_self _ _)
    rw [normalizeSegments.eq_def]
    simp only [h1, h3, h4, or_self, if_false]
    rw [ih _ (fun s hs => h s (List.mem_cons_of_mem _ hs))]
    simp

theorem intercalate_eq_joinSegments (segs : List (List Char)) :
    ['/'].intercalate segs = joinSegments segs := by
  induction segs with
  | nil => rfl
  | cons seg rest ih =>
    cases rest with
    | nil => simp [List.intercalate, joinSegments]
    | cons seg2 rest2 =>
      rw [joinSegments_cons_cons, ← ih]
      simp [List.intercalate, List.intersperse]

theorem joinSegments_ne_nil {segs : List (List Char)} (hne : segs ≠ [])
    (h : ∀ seg ∈ segs, PlainSegment seg) : joinSegments segs ≠ [] := by
  cases segs with
  | nil => exact (hne rfl).elim
  | cons seg rest =>
    have h1 := (h seg (List.mem_cons_self _ _)).1
    cases rest with
    | nil => exact h1
    | cons seg2 rest2 =>
      rw [joinSegments_cons_cons]
      intro e
      exact h1 (List.append_eq_nil.1 e).1

theorem joinSegments_head {segs : List (List Char)} (hne : segs ≠ [])
    (h : ∀ seg ∈ segs, PlainSegment seg) : (joinSegments segs).head? ≠ some '/' := by
  cases segs with
  | nil => exact (hne rfl).elim
  | cons seg rest =>
    obtain ⟨h1, h2, -, -⟩ := h seg (List.mem_cons_self _ _)
    cases seg with
    | nil => exact (h1 rfl).elim
    | cons c cs =>
      have hc : c ≠ '/' := fun e => h2 (e ▸ List.mem_cons_self _ _)
      cases rest with
      | nil => simpa [joinSegments] using hc
      | cons seg2 rest2 => simpa [joinSegments_cons_cons] using hc

theorem joinSegments_getLast {segs : List (List Char)} (hne : segs ≠ [])
    (h : ∀ seg ∈ segs, PlainSegment seg) : (joinSegments segs).getLast? ≠ some '/' := by
  induction segs with
  | nil => exact (hne rfl).elim
  | cons seg rest ih =>
    obtain ⟨h1, h2, -, -⟩ := h seg (List.mem_cons_self _ _)
    cases rest with
    | nil =>
      intro e
      exact h2 (List.mem_of_getLast?_eq_some (by simpa [joinSegments] using e))
    | cons seg2 rest2 =>
      have ih2 := ih (by simp) (fun s hs => h s (List.mem_cons_of_mem _ hs))
      have hne2 := @joinSegments_ne_nil (seg2 :: rest2) (by simp)
        (fun s hs => h s (List.mem_cons_of_mem _ hs))
      rw [joinSegments_cons_cons, List.getLast?_append_of_ne_nil _ (by simp)]
      cases hj : joinSegments (seg2 :: rest2) with
      | nil => exact (hne2 hj).elim
      | cons d ds =>
        rw [hj] at ih2
        rw [List.getLast?_cons_cons]
        exact ih2

theorem pathNormalize_plain (absolute : Bool) {segs : List (List Char)} (hne : segs ≠ [])
    (h : ∀ seg ∈ segs, PlainSegment seg) :
    pathNormalize ((if absolute then ['/'] else []) ++ joinSegments segs) =
      (if absolute then ['/'] else []) ++ joinSegments segs := by
  have hj := joinSegments_ne_nil hne h
  have hhead := joinSegments_head hne h
  have hlast := joinSegments_getLast hne h
  have hsplit := splitChars_joinSegments hne (fun seg hs => (h seg hs).2.1)
  obtain ⟨d, ds, hd⟩ := List.exists_cons_of_ne_nil hj
  cases absolute with
  | true =>
    have hl : ('/' :: joinSegments segs).getLast? ≠ some '/' := by
      rw [hd, List.getLast?_cons_cons, ← hd]
      exact hlast
    have hs : splitChars '/' ('/' :: joinSegments segs) = [] :: segs := by
      rw [splitChars, if_pos rfl, hsplit]
    have hn : normalizeSegments false [] ([] :: segs) = segs := by
      rw [normalizeSegments.eq_def]
      simp only [true_or, if_true]
      rw [normalizeSegments_plain _ _ _ h]
      rfl
    simp only [pathNormalize, if_true, List.singleton_append, List.cons_ne_nil, if_false,
      List.head?_cons, hl, hs, decide_True, Bool.not_true, hn, intercalate_eq_joinSegments, hj,
      List.append_nil, decide_False]
  | false =>
    have hn : normalizeSegments true [] segs = segs := by
      rw [normalizeSegments_plain _ _ _ h]
      rfl
    simp only [pathNormalize, Bool.false_eq_true, if_false, List.nil_append, hj, hhead, hlast,
      hsplit, decide_False, Bool.not_false, hn, intercalate_eq_joinSegments, List.append_nil]

theorem joinSegments_append {segs more : List (List Char)} (hne : segs ≠ [])
    (hm : more ≠ []) :
    joinSegments (segs ++ more) = joinSegments segs ++ '/' :: joinSegments more := by
  induction segs with
  | nil => exact (hne rfl).elim
  | cons seg rest ih =>
    cases rest with
    | nil =>
      obtain ⟨m, ms, rfl⟩ := List.exists_cons_of_ne_nil hm
      rfl
    | cons seg2 rest2 =>
      have ih2 := ih (by simp)
      rw [List.cons_append, List.cons_append, joinSegments_cons_cons, ← List.cons_append, ih2,
        joinSegments_cons_cons]
      simp

theorem plainPath_extend {path : String} (more : List (List Char)) (hp : PlainPath path)
    (hm : more ≠ []) (hplain : ∀ seg ∈ more, PlainSegment seg) :
    pathNormalize (path.data ++ '/' :: joinSegments more) =
      path.data ++ '/' :: joinSegments more ∧
    PlainPath (String.mk (path.data ++ '/' :: joinSegments more)) := by
  obtain ⟨absolute, segs, hne, hs, hd⟩ := hp
  have hall : ∀ seg ∈ segs ++ more, PlainSegment seg := by
    intro seg hseg
    rcases List.mem_append.1 hseg with h1 | h1
    · exact hs seg h1
    · exact hplain seg h1
  have he : path.data ++ '/' :: joinSegments more =
      (if absolute then ['/'] else []) ++ joinSegments (segs ++ more) := by
    rw [hd, joinSegments_append hne hm, List.append_assoc]
  refine ⟨?_, absolute, segs ++ more, by simp [hne], hall, he⟩
  rw [he]
  exact pathNormalize_plain absolute (by simp [hne]) hall

theorem plainPath_ne_empty {path : String} (hp : PlainPath path) : path ≠ "" := by
  obtain ⟨absolute, segs, hne, hs, hd⟩ := hp
  intro e
  have hj := joinSegments_ne_nil hne hs
  rw [e] at hd
  cases absolute
  · exact hj (by simpa using hd.symm)
  · simp at hd

theorem pathJoin_plain {path : String} (more : List (List Char)) (hp : PlainPath path)
    (hm : more ≠ []) (hplain : ∀ seg ∈ more, PlainSegment seg) :
    pathJoin [path, String.mk (joinSegments more)] =
      String.mk (path.data ++ '/' :: joinSegments more) := by
  have h1 := plainPath_ne_empty hp
  have h2 : String.mk (joinSegments more) ≠ "" := by
    intro e
    exact joinSegments_ne_nil hm hplain (congrArg String.data e)
  have hi : ("/".intercalate [path, String.mk (joinSegments more)]).data =
      path.data ++ '/' :: joinSegments more := by
    simp [String.intercalate, String.intercalate.go]
  simp only [pathJoin, List.filter, h1, h2, ne_eq, not_false_eq_true, decide_True,
    List.cons_ne_nil, if_false, hi, (plainPath_extend more hp hm hplain).1]

theorem registered_coords :
    ∀ p ∈ DEPENDENCY_MAP,
      p.2 = groupIdOf p.2 ++ ":" ++ artifactIdOf p.2 ∧
      (artifactIdOf p.2).data ≠ [] ∧ '/' ∉ (artifactIdOf p.2).data := by
  decide

theorem lookup_registered {name coords : String} (h : lookupDependency name = .string coords) :
    (name, coords) ∈ DEPENDENCY_MAP := by
  unfold lookupDependency at h
  cases hf : DEPENDENCY_MAP.find? (fun p => p.1 = name) with
  | none =>
    simp only [hf, Option.map_none'] at h
    split at h <;> cases h
  | some p =>
    simp only [hf, Option.map_some', JsValue.string.injEq] at h
    have hm := List.mem_of_find?_eq_some hf
    have hp := List.find?_some hf
    simp only [decide_eq_true_eq] at hp
    rcases p with ⟨n, c⟩
    simp only at hp h
    rw [← hp, ← h]
    exact hm

theorem jarName_plain {artifactId version : String} (h1 : '/' ∉ artifactId.data)
    (h2 : '/' ∉ version.data) :
    PlainSegment (artifactId ++ "-" ++ version ++ ".jar").data := by
  have hd : (artifactId ++ "-" ++ version ++ ".jar").data =
      artifactId.data ++ '-' :: (version.data ++ ['.', 'j', 'a', 'r']) := by
    simp [String.data_append]
  have hlen : 5 ≤ (artifactId ++ "-" ++ version ++ ".jar").data.length := by
    rw [hd]
    simp only [List.length_append, List.length_cons, List.length_nil]
    omega
  refine ⟨?_, ?_, ?_, ?_⟩
  · intro e
    rw [e] at hlen
    simp at hlen
  · rw [hd]
    simp only [List.mem_append, List.mem_cons, List.mem_singleton, not_or]
    refine ⟨h1, by decide, h2, by decide, by decide, by decide, by decide, ?_⟩
    simp
  · intro e
    rw [e] at hlen
    simp at hlen
  · intro e
    rw [e] at hlen
    simp at hlen

theorem libDir_plain {projectPath : String} (hp : PlainPath projectPath) :
    libDir projectPath = projectPath ++ "/.artha/lib" ∧ PlainPath (libDir projectPath) := by
  have hm : ∀ seg ∈ [['.', 'a', 'r', 't', 'h', 'a'], ['l', 'i', 'b']], PlainSegment seg := by
    intro seg hseg
    simp only [List.mem_cons, List.mem_singleton, List.not_mem_nil, or_false] at hseg
    rcases hseg with rfl | rfl <;> exact ⟨by decide, by decide, by decide, by decide⟩
  have h1 := plainPath_ne_empty hp
  have hi : ("/".intercalate [projectPath, ".artha", "lib"]).data =
      projectPath.data ++ '/' :: joinSegments [['.', 'a', 'r', 't', 'h', 'a'], ['l', 'i', 'b']] := by
    simp [String.intercalate, String.intercalate.go, joinSegments]
  obtain ⟨hn, hpl⟩ := plainPath_extend _ hp (by simp) hm
  have he : libDir projectPath = String.mk (projectPath.data ++ '/' ::
      joinSegments [['.', 'a', 'r', 't', 'h', 'a'], ['l', 'i', 'b']]) := by
    have e1 : (".artha" : String) ≠ "" := by decide
    have e2 : ("lib" : String) ≠ "" := by decide
    simp only [libDir, pathJoin, List.filter, h1, e1, e2, ne_eq, not_false_eq_true,
      decide_True, List.cons_ne_nil, if_false, hi, hn]
  refine ⟨?_, he ▸ hpl⟩
  rw [he]
  apply String.ext
  simp [joinSegments]

theorem jarPathOf_plain {projectPath coords version : String} (hp : PlainPath projectPath)
    (ha : '/' ∉ (artifactIdOf coords).data) (hv : '/' ∉ version.data) :
    jarPathOf projectPath coords version =
      projectPath ++ "/.artha/lib/" ++ artifactIdOf coords ++ "-" ++ version ++ ".jar" := by
  obtain ⟨hl, hpl⟩ := libDir_plain hp
  have hj := jarName_plain ha hv
  have hjoin := pathJoin_plain [(artifactIdOf coords ++ "-" ++ version ++ ".jar").data] hpl
    (by simp) (by
      intro seg hseg
      rw [List.mem_singleton.1 hseg]
      exact hj)
  have hmk : String.mk (joinSegments [(artifactIdOf coords ++ "-" ++ version ++ ".jar").data]) =
      artifactIdOf coords ++ "-" ++ version ++ ".jar" := rfl
  rw [hmk] at hjoin
  rw [jarPathOf, hjoin, hl]
  apply String.ext
  simp [joinSegments, String.data_append]

theorem download_effects (projectPath name version coords : String) (fs : FileSystem)
    (net : Network) (hreg : lookupDependency name = .string coords) :
    (downloadDependency projectPath name version fs net).effects.head? =
      some (.pathExists (jarPathOf projectPath coords version)) ∧
    (∀ e ∈ (downloadDependency projectPath name version fs net).effects,
      e = .pathExists (jarPathOf projectPath coords version) ∨
      e = .httpGet (urlOf coords version) 30000 ∨
      e = .createWriteStream (jarPathOf projectPath coords version)) ∧
    (pathExists fs (jarPathOf projectPath coords version) = false →
      Effect.httpGet (urlOf coords version) 30000 ∈
        (downloadDependency projectPath name version fs net).effects) ∧
    (∀ path, (downloadDependency projectPath name version fs net).result = .fulfilled path →
      path = jarPathOf projectPath coords version) := by
  by_cases hex : pathExists fs (jarPathOf projectPath coords version) = true
  · rw [download_cache_hit _ _ _ _ _ _ hreg hex]
    simp [hex]
  · have hex2 : pathExists fs (jarPathOf projectPath coords version) = false := by
      simpa using hex
    cases hn : net (urlOf coords version) with
    | requestError m => simp [downloadDependency, hreg, hex2, hn]
    | response body ending =>
      cases ending with
      | finish =>
        simp [downloadDependency, hreg, hex2, hn]
      | writeError w m => cases w <;> simp [downloadDependency, hreg, hex2, hn]
      | sourceError n => simp [downloadDependency, hreg, hex2, hn]

/-- Claim C12, as stated, fails for the cache path: `path.join` normalizes what
it joins, so a version with `..` segments moves the cache file out of
`.artha/lib` (here to `/app/evil.jar`), and for the project path `.` the cache
path is `.artha/lib/gson-2.10.1.jar`, not `./.artha/lib/gson-2.10.1.jar`. -/
theorem version_escapes_cache_directory :
    lookupDependency "gson" = .string "com.google.code.gson:gson" ∧
    artifactIdOf "com.google.code.gson:gson" = "gson" ∧
    jarPathOf "/app" "com.google.code.gson:gson" "x/../../../evil" = "/app/evil.jar" ∧
    "/app/evil.jar" ≠
      "/app" ++ "/.artha/lib/" ++ "gson" ++ "-" ++ "x/../../../evil" ++ ".jar" ∧
    (downloadDependency "/app" "gson" "x/../../../evil" [] offline).effects.head? =
      some (.pathExists "/app/evil.jar") ∧
    jarPathOf "." "com.google.code.gson:gson" "2.10.1" = ".artha/lib/gson-2.10.1.jar" ∧
    (".artha/lib/gson-2.10.1.jar" : String) ≠
      "." ++ "/.artha/lib/" ++ "gson" ++ "-" ++ "2.10.1" ++ ".jar" := by
  decide

/-- Claim C12, amended.  For a registered name, whose coordinate is
`groupId:artifactId`, and every version `v`: the URL is
`https://repo1.maven.org/maven2/{groupPath}/{artifactId}/{v}/{artifactId}-{v}.jar`
with `groupPath` the `groupId` with every `.` replaced by `/`; the cache path is
`path.join(path.join(projectPath, '.artha', 'lib'), '{artifactId}-{v}.jar')`,
which is `{projectPath}/.artha/lib/{artifactId}-{v}.jar` when `projectPath` is
made of plain segments and `v` has no `/`.  Whatever the file system and the
network, a call tests that cache path first, touches no other path, sends no
other request than a GET of that URL with a timeout of 30000 ms (which it does
send when the cache file is missing), and is fulfilled with that path only. -/
theorem download_locations (projectPath name version coords : String)
    (hreg : lookupDependency name = .string coords) :
    coords = groupIdOf coords ++ ":" ++ artifactIdOf coords ∧
    (replaceDots (groupIdOf coords)).data =
      (groupIdOf coords).data.map (fun c => if c = '.' then '/' else c) ∧
    urlOf coords version =
      "https://repo1.maven.org/maven2/" ++ replaceDots (groupIdOf coords) ++ "/" ++
        artifactIdOf coords ++ "/" ++ version ++ "/" ++
        artifactIdOf coords ++ "-" ++ version ++ ".jar" ∧
    jarPathOf projectPath coords version =
      pathJoin [pathJoin [projectPath, ".artha", "lib"],
        artifactIdOf coords ++ "-" ++ version ++ ".jar"] ∧
    (PlainPath projectPath → '/' ∉ version.data →
      jarPathOf projectPath coords version =
        projectPath ++ "/.artha/lib/" ++ artifactIdOf coords ++ "-" ++ version ++ ".jar") ∧
    (∀ (fs : FileSystem) (net : Network),
      (downloadDependency projectPath name version fs net).effects.head? =
        some (.pathExists (jarPathOf projectPath coords version)) ∧
      (∀ e ∈ (downloadDependency projectPath name version fs net).effects,
        e = .pathExists (jarPathOf projectPath coords version) ∨
        e = .httpGet (urlOf coords version) 30000 ∨
        e = .createWriteStream (jarPathOf projectPath coords version)) ∧
      (pathExists fs (jarPathOf projectPath coords version) = false →
        Effect.httpGet (urlOf coords version) 30000 ∈
          (downloadDependency projectPath name version fs net).effects) ∧
      (∀ path, (downloadDependency projectPath name version fs net).result = .fulfilled path →
        path = jarPathOf projectPath coords version)) := by
  have hm := registered_coords (name, coords) (lookup_registered hreg)
  refine ⟨hm.1, rfl, rfl, rfl, ?_, ?_⟩
  · intro hp hv
    exact jarPathOf_plain hp hm.2.2 hv
  · intro fs net
    exact download_effects projectPath name version coords fs net hreg

/-- Instance of the amended claim C12 for `gson@2.10.1` in the project `/app`. -/
theorem download_locations_witness :
    lookupDependency "gson" = .string "com.google.code.gson:gson" ∧
    urlOf "com.google.code.gson:gson" "2.10.1" =
      "https://repo1.maven.org/maven2/com/google/code/gson/gson/2.10.1/gson-2.10.1.jar" ∧
    jarPathOf "/app" "com.google.code.gson:gson" "2.10.1" = "/app/.artha/lib/gson-2.10.1.jar" ∧
    jarPathOf "/app" "com.google.code.gson:gson" "2.10.1" =
      "/app" ++ "/.artha/lib/" ++ artifactIdOf "com.google.code.gson:gson" ++ "-" ++ "2.10.1" ++
        ".jar" :=
  ⟨by decide, by decide, by decide,
    (download_locations "/app" "gson" "2.10.1" "com.google.code.gson:gson" (by decide)).2.2.2.2.1
      ⟨true, [['a', 'p', 'p']], by simp,
        fun seg hseg => by
          rw [List.mem_singleton.1 hseg]
          exact ⟨by decide, by decide, by decide, by decide⟩,
        by decide⟩
      (by decide)⟩

end Deps

end Artha
